import Mathlib

/-!
# LiveSupport `AudioClip`: metadata store, configuration, tag import and summary

A shallow embedding of `modules/core/src/AudioClip.cxx` and a verification of
its documented behaviour.

Conventions of the embedding.

* Texts (`std::string`, `Glib::ustring`) are `String`s; the positions and
  lengths of `std::string` (`find`, `substr`) count the bytes of their UTF-8
  encoding.  The platform is LP64: `unsigned int` has 32 bits and
  `std::string::size_type` has 64 bits.
* The document tree of libxml++ is the inductive type `Node`.  A pointer into
  the tree is the position of the node it points to; the methods used by the
  source (`get_children`, `get_child_text`, `set_child_text`, `add_child`,
  `set_namespace`, `import_node`, ...) are functions on values.  Namespace
  declarations are recorded on the element that carries them, and a prefix is
  in scope below an element when that element or an ancestor declares it (the
  prefix `xml` always is).
* `boost::posix_time::time_duration` is a count of microseconds.
* The tag conversion table and what TagLib finds in a file are arguments of
  `readTag`.  The reading of a summary text follows the grammar of XML for the
  one form `getXmlString` writes.
* A call ends in one of three ways: it returns, it throws the
  `std::invalid_argument` of its exception specification (the object keeps the
  fields assigned so far), or the process is lost: a null pointer is
  dereferenced, or an exception leaves a function whose exception
  specification does not list it.
-/

namespace LiveSupport

/-! ## Document tree -/

/-- The data of an element node, over the type `N` of its child nodes. -/
structure ElementOf (N : Type) where
  /-- The local name. -/
  name : String
  /-- The prefix of the namespace of the element, empty when it has none. -/
  nsPrefix : String
  /-- The namespace declarations written on the element: prefix and URI. -/
  nsDecls : List (String × String)
  /-- The attributes: name and value. -/
  attributes : List (String × String)
  /-- The child nodes, in document order. -/
  children : List N

/-- A node of a document: an element, a text node, or any other node
(comment, processing instruction, entity reference, ...) with its name. -/
inductive Node where
  | element (e : ElementOf Node)
  | text (content : String)
  | other (name : String)

/-- An element node. -/
abbrev Element := ElementOf Node

/-- A document, with its root element when it has one. -/
structure Document where
  root : Option Element

namespace Node

/-- The name of a node, `xmlpp::Node::get_name`. -/
def get_name : Node → String
  | element e => e.name
  | text _ => "text"
  | other n => n

/-- The namespace prefix, `xmlpp::Node::get_namespace_prefix`: only elements
carry one here. -/
def get_namespace_prefix : Node → String
  | element e => e.nsPrefix
  | text _ => ""
  | other _ => ""

/-- The result of `dynamic_cast<xmlpp::Element*>`: `none` is the null pointer. -/
def asElement : Node → Option Element
  | element e => some e
  | text _ => none
  | other _ => none

/-- Whether the node is an element. -/
def isElement : Node → Bool
  | element _ => true
  | text _ => false
  | other _ => false

/-- The children of a node; only elements have any. -/
def children : Node → List Node
  | element e => e.children
  | text _ => []
  | other _ => []

end Node

/-- The test of `xmlpp::Node::get_children(name)`: an empty name selects every
child, otherwise the names must be equal. -/
def nameMatches (name : String) (n : Node) : Bool :=
  decide (name = "") || decide (n.get_name = name)

/-- The children selected by `xmlpp::Node::get_children(name)`. -/
def get_children (children : List Node) (name : String) : List Node :=
  children.filter (nameMatches name)

/-- The value of the first attribute called `name`,
`xmlpp::Element::get_attribute`; `none` is the null pointer. -/
def get_attribute (e : Element) (name : String) : Option String :=
  (e.attributes.find? (fun a => decide (a.1 = name))).map (fun a => a.2)

/-- Set an attribute, `xmlpp::Element::set_attribute`: the value of an existing
attribute of that name is replaced, otherwise the attribute is appended. -/
def set_attribute (e : Element) (name value : String) : Element :=
  if e.attributes.any (fun a => decide (a.1 = name)) then
    { e with attributes :=
        e.attributes.map (fun a => if a.1 = name then (a.1, value) else a) }
  else
    { e with attributes := e.attributes ++ [(name, value)] }

/-- The content of the first text node among `children`. -/
def firstText : List Node → Option String
  | [] => none
  | Node.text s :: _ => some s
  | Node.element _ :: rest => firstText rest
  | Node.other _ :: rest => firstText rest

/-- The content of the text node returned by
`xmlpp::Element::get_child_text`; `none` is the null pointer. -/
def get_child_text (e : Element) : Option String :=
  firstText e.children

/-- The test `xmlpp::Element::has_child_text`. -/
def has_child_text (e : Element) : Bool :=
  (get_child_text e).isSome

/-- Replace the content of the first text node among `children`. -/
def setFirstText (content : String) : List Node → List Node
  | [] => []
  | Node.text _ :: rest => Node.text content :: rest
  | Node.element e :: rest => Node.element e :: setFirstText content rest
  | Node.other n :: rest => Node.other n :: setFirstText content rest

/-- The method `xmlpp::Element::set_child_text`: the first text child gets the
new content, and an element without text child gets a new text node at the
end of its children. -/
def set_child_text (e : Element) (content : String) : Element :=
  match get_child_text e with
  | some _ => { e with children := setFirstText content e.children }
  | none => { e with children := e.children ++ [Node.text content] }

/-- The call `set_child_text(content)` on a node that is an element. -/
def setNodeText (content : String) : Node → Node
  | Node.element e => Node.element (set_child_text e content)
  | Node.text t => Node.text t
  | Node.other o => Node.other o

/-- Apply `f` to the first node of the list that satisfies `p`. -/
def modifyFirst (p : Node → Bool) (f : Node → Node) : List Node → List Node
  | [] => []
  | n :: rest => if p n then f n :: rest else n :: modifyFirst p f rest

/-- Whether the element carries a declaration of the prefix. -/
def declaresPrefix (e : Element) (pre : String) : Bool :=
  e.nsDecls.any (fun d => decide (d.1 = pre))

/-- Whether `xmlSearchNs` finds the prefix for a child of the innermost of
`ancestors`: the prefix `xml` is always bound, any other one has to be declared
by one of the ancestors. -/
def namespaceInScope (ancestors : List Element) (pre : String) : Bool :=
  decide (pre = "xml") || ancestors.any (fun a => declaresPrefix a pre)

/-! ## Durations -/

/-- A `boost::posix_time::time_duration`, counted in microseconds. -/
structure time_duration where
  ticks : Int
  deriving DecidableEq, Repr

/-- The constructor `time_duration(hours, minutes, seconds, fraction)`. -/
def time_duration.ofParts (h m s fs : Nat) : time_duration :=
  ⟨((h * 3600 + m * 60 + s) * 1000000 + fs : Nat)⟩

/-- The delimiters of the time parser of Boost: `-`, `:`, `,` and `.`. -/
def isDurationSeparator (c : Char) : Bool :=
  c = '-' || c = ':' || c = ',' || c = '.'

/-- The tokens of `boost::char_separator`: the maximal runs of characters that
are not delimiters (empty tokens are dropped).  `cur` is the run being read,
in reverse. -/
def durationTokens (cur : List Char) : List Char → List (List Char)
  | [] => if cur.isEmpty then [] else [cur.reverse]
  | c :: cs =>
    if isDurationSeparator c then
      if cur.isEmpty then durationTokens [] cs
      else cur.reverse :: durationTokens [] cs
    else durationTokens (c :: cur) cs

/-- The value of a run of decimal digits, `none` when another character
occurs. -/
def digitsValue (acc : Nat) : List Char → Option Nat
  | [] => some acc
  | c :: cs => if c.isDigit then digitsValue (acc * 10 + (c.toNat - 48)) cs else none

/-- The conversion `boost::lexical_cast` of a token to an unsigned value of at
most `bound`: the token is a non-empty run of decimal digits (a token with a
sign or with any other character is rejected here) whose value fits. `none`
stands for `bad_lexical_cast`. -/
def lexical_cast (bound : Nat) (token : List Char) : Option Nat :=
  if token.isEmpty then none
  else match digitsValue 0 token with
    | some v => if v ≤ bound then some v else none
    | none => none

/-- The fractional seconds of the fourth token: the first six digits count,
fewer digits are scaled up to microseconds. -/
def fractionalTicks (token : List Char) : Option Nat :=
  if 6 ≤ token.length then lexical_cast (2 ^ 63 - 1) (token.take 6)
  else (lexical_cast (2 ^ 63 - 1) token).map (fun v => v * 10 ^ (6 - token.length))

/-- The fields read from the tokens: hours (an `int`), minutes and seconds
(`unsigned short`), fraction; a missing token leaves its field at zero and
tokens after the fourth are ignored. -/
def durationFields : List (List Char) → Option (Nat × Nat × Nat × Nat)
  | [] => some (0, 0, 0, 0)
  | [h] => (lexical_cast (2 ^ 31 - 1) h).map (fun h => (h, 0, 0, 0))
  | [h, m] =>
    (lexical_cast (2 ^ 31 - 1) h).bind fun h =>
    (lexical_cast (2 ^ 16 - 1) m).map fun m => (h, m, 0, 0)
  | [h, m, s] =>
    (lexical_cast (2 ^ 31 - 1) h).bind fun h =>
    (lexical_cast (2 ^ 16 - 1) m).bind fun m =>
    (lexical_cast (2 ^ 16 - 1) s).map fun s => (h, m, s, 0)
  | h :: m :: s :: f :: _ =>
    (lexical_cast (2 ^ 31 - 1) h).bind fun h =>
    (lexical_cast (2 ^ 16 - 1) m).bind fun m =>
    (lexical_cast (2 ^ 16 - 1) s).bind fun s =>
    (fractionalTicks f).map fun f => (h, m, s, f)

/-- The parser `boost::posix_time::duration_from_string` for the delimited
form `hours:minutes:seconds[.fraction]`.  `none` stands for the exception the
parser throws (`std::out_of_range` on the empty text, `bad_lexical_cast` on a
field that is not a number). -/
def duration_from_string (s : String) : Option time_duration :=
  match s.data with
  | [] => none
  | c :: cs =>
    (durationFields (durationTokens [] (c :: cs))).map fun p =>
      let d := time_duration.ofParts p.1 p.2.1 p.2.2.1 p.2.2.2
      if c = '-' then ⟨- d.ticks⟩ else d

/-! ## Keys -/

/-- The number of bits of `unsigned int`. -/
def unsignedIntBits : Nat := 32

/-- The number of bits of `std::string::size_type`. -/
def sizeTypeBits : Nat := 64

/-- The constant `std::string::npos`. -/
def npos : Nat := 2 ^ sizeTypeBits - 1

/-- The number of bytes of a character in UTF-8, the encoding of the texts
held in a `std::string`. -/
def utf8Size (c : Char) : Nat :=
  if c.toNat < 128 then 1 else if c.toNat < 2048 then 2 else if c.toNat < 65536 then 3 else 4

/-- The number of bytes of a text, `std::string::size`. -/
def utf8Length : List Char → Nat
  | [] => 0
  | c :: rest => utf8Size c + utf8Length rest

/-- The position, counted in bytes, of the first occurrence of the character
`c` (of one byte), if there is one. -/
def findChar (c : Char) : List Char → Option Nat
  | [] => none
  | x :: xs => if x = c then some 0 else (findChar c xs).map (· + utf8Size x)

/-- The method `std::string::find(c)`: the position of the first occurrence,
counted in bytes, or `npos`. -/
def find (key : String) (c : Char) : Nat :=
  (findChar c key.data).getD npos

/-- The character that stands for a byte that is no text of its own: a byte
of a character that a position has cut in two. -/
def strayByte : Char := Char.ofNat 65533

/-- The text behind the first `pos` bytes.  A character that the position cuts
in two leaves its last bytes, each shown as `strayByte`. -/
def dropBytes : Nat → List Char → List Char
  | _, [] => []
  | pos, c :: rest =>
    if pos = 0 then c :: rest
    else if utf8Size c ≤ pos then dropBytes (pos - utf8Size c) rest
    else List.replicate (utf8Size c - pos) strayByte ++ rest

/-- The text of the first `n` bytes.  A character that the end cuts in two
leaves its first bytes, each shown as `strayByte`. -/
def takeBytes : Nat → List Char → List Char
  | _, [] => []
  | n, c :: rest =>
    if utf8Size c ≤ n then c :: takeBytes (n - utf8Size c) rest
    else List.replicate n strayByte

/-- The method `std::string::substr(pos, n)`, for `pos` within the text;
positions and lengths are counted in bytes. -/
def substr (s : String) (pos n : Nat) : String :=
  ⟨takeBytes n (dropBytes pos s.data)⟩

/-- The method `std::string::substr(pos)`, for `pos` within the text; the
position is counted in bytes. -/
def substrFrom (s : String) (pos : Nat) : String :=
  ⟨dropBytes pos s.data⟩

/-- The function `separateNameAndNameSpace`: the name and the prefix of a key.
The position of the colon is kept in an `unsigned int`, and `colonPosition+1`
is computed in that type. -/
def separateNameAndNameSpace (key : String) : String × String :=
  let colonPosition := find key ':' % 2 ^ unsignedIntBits
  if colonPosition ≠ npos then
    (substrFrom key ((colonPosition + 1) % 2 ^ unsignedIntBits), substr key 0 colonPosition)
  else
    (key, "")

/-! ## The audio clip -/

/-- The name of the config element, `AudioClip::configElementNameStr`. -/
def configElementNameStr : String := "audioClip"

/-- The name of the attribute to get the id of the audio clip. -/
def idAttrName : String := "id"

/-- The name of the attribute to get the URI of the audio clip. -/
def uriAttrName : String := "uri"

/-- The name of the attribute to get the playlength of the audio clip. -/
def playlengthAttrName : String := "playlength"

/-- The name of the attribute to get the title of the audio clip. -/
def titleAttrName : String := "title"

/-- The name of the metadata child element. -/
def metadataElementName : String := "metadata"

/-- The prefix of the extent (length) metadata element. -/
def extentElementPrefix : String := "dcterms"

/-- The name of the extent (length) metadata element. -/
def extentElementName : String := "extent"

/-- The URI identifier for the `dcterms` prefix. -/
def extentElementUri : String := "http://purl.org/dc/terms/"

/-- The prefix of the title metadata element. -/
def titleElementPrefix : String := "dc"

/-- The name of the title metadata element. -/
def titleElementName : String := "title"

/-- The URI identifier for the `dc` prefix. -/
def titleElementUri : String := "http://purl.org/dc/elements/1.1/"

/-- The URI identifier for the default XML namespace. -/
def defaultPrefixUri : String := "http://www.streamonthefly.org/"

/-- The fields of an `AudioClip`; `none` is a null smart pointer.  A `UniqueId`
is represented by the text it is built from and converted to. -/
structure AudioClip where
  id : Option String
  title : Option String
  playlength : Option time_duration
  uri : Option String
  token : Option String
  xmlAudioClip : Option Document

/-- An audio clip none of whose fields is set. -/
def AudioClip.fresh : AudioClip :=
  { id := none, title := none, playlength := none, uri := none, token := none,
    xmlAudioClip := none }

/-- The ways in which a call loses the process. -/
inductive Abort where
  /-- An exception leaves a function whose exception specification does not
  list it: `std::unexpected`, then `std::terminate`. -/
  | terminate
  /-- A member is called through a null pointer. -/
  | nullDereference
  deriving DecidableEq, Repr

/-- The element made by `add_child("metadata")` followed by the three calls of
`set_namespace_declaration`. -/
def newMetadataElement : Element :=
  { name := "metadata", nsPrefix := "",
    nsDecls := [("", defaultPrefixUri), (titleElementPrefix, titleElementUri),
                (extentElementPrefix, extentElementUri)],
    attributes := [], children := [] }

/-- The element made by `create_root_node("audioClip")`. -/
def newRootElement : Element :=
  { name := "audioClip", nsPrefix := "", nsDecls := [], attributes := [], children := [] }

/-- The element made by `add_child(name)`, `set_namespace(prefix)` (whose
exception for a prefix that is not in scope is caught and leaves the element
without namespace) and `set_child_text(value)`. -/
def newDataElement (rootNode metadata : Element) (value name pre : String) : Element :=
  set_child_text
    { name := name,
      nsPrefix := if namespaceInScope [metadata, rootNode] pre then pre else "",
      nsDecls := [], attributes := [], children := [] }
    value

/-- Lines 443 to 466 of `setMetadata`, on the metadata element: the new
metadata element.  When the loop stops at a node with the prefix, the element
written to is `nodeList.front()`. -/
def setDataElement (rootNode metadata : Element) (value name pre : String) :
    Except Abort Element :=
  let nodeList := get_children metadata.children name
  if nodeList.any (fun node => decide (node.get_namespace_prefix = pre)) then
    match nodeList.head?.bind Node.asElement with
    | none => Except.error Abort.nullDereference
    | some _ =>
      Except.ok { metadata with
        children := modifyFirst (nameMatches name) (setNodeText value) metadata.children }
  else
    Except.ok { metadata with
      children := metadata.children ++ [Node.element (newDataElement rootNode metadata value name pre)] }

/-- Lines 426 to 466 of `setMetadata`, on the root element: the new root. -/
def setInRoot (rootNode : Element) (value name pre : String) : Except Abort Element :=
  match get_children rootNode.children "metadata" with
  | [] =>
    match setDataElement rootNode newMetadataElement value name pre with
    | Except.error a => Except.error a
    | Except.ok metadata =>
      Except.ok { rootNode with children := rootNode.children ++ [Node.element metadata] }
  | front :: _ =>
    match front.asElement with
    | none => Except.error Abort.nullDereference
    | some metadata =>
      match setDataElement rootNode metadata value name pre with
      | Except.error a => Except.error a
      | Except.ok metadata' =>
        Except.ok { rootNode with
          children := modifyFirst (nameMatches "metadata")
            (fun _ => Node.element metadata') rootNode.children }

/-- The root element `setMetadata` works on (lines 423 to 429): the root of the
document of the clip, or a new root in a new document. -/
def documentRoot (xmlAudioClip : Option Document) : Element :=
  match xmlAudioClip with
  | none => newRootElement
  | some doc =>
    match doc.root with
    | none => newRootElement
    | some r => r

/-- The metadata element `setMetadata` works on (lines 430 to 441): the first
child of the root called `metadata`, cast to an element (`none` is the null
pointer the cast gives for another kind of node), or a new one. -/
def targetMetadata (rootNode : Element) : Option Element :=
  match get_children rootNode.children "metadata" with
  | [] => some newMetadataElement
  | front :: _ => front.asElement

/-- Lines 423 to 466 of `setMetadata`, on the document of the clip. -/
def setInDocument (xmlAudioClip : Option Document) (value name pre : String) :
    Except Abort Document :=
  match setInRoot (documentRoot xmlAudioClip) value name pre with
  | Except.error a => Except.error a
  | Except.ok r => Except.ok { root := some r }

/-- The private `AudioClip::setMetadata(value, name, prefix)`. -/
def AudioClip.setMetadata (c : AudioClip) (value name pre : String) :
    Except Abort AudioClip :=
  let afterExtent : Except Abort AudioClip :=
    if pre = extentElementPrefix ∧ name = extentElementName then
      match duration_from_string value with
      | none => Except.error Abort.terminate
      | some d => Except.ok { c with playlength := some d }
    else Except.ok c
  match afterExtent with
  | Except.error a => Except.error a
  | Except.ok c1 =>
    let c2 : AudioClip :=
      if pre = titleElementPrefix ∧ name = titleElementName then
        { c1 with title := some value }
      else c1
    match setInDocument c2.xmlAudioClip value name pre with
    | Except.error a => Except.error a
    | Except.ok doc => Except.ok { c2 with xmlAudioClip := some doc }

/-- The public `AudioClip::setMetadata(value, key)`. -/
def AudioClip.setMetadataKey (c : AudioClip) (value key : String) :
    Except Abort AudioClip :=
  c.setMetadata value (separateNameAndNameSpace key).1 (separateNameAndNameSpace key).2

/-- The loop of `getMetadata` over the nodes called `name`: the first node
with the prefix is cast to an element and the content of its text child is
returned, both without a check. -/
def findMetadataValue (pre : String) : List Node → Except Abort (Option String)
  | [] => Except.ok none
  | node :: rest =>
    if node.get_namespace_prefix = pre then
      match node.asElement with
      | none => Except.error Abort.nullDereference
      | some element =>
        match get_child_text element with
        | none => Except.error Abort.nullDereference
        | some content => Except.ok (some content)
    else findMetadataValue pre rest

/-- The body of `AudioClip::getMetadata` after the key has been separated. -/
def AudioClip.getMetadataAt (c : AudioClip) (name pre : String) :
    Except Abort (Option String) :=
  match c.xmlAudioClip with
  | none => Except.ok none
  | some doc =>
    match doc.root with
    | none => Except.ok none
    | some rootNode =>
      match get_children rootNode.children "metadata" with
      | [] => Except.ok none
      | metadata :: _ => findMetadataValue pre (get_children metadata.children name)

/-- The method `AudioClip::getMetadata(key)`. -/
def AudioClip.getMetadata (c : AudioClip) (key : String) : Except Abort (Option String) :=
  c.getMetadataAt (separateNameAndNameSpace key).1 (separateNameAndNameSpace key).2

/-- The method `AudioClip::setTitle`. -/
def AudioClip.setTitle (c : AudioClip) (title : String) : Except Abort AudioClip :=
  AudioClip.setMetadata { c with title := some title } title titleElementName titleElementPrefix

/-- The method `AudioClip::getMetadataString`, over the serialisation
`write_to_string` of documents. -/
def AudioClip.getMetadataString (write_to_string : Document → String) (c : AudioClip) :
    Option String :=
  match c.xmlAudioClip with
  | none => none
  | some doc => some (write_to_string doc)

/-! ## Configuration -/

/-- The ways in which a call of `AudioClip::configure` ends: it returns, it
throws `std::invalid_argument` with the message `what` (in both cases the clip
is left with the fields shown), or the process is lost. -/
inductive ConfigureResult where
  | returned (clip : AudioClip)
  | threw (what : String) (clip : AudioClip)
  | aborted (why : Abort)

/-- The clip a call of `configure` leaves behind, when the process survives. -/
def ConfigureResult.clip? : ConfigureResult → Option AudioClip
  | returned c => some c
  | threw _ c => some c
  | aborted _ => none

/-- The message of the exception for a wrong element name
(`InvalidConfigElement`). -/
def invalidConfigElementMessage (name : String) : String :=
  "bad configuration element " ++ name

/-- The message of the exception for a missing attribute (`MissingAttribute`). -/
def missingAttributeMessage (attr : String) : String :=
  "missing attribute " ++ attr

/-- The message of the exception for more than one metadata child
(`TooManyMetadataElements`). -/
def tooManyMetadataElementsMessage : String :=
  "more than one " ++ metadataElementName ++ " XML element"

/-- The message of the exception for a field that neither an attribute nor the
metadata child provides (`MissingRequiredField`). -/
def missingRequiredFieldMessage (attr pre name : String) : String :=
  "missing attribute " ++ attr ++ " or metadata element " ++ (pre ++ ":" ++ name)

/-- Lines 238 to 245 of `configure`: the `id` attribute, read when the clip has
no identifier; `none` stands for the exception for a missing attribute. -/
def configureId (c : AudioClip) (element : Element) : Option AudioClip :=
  if c.id = none then
    match get_attribute element idAttrName with
    | none => none
    | some value => some { c with id := some value }
  else some c

/-- Lines 247 to 254 of `configure`: the `playlength` attribute. -/
def configurePlaylength (c : AudioClip) (element : Element) : Except Abort AudioClip :=
  if c.playlength = none then
    match get_attribute element playlengthAttrName with
    | none => Except.ok c
    | some value =>
      match duration_from_string value with
      | none => Except.error Abort.terminate
      | some d =>
        AudioClip.setMetadata { c with playlength := some d } value
          extentElementName extentElementPrefix
  else Except.ok c

/-- Lines 256 to 260 of `configure`: the `title` attribute. -/
def configureTitle (c : AudioClip) (element : Element) : Except Abort AudioClip :=
  if c.title = none then
    match get_attribute element titleAttrName with
    | none => Except.ok c
    | some value =>
      AudioClip.setMetadata { c with title := some value } value
        titleElementName titleElementPrefix
  else Except.ok c

/-- Lines 262 to 265 of `configure`: the `uri` attribute. -/
def configureUri (c : AudioClip) (element : Element) : AudioClip :=
  if c.uri = none then
    match get_attribute element uriAttrName with
    | none => c
    | some value => { c with uri := some value }
  else c

/-- One round of the loop of lines 284 to 320 of `configure`. -/
def scanDataNode (c : AudioClip) (dataNode : Node) : Except Abort AudioClip :=
  match dataNode.asElement with
  | none => Except.ok c
  | some dataElement =>
    let afterExtent : Except Abort AudioClip :=
      if c.playlength = none ∧ dataNode.get_namespace_prefix = extentElementPrefix
          ∧ dataNode.get_name = extentElementName then
        match get_child_text dataElement with
        | some content =>
          match duration_from_string content with
          | none => Except.error Abort.terminate
          | some d => Except.ok { c with playlength := some d }
        | none => Except.ok { c with playlength := some (time_duration.ofParts 0 0 0 0) }
      else Except.ok c
    match afterExtent with
    | Except.error a => Except.error a
    | Except.ok c1 =>
      if c1.title = none ∧ dataNode.get_namespace_prefix = titleElementPrefix
          ∧ dataNode.get_name = titleElementName then
        match get_child_text dataElement with
        | some content => Except.ok { c1 with title := some content }
        | none => Except.ok { c1 with title := some "" }
      else Except.ok c1

/-- The loop of lines 284 to 320 of `configure`. -/
def scanDataFields (c : AudioClip) : List Node → Except Abort AudioClip
  | [] => Except.ok c
  | dataNode :: rest =>
    match scanDataNode c dataNode with
    | Except.error a => Except.error a
    | Except.ok c1 => scanDataFields c1 rest

/-- Lines 331 to 345 of `configure`: the two required fields. -/
def checkRequired (c : AudioClip) : ConfigureResult :=
  if c.playlength = none then
    ConfigureResult.threw
      (missingRequiredFieldMessage playlengthAttrName extentElementPrefix extentElementName) c
  else if c.title = none then
    ConfigureResult.threw
      (missingRequiredFieldMessage titleAttrName titleElementPrefix titleElementName) c
  else ConfigureResult.returned c

/-- Lines 275 to 278 of `configure`: the root of the new document, made by
`create_root_node("audioClip")`, `set_attribute("id", ...)` and the recursive
`import_node` of the metadata element. -/
def importedRoot (id : String) (metadataElement : Element) : Element :=
  { set_attribute newRootElement "id" id with children := [Node.element metadataElement] }

/-- Lines 267 to 329 of `configure`: the metadata children.  The first one is
copied into a new document of the clip and scanned, a second one is an
error. -/
def configureMetadata (c : AudioClip) (element : Element) : ConfigureResult :=
  match get_children element.children metadataElementName with
  | [] => checkRequired c
  | first :: rest =>
    match first.asElement, c.id with
    | none, _ => ConfigureResult.aborted Abort.nullDereference
    | some _, none => ConfigureResult.aborted Abort.nullDereference
    | some metadataElement, some id =>
      match scanDataFields
              { c with xmlAudioClip := some { root := some (importedRoot id metadataElement) } }
              (get_children metadataElement.children "") with
      | Except.error a => ConfigureResult.aborted a
      | Except.ok c1 =>
        if rest.isEmpty then checkRequired c1
        else ConfigureResult.threw tooManyMetadataElementsMessage c1

/-- The method `AudioClip::configure`. -/
def AudioClip.configure (c : AudioClip) (element : Element) : ConfigureResult :=
  if element.name ≠ configElementNameStr then
    ConfigureResult.threw (invalidConfigElementMessage element.name) c
  else
    match configureId c element with
    | none => ConfigureResult.threw (missingAttributeMessage idAttrName) c
    | some c1 =>
      match configurePlaylength c1 element with
      | Except.error a => ConfigureResult.aborted a
      | Except.ok c2 =>
        match configureTitle c2 element with
        | Except.error a => ConfigureResult.aborted a
        | Except.ok c3 => configureMetadata (configureUri c3 element) element

/-! ## Compositions used in the statements -/

/-- The call `setMetadata(value, name, prefix)` followed by `getMetadata` on
the same name and prefix. -/
def setThenGet (c : AudioClip) (value name pre : String) : Except Abort (Option String) :=
  match c.setMetadata value name pre with
  | Except.error a => Except.error a
  | Except.ok c1 => c1.getMetadataAt name pre

/-- The call `setMetadata(value, key)` followed by `getMetadata(key)`. -/
def setThenGetKey (c : AudioClip) (value key : String) : Except Abort (Option String) :=
  match c.setMetadataKey value key with
  | Except.error a => Except.error a
  | Except.ok c1 => c1.getMetadata key

/-- Whether `setMetadata` on the key with the local name `name` and the prefix
`pre` finds the pointers it dereferences: the metadata element it works on is
an element (or is created), and when one of its children that
`get_children(name)` selects has the prefix, the first child so selected is an
element. -/
def canWrite (xmlAudioClip : Option Document) (name pre : String) : Bool :=
  match targetMetadata (documentRoot xmlAudioClip) with
  | none => false
  | some metadata =>
    if (get_children metadata.children name).any
        (fun node => decide (node.get_namespace_prefix = pre)) then
      ((get_children metadata.children name).head?.bind Node.asElement).isSome
    else true

/-- Whether a child of a metadata element, when it is a `dcterms:extent`
element with text, holds a text that `duration_from_string` accepts. -/
def extentWellFormed (n : Node) : Bool :=
  match n with
  | Node.element d =>
    if d.nsPrefix = extentElementPrefix ∧ d.name = extentElementName then
      match get_child_text d with
      | none => true
      | some content => (duration_from_string content).isSome
    else true
  | Node.text _ => true
  | Node.other _ => true

/-- Whether the duration texts of a configuration element are well formed: the
`playlength` attribute, and the `dcterms:extent` children of the first
metadata child. -/
def durationsWellFormed (element : Element) : Bool :=
  (match get_attribute element playlengthAttrName with
    | none => true
    | some value => (duration_from_string value).isSome) &&
  (match get_children element.children metadataElementName with
    | Node.element metadataElement :: _ => metadataElement.children.all extentWellFormed
    | _ => true)

/-- An element with the given name and prefix that holds the text `content`. -/
def textElement (pre name content : String) : Node :=
  Node.element { name := name, nsPrefix := pre, nsDecls := [], attributes := [],
                 children := [Node.text content] }

/-- An element with the given name and prefix and no content. -/
def emptyElement (pre name : String) : Node :=
  Node.element { name := name, nsPrefix := pre, nsDecls := [], attributes := [],
                 children := [] }

/-- A metadata element that declares the prefixes `ns`, `dc` and `dcterms`. -/
def metadataElement (children : List Node) : Node :=
  Node.element { name := "metadata", nsPrefix := "",
                 nsDecls := [("ns", "http://example.org/ns/"), ("dc", titleElementUri),
                             ("dcterms", extentElementUri)],
                 attributes := [], children := children }

/-- An `audioClip` configuration element. -/
def audioClipElement (attributes : List (String × String)) (children : List Node) :
    Element :=
  { name := "audioClip", nsPrefix := "", nsDecls := [], attributes := attributes,
    children := children }

/-- The element
`<audioClip id="1" playlength="00:00:01"><metadata><ns:title>a</ns:title><dc:title>b</dc:title></metadata></audioClip>`. -/
def twoTitlesElement : Element :=
  audioClipElement [("id", "1"), ("playlength", "00:00:01")]
    [metadataElement [textElement "ns" "title" "a", textElement "dc" "title" "b"]]

/-- The element
`<audioClip id="1" playlength="00:00:01" title="A"><metadata><dc:title>B</dc:title></metadata></audioClip>`. -/
def attributeAndEntryElement : Element :=
  audioClipElement [("id", "1"), ("playlength", "00:00:01"), ("title", "A")]
    [metadataElement [textElement "dc" "title" "B"]]

/-- The element
`<audioClip id="1" playlength="00:00:01"><metadata><dc:title/></metadata></audioClip>`. -/
def emptyTitleElement : Element :=
  audioClipElement [("id", "1"), ("playlength", "00:00:01")]
    [metadataElement [emptyElement "dc" "title"]]

/-- The element `<audioClip id="42" playlength="01:02:03" title="Intro"/>`. -/
def introElement : Element :=
  audioClipElement [("id", "42"), ("playlength", "01:02:03"), ("title", "Intro")] []

/-- The keys, prefix and local name, of the elements among `nodes`. -/
def keysOf (nodes : List Node) : List (String × String) :=
  nodes.filterMap (fun n => n.asElement.map (fun d => (d.nsPrefix, d.name)))

/-- The keys of the entry elements of the store: of the element children of
the first child of the root called `metadata`. -/
def entryKeys (xmlAudioClip : Option Document) : List (String × String) :=
  match xmlAudioClip with
  | none => []
  | some doc =>
    match doc.root with
    | none => []
    | some rootNode =>
      match get_children rootNode.children "metadata" with
      | [] => []
      | metadata :: _ => keysOf metadata.children

/-- A sequence of calls `setMetadata(value, name, prefix)`, each call given as
value, name and prefix. -/
def setAll (c : AudioClip) : List (String × String × String) → Except Abort AudioClip
  | [] => Except.ok c
  | call :: rest =>
    match c.setMetadata call.1 call.2.1 call.2.2 with
    | Except.error a => Except.error a
    | Except.ok c1 => setAll c1 rest

/-- The prefixes in scope below the metadata element that `setMetadata`
creates: none, `xml`, `dc` and `dcterms`. -/
def declaredPrefixes : List String := ["", "xml", titleElementPrefix, extentElementPrefix]

/-- The store `setMetadata` builds from nothing: a root `audioClip` with a new
metadata element that holds the entries. -/
def storeWith (entries : List Node) : Document :=
  { root := some { newRootElement with
      children := [Node.element { newMetadataElement with children := entries }] } }

/-- The store with the mirrored `dcterms:extent` entry alone. -/
def extentStore (playlength : String) : Document :=
  storeWith [textElement extentElementPrefix extentElementName playlength]

/-- The store `configure` builds from the attributes `playlength` and `title`
alone. -/
def mirroredStore (playlength title : String) : Document :=
  storeWith [textElement extentElementPrefix extentElementName playlength,
             textElement titleElementPrefix titleElementName title]

/-- The element
`<audioClip id="1" playlength="00:00:01" title="A"><metadata><dc:title>B</dc:title><dcterms:extent>00:00:09</dcterms:extent></metadata></audioClip>`. -/
def precedenceElement : Element :=
  audioClipElement [("id", "1"), ("playlength", "00:00:01"), ("title", "A")]
    [metadataElement [textElement "dc" "title" "B", textElement "dcterms" "extent" "00:00:09"]]

/-- The element `<audioClip id="1"><metadata/><metadata/></audioClip>`. -/
def twoMetadataElement : Element :=
  audioClipElement [("id", "1")] [metadataElement [], metadataElement []]

/-- A clip whose store holds the entry `dc:title` with the text `old`. -/
def clipWithTitleEntry : AudioClip :=
  { AudioClip.fresh with
    title := some "old"
    xmlAudioClip := some (storeWith [textElement titleElementPrefix titleElementName "old"]) }

/-- The element `<audioClip id="1" title="T"/>`. -/
def noPlaylengthAttributesElement : Element :=
  audioClipElement [("id", "1"), ("title", "T")] []

/-- The element `<audioClip playlength="00:00:01" title="T"/>`. -/
def noIdElement : Element :=
  audioClipElement [("playlength", "00:00:01"), ("title", "T")] []

/-- The element `<playlist id="1" playlength="00:00:01" title="T"/>`. -/
def wrongNameElement : Element :=
  { name := "playlist", nsPrefix := "", nsDecls := [],
    attributes := [("id", "1"), ("playlength", "00:00:01"), ("title", "T")], children := [] }

/-- A text of 2^32 characters `a`, of one byte each. -/
def longPrefix : String := ⟨List.replicate (2 ^ 32) 'a'⟩

/-! ## Decimal texts -/

/-- The character of a decimal digit. -/
def digitChar (d : Nat) : Char := Char.ofNat (48 + d)

/-- The decimal digits of `n` in front of `acc`; `fuel` bounds the number of
digits. -/
def decimalAux : Nat → Nat → List Char → List Char
  | 0, _, acc => acc
  | fuel + 1, n, acc =>
    if n < 10 then digitChar n :: acc
    else decimalAux fuel (n / 10) (digitChar (n % 10) :: acc)

/-- The decimal text of an unsigned number, as `operator<<` writes it. -/
def decimal (n : Nat) : List Char := decimalAux (n + 1) n []

/-- The decimal text of a number under `std::setw(width)` and
`std::setfill('0')`. -/
def padded (width n : Nat) : List Char :=
  List.replicate (width - (decimal n).length) '0' ++ decimal n

/-! ## Tag import -/

/-- The tag conversion table `TagConversion`, whose source is not among the
files at hand: the results of the three static functions that `readTag`
calls. -/
structure TagConversion where
  /-- The result of `TagConversion::isConfigured()`. -/
  isConfigured : Bool
  /-- The result of `TagConversion::existsId3Tag(tag)`. -/
  existsId3Tag : String → Bool
  /-- The result of `TagConversion::id3ToDublinCore(tag)`. -/
  id3ToDublinCore : String → String

/-- The generic tag of a sound file, `TagLib::Tag`. -/
structure Tag where
  artist : String
  title : String
  album : String
  comment : String
  genre : String
  year : Nat
  track : Nat

/-- What TagLib finds at a path: whether the file is readable, its generic
tag, and the frame list map of its ID3v2 tag, in the order of iteration: the
frame identifiers (of at least four bytes) with the texts of their
frames. -/
structure SoundFile where
  isReadable : Bool
  tag : Option Tag
  frameListMap : Option (List (String × List String))

/-- One of the seven blocks of lines 536 to 573 of `readTag`: the field is set
when the table knows the name of the tag. -/
def setTagField (tc : TagConversion) (c : AudioClip) (id3Tag value : String) :
    Except Abort AudioClip :=
  if tc.existsId3Tag id3Tag then c.setMetadataKey value (tc.id3ToDublinCore id3Tag)
  else Except.ok c

/-- Lines 535 to 573 of `readTag`: the fields of the generic tag. -/
def readGenericTag (tc : TagConversion) (c : AudioClip) (tag : Tag) :
    Except Abort AudioClip :=
  match setTagField tc c "Artist" tag.artist with
  | Except.error a => Except.error a
  | Except.ok c1 =>
  match setTagField tc c1 "Title" tag.title with
  | Except.error a => Except.error a
  | Except.ok c2 =>
  match setTagField tc c2 "Album" tag.album with
  | Except.error a => Except.error a
  | Except.ok c3 =>
  match setTagField tc c3 "Comment" tag.comment with
  | Except.error a => Except.error a
  | Except.ok c4 =>
  match setTagField tc c4 "Genre" tag.genre with
  | Except.error a => Except.error a
  | Except.ok c5 =>
  match setTagField tc c5 "Year" ⟨decimal tag.year⟩ with
  | Except.error a => Except.error a
  | Except.ok c6 => setTagField tc c6 "Track" ⟨decimal tag.track⟩

/-- The loop of lines 583 to 595 of `readTag` over the frame list map. -/
def readFrames (tc : TagConversion) (c : AudioClip) :
    List (String × List String) → Except Abort AudioClip
  | [] => Except.ok c
  | (key, frameList) :: rest =>
    if tc.existsId3Tag (substr key 0 4) then
      match frameList with
      | [] => readFrames tc c rest
      | front :: _ =>
        match c.setMetadataKey front (tc.id3ToDublinCore (substr key 0 4)) with
        | Except.error a => Except.error a
        | Except.ok c1 => readFrames tc c1 rest
    else readFrames tc c rest

/-- The method `AudioClip::readTag`, over the tag conversion table and over
what TagLib finds at each path.  The outcomes are those of `configure`. -/
def AudioClip.readTag (tc : TagConversion) (files : String → SoundFile) (c : AudioClip) :
    ConfigureResult :=
  if tc.isConfigured = false then
    ConfigureResult.threw "tag conversion table not loaded" c
  else
    match c.uri with
    | none => ConfigureResult.threw "audio clip has no uri field" c
    | some uri =>
      if (files uri).isReadable = false then
        ConfigureResult.threw "binary sound file not found" c
      else
        match (files uri).tag with
        | none => ConfigureResult.returned c
        | some tag =>
          match readGenericTag tc c tag with
          | Except.error a => ConfigureResult.aborted a
          | Except.ok c1 =>
            match (files uri).frameListMap with
            | none => ConfigureResult.returned c1
            | some frameListMap =>
              match readFrames tc c1 frameListMap with
              | Except.error a => ConfigureResult.aborted a
              | Except.ok c2 => ConfigureResult.returned c2

/-! ## Serialisation -/

/-- The absolute value of the hours of a duration, which `hours()` returns as
a 32-bit integer: `n` is the count of whole hours. -/
def hoursField (n : Nat) : Nat :=
  if n % 2 ^ 32 < 2 ^ 31 then n % 2 ^ 32 else 2 ^ 32 - n % 2 ^ 32

/-- The text of `boost::posix_time::to_simple_string`, on the absolute count
of microseconds: hours, minutes and seconds in two digits or more, and the
six digits of the fraction when it is not zero. -/
def simpleStringOfTicks (t : Nat) : List Char :=
  padded 2 (hoursField (t / 3600000000)) ++ ':' ::
    (padded 2 (t / 60000000 % 60) ++ ':' ::
      (padded 2 (t / 1000000 % 60) ++
        (if t % 1000000 = 0 then [] else '.' :: padded 6 (t % 1000000))))

/-- The function `boost::posix_time::to_simple_string`. -/
def to_simple_string (d : time_duration) : String :=
  if d.ticks < 0 then ⟨'-' :: simpleStringOfTicks d.ticks.natAbs⟩
  else ⟨simpleStringOfTicks d.ticks.natAbs⟩

/-- The method `AudioClip::getXmlString`; the three fields are dereferenced
without a check. -/
def AudioClip.getXmlString (c : AudioClip) : Except Abort String :=
  match c.id, c.playlength, c.title with
  | some id, some playlength, some title =>
    Except.ok ("<" ++ (configElementNameStr ++ " ")
      ++ (idAttrName ++ "=\"" ++ id ++ "\" ")
      ++ (playlengthAttrName ++ "=\"" ++ to_simple_string playlength ++ "\" ")
      ++ (titleAttrName ++ "=\"" ++ title ++ "\"/>"))
  | _, _, _ => Except.error Abort.nullDereference

/-! ## Reading the summary back -/

/-- The characters of a name, other than the colon. -/
def isNameChar (c : Char) : Bool :=
  c.isAlphanum || c = '_' || c = '-' || c = '.'

/-- The characters a name starts with. -/
def isNameStartChar (c : Char) : Bool :=
  c.isAlpha || c = '_'

/-- Whether the characters form a name without prefix. -/
def isName (name : List Char) : Bool :=
  match name with
  | [] => false
  | c :: cs => isNameStartChar c && cs.all isNameChar

/-- The characters that stand for themselves in an attribute value between
double quotes: not the quote, not `<`, not `&`, and no control character. -/
def isPlainChar (c : Char) : Bool :=
  c ≠ '"' && c ≠ '<' && c ≠ '&' && decide (32 ≤ c.toNat)

/-- The text that follows the characters `expected`, when the text starts with
them. -/
def expect : List Char → List Char → Option (List Char)
  | [], text => some text
  | _ :: _, [] => none
  | e :: es, c :: cs => if e = c then expect es cs else none

/-- The attributes of a start tag, read from the text behind the name of the
element up to the closing `/>`: each attribute follows a blank and has the
form `name="value"`. -/
def parseAttributeList : Nat → List Char → Option (List (String × String))
  | 0, _ => none
  | fuel + 1, text =>
    if text = ['/', '>'] then some []
    else
      match expect [' '] text with
      | none => none
      | some afterBlank =>
        if afterBlank.dropWhile (fun c => c = ' ') = ['/', '>'] then some []
        else
          match expect ['=', '"']
              ((afterBlank.dropWhile (fun c => c = ' ')).dropWhile isNameChar) with
          | none => none
          | some afterQuote =>
            match expect ['"'] (afterQuote.dropWhile (fun c => c ≠ '"')) with
            | none => none
            | some rest =>
              if isName ((afterBlank.dropWhile (fun c => c = ' ')).takeWhile isNameChar) ∧
                  (afterQuote.takeWhile (fun c => c ≠ '"')).all isPlainChar then
                (parseAttributeList fuel rest).map (fun attributes =>
                  (⟨(afterBlank.dropWhile (fun c => c = ' ')).takeWhile isNameChar⟩,
                    ⟨afterQuote.takeWhile (fun c => c ≠ '"')⟩) :: attributes)
              else none

/-- The element an XML parser reads from a text of the form that
`getXmlString` writes: an empty-element tag `<name a="v" ... />` whose
attribute values stand between double quotes and are plain.  Any other text
gives `none`: it is not well formed, or it is outside this form. -/
def parseXmlElement (text : String) : Option Element :=
  match expect ['<'] text.data with
  | none => none
  | some afterOpen =>
    if isName (afterOpen.takeWhile isNameChar) then
      match parseAttributeList text.data.length (afterOpen.dropWhile isNameChar) with
      | none => none
      | some attributes =>
        if (attributes.map Prod.fst).Nodup then
          some { name := ⟨afterOpen.takeWhile isNameChar⟩, nsPrefix := "", nsDecls := [],
                 attributes := attributes, children := [] }
        else none
    else none

/-- The element `<audioClip id="1" playlength="00:00:01" title="a&quot;b"/>`,
whose title is `a"b`. -/
def quoteTitleElement : Element :=
  audioClipElement [("id", "1"), ("playlength", "00:00:01"), ("title", "a\"b")] []

/-- The element that the summary of a clip denotes. -/
def summaryElement (id playlength title : String) : Element :=
  audioClipElement [("id", id), ("playlength", playlength), ("title", title)] []

/-- The element
`<audioClip id="1" playlength="00:00:01"><metadata><?title?><dc:title>b</dc:title></metadata></audioClip>`;
the processing instruction is a node called `title` that is no element. -/
def instructionElement : Element :=
  audioClipElement [("id", "1"), ("playlength", "00:00:01")]
    [metadataElement [Node.other "title", textElement "dc" "title" "b"]]

/-- The element
`<audioClip id="1" playlength="00:00:01"><metadata><dc:title>B</dc:title><dcterms:extent>00:00:09</dcterms:extent></metadata></audioClip>`. -/
def playlengthAttributeElement : Element :=
  audioClipElement [("id", "1"), ("playlength", "00:00:01")]
    [metadataElement [textElement "dc" "title" "B", textElement "dcterms" "extent" "00:00:09"]]

/-! ## Entries of a metadata child -/

/-- The first entry with the given prefix and name among the children of a
metadata element, in document order. -/
def firstEntry (pre name : String) : List Node → Option Element
  | [] => none
  | Node.element d :: rest =>
    if d.nsPrefix = pre ∧ d.name = name then some d else firstEntry pre name rest
  | Node.text _ :: rest => firstEntry pre name rest
  | Node.other _ :: rest => firstEntry pre name rest

/-- The duration an extent entry stands for: the duration its text parses to,
and the zero duration when it has no text. -/
def entryDuration (x : Element) : Option time_duration :=
  match get_child_text x with
  | none => some (time_duration.ofParts 0 0 0 0)
  | some content => duration_from_string content

/-- The title a title entry stands for: its text, and the empty text when it
has none. -/
def entryTitle (x : Element) : String :=
  match get_child_text x with
  | none => ""
  | some content => content

/-- The element
`<audioClip id="1"><metadata><dcterms:extent/><dc:title/><dcterms:extent>00:00:09</dcterms:extent><dc:title>B</dc:title></metadata></audioClip>`. -/
def emptyEntriesElement : Element :=
  audioClipElement [("id", "1")]
    [metadataElement [emptyElement "dcterms" "extent", emptyElement "dc" "title",
      textElement "dcterms" "extent" "00:00:09", textElement "dc" "title" "B"]]

/-! ## The tag import as a sequence of calls -/

/-- The outcome of steps none of which throws an exception that the caller
could catch: they complete, or the process is lost. -/
def outcomeOf : Except Abort AudioClip → ConfigureResult
  | Except.ok c => ConfigureResult.returned c
  | Except.error a => ConfigureResult.aborted a

/-- A sequence of calls of the public `setMetadata(value, key)`, each call
given as value and key. -/
def setAllKeys (c : AudioClip) : List (String × String) → Except Abort AudioClip
  | [] => Except.ok c
  | call :: rest =>
    match c.setMetadataKey call.1 call.2 with
    | Except.error a => Except.error a
    | Except.ok c1 => setAllKeys c1 rest

/-- The seven fixed fields of the generic tag in the order of the tag import,
each with its name and its value; year and track as decimal texts. -/
def genericFields (tag : Tag) : List (String × String) :=
  [("Artist", tag.artist), ("Title", tag.title), ("Album", tag.album),
   ("Comment", tag.comment), ("Genre", tag.genre), ("Year", ⟨decimal tag.year⟩),
   ("Track", ⟨decimal tag.track⟩)]

/-- The calls of `setMetadata` that the description of the tag import asks for
on behalf of the generic tag: for each field that the table recognises, the
value under the key the table maps the field to. -/
def genericCalls (tc : TagConversion) (tag : Tag) : List (String × String) :=
  (genericFields tag).filterMap
    (fun f => if tc.existsId3Tag f.1 then some (f.2, tc.id3ToDublinCore f.1) else none)

/-- The four-character code of a frame group: the first four bytes of its
identifier. -/
def frameCode (key : String) : String := substr key 0 4

/-- The calls of `setMetadata` that the description of the tag import asks for
on behalf of the frame groups, in the order of iteration: for each group whose
code the table recognises and that is not empty, the text of its first frame
under the key the table maps the code to. -/
def frameCalls (tc : TagConversion) (frames : List (String × List String)) :
    List (String × String) :=
  frames.filterMap
    (fun g => if tc.existsId3Tag (frameCode g.1) then
        g.2.head?.map (fun text => (text, tc.id3ToDublinCore (frameCode g.1)))
      else none)

/-- A call of the public `setMetadata(value, key)` as the call of the private
one it makes: value, name and prefix. -/
def splitCall (call : String × String) : String × String × String :=
  (call.1, (separateNameAndNameSpace call.2).1, (separateNameAndNameSpace call.2).2)

/-- The value of the last of the calls, given as value, name and prefix, that
is on the key with this name and prefix. -/
def lastValue (name pre : String) : List (String × String × String) → Option String
  | [] => none
  | call :: rest =>
    match lastValue name pre rest with
    | some v => some v
    | none => if call.2.1 = name ∧ call.2.2 = pre then some call.1 else none

/-- What `getMetadata` returns on the key after the calls, when the store is a
map: the value of the last call on the key, or what it returned before. -/
def valueAfter (name pre : String) (calls : List (String × String × String))
    (before : Except Abort (Option String)) : Except Abort (Option String) :=
  match lastValue name pre calls with
  | some v => Except.ok (some v)
  | none => before

/-- Whether the store is a map for the keys of the calls, given as value,
name and prefix: the metadata element that `setMetadata` works on is an
element; the names are not empty; the prefixes are empty or in scope below
that element; the values for `dcterms:extent` are duration texts; no two calls
are on keys with the same name under different prefixes; and every child of
the metadata element that the name of a call selects is an element with the
prefix of that call. -/
def keysReplaceable (x : Option Document) (calls : List (String × String × String)) : Bool :=
  match targetMetadata (documentRoot x) with
  | none => false
  | some m =>
    calls.all (fun a =>
      decide (a.2.1 ≠ "") &&
      (decide (a.2.2 = "") || namespaceInScope [m, documentRoot x] a.2.2) &&
      (!(decide (a.2.2 = extentElementPrefix ∧ a.2.1 = extentElementName)) ||
        (duration_from_string a.1).isSome) &&
      calls.all (fun b => decide (a.2.1 = b.2.1 → a.2.2 = b.2.2)) &&
      (get_children m.children a.2.1).all (fun n =>
        (n.asElement.map (fun e => decide (e.nsPrefix = a.2.2))).getD false))

/-- A conversion table that knows the names `Title`, `Year`, `TIT2` and
`TALB`: `Title` and `TIT2` stand for `dc:title`, `Year` for `dc:date` and
`TALB` for `dc:source`. -/
def exampleTable : TagConversion :=
  { isConfigured := true
    existsId3Tag := fun t => decide (t ∈ ["Title", "Year", "TIT2", "TALB"])
    id3ToDublinCore := fun t =>
      if t = "Year" then "dc:date" else if t = "TALB" then "dc:source" else "dc:title" }

/-- A generic tag with the title `Generic title` and the year 1999. -/
def exampleTag : Tag :=
  { artist := "A", title := "Generic title", album := "B", comment := "", genre := "",
    year := 1999, track := 7 }

/-- A readable file with the tag `exampleTag` and the frame groups `APIC`,
`TIT2`, with the frames `Frame title` and `second`, and `TALB`, with no
frame. -/
def exampleFiles (_ : String) : SoundFile :=
  { isReadable := true
    tag := some exampleTag
    frameListMap := some [("APIC", ["picture"]), ("TIT2", ["Frame title", "second"]),
      ("TALB", [])] }

/-- A clip with a locator and nothing else. -/
def exampleClip : AudioClip := { AudioClip.fresh with uri := some "file:///tmp/a.mp3" }

/-- A table under which two keys share the name `title`. -/
def clashingTable : TagConversion :=
  { isConfigured := true
    existsId3Tag := fun t => decide (t ∈ ["Artist", "Title", "TIT2"])
    id3ToDublinCore := fun t => if t = "Artist" then "dc:title" else "dcterms:title" }

/-- A table that maps `Title` and `TIT2` to the key `ls:title`, whose prefix
no store declares. -/
def undeclaredTable : TagConversion :=
  { isConfigured := true
    existsId3Tag := fun t => decide (t ∈ ["Title", "TIT2"])
    id3ToDublinCore := fun _ => "ls:title" }

/-! ## Lemmas on the document tree -/

theorem firstText_setFirstText (v : String) (l : List Node) (s : String)
    (h : firstText l = some s) : firstText (setFirstText v l) = some v := by
  induction l with
  | nil => simp [firstText] at h
  | cons n rest ih =>
    cases n with
    | element e => simp only [firstText, setFirstText] at h ⊢; exact ih h
    | text t => simp [firstText, setFirstText]
    | other o => simp only [firstText, setFirstText] at h ⊢; exact ih h

theorem firstText_append_text (v : String) (l : List Node)
    (h : firstText l = none) : firstText (l ++ [Node.text v]) = some v := by
  induction l with
  | nil => simp [firstText]
  | cons n rest ih =>
    cases n with
    | element e => simp only [firstText, List.cons_append] at h ⊢; exact ih h
    | text t => simp [firstText] at h
    | other o => simp only [firstText, List.cons_append] at h ⊢; exact ih h

theorem get_child_text_set_child_text (e : Element) (v : String) :
    get_child_text (set_child_text e v) = some v := by
  unfold set_child_text
  cases h : get_child_text e with
  | none => exact firstText_append_text v e.children h
  | some s => exact firstText_setFirstText v e.children s h

theorem set_child_text_name (e : Element) (v : String) :
    (set_child_text e v).name = e.name := by
  unfold set_child_text; cases get_child_text e <;> rfl

theorem set_child_text_nsPrefix (e : Element) (v : String) :
    (set_child_text e v).nsPrefix = e.nsPrefix := by
  unfold set_child_text; cases get_child_text e <;> rfl

theorem filter_modifyFirst (p : Node → Bool) (f : Node → Node)
    (hf : ∀ n, p n = true → p (f n) = true) (l : List Node) :
    (modifyFirst p f l).filter p =
      match l.filter p with
      | [] => []
      | x :: xs => f x :: xs := by
  induction l with
  | nil => simp [modifyFirst]
  | cons n rest ih =>
    by_cases hn : p n = true
    · simp [modifyFirst, hn, hf n hn]
    · simp [modifyFirst, hn, ih]

theorem filter_modifyFirst_other (p q : Node → Bool) (f : Node → Node)
    (hf : ∀ n, p n = true → q n = false ∧ q (f n) = false) (l : List Node) :
    (modifyFirst p f l).filter q = l.filter q := by
  induction l with
  | nil => simp [modifyFirst]
  | cons n rest ih =>
    by_cases hn : p n = true
    · simp [modifyFirst, hn, List.filter_cons, (hf n hn).1, (hf n hn).2]
    · have hn' : p n = false := by simpa using hn
      simp only [modifyFirst, hn', Bool.false_eq_true, if_false, List.filter_cons, ih]

/-! ## Lemmas on `setMetadata` and `getMetadata` -/

theorem findMetadataValue_append (pre : String) (l : List Node) (x : Node)
    (h : ∀ n ∈ l, n.get_namespace_prefix ≠ pre) :
    findMetadataValue pre (l ++ [x]) = findMetadataValue pre [x] := by
  induction l with
  | nil => rfl
  | cons n rest ih =>
    have hn : n.get_namespace_prefix ≠ pre := h n (List.mem_cons_self _ _)
    simp only [List.cons_append, findMetadataValue, hn, if_false]
    exact ih (fun k hk => h k (List.mem_cons_of_mem _ hk))

theorem nameMatches_metadata (n : Node) :
    nameMatches "metadata" n = true ↔ n.get_name = "metadata" := by
  simp [nameMatches]

theorem setDataElement_name (r m m' : Element) (v name pre : String)
    (h : setDataElement r m v name pre = Except.ok m') : m'.name = m.name := by
  unfold setDataElement at h
  simp only at h
  split at h
  · split at h
    · cases h
    · cases h; rfl
  · cases h; rfl

theorem setDataElement_get (r m : Element) (v name pre : String)
    (hscope : pre = "" ∨ namespaceInScope [m, r] pre = true)
    (hfirst : ∀ n ∈ get_children m.children name, n.get_namespace_prefix = pre →
      ∃ e, (get_children m.children name).head? = some (Node.element e) ∧ e.nsPrefix = pre) :
    ∃ m', setDataElement r m v name pre = Except.ok m' ∧
      findMetadataValue pre (get_children m'.children name) = Except.ok (some v) := by
  unfold setDataElement
  simp only
  by_cases hany : (get_children m.children name).any
      (fun node => decide (node.get_namespace_prefix = pre)) = true
  · rw [if_pos hany]
    obtain ⟨n, hn, hp⟩ := List.any_eq_true.1 hany
    obtain ⟨e, he, hpe⟩ := hfirst n hn (by simpa using hp)
    rw [he]
    simp only [Option.bind, Node.asElement]
    refine ⟨_, rfl, ?_⟩
    simp only [get_children] at he ⊢
    rw [filter_modifyFirst]
    · cases hl : m.children.filter (nameMatches name) with
      | nil => rw [hl] at he; simp at he
      | cons x xs =>
        rw [hl] at he
        simp only [List.head?_cons, Option.some.injEq] at he
        subst he
        simp [findMetadataValue, Node.get_namespace_prefix, Node.asElement, setNodeText,
          set_child_text_nsPrefix, hpe, get_child_text_set_child_text]
    · intro k hk
      cases k with
      | element e' => simpa [nameMatches, Node.get_name, setNodeText, set_child_text_name] using hk
      | text t => exact hk
      | other o => exact hk
  · rw [if_neg hany]
    refine ⟨_, rfl, ?_⟩
    have hnone : ∀ n ∈ get_children m.children name, n.get_namespace_prefix ≠ pre := by
      intro n hn hp
      exact hany (List.any_eq_true.2 ⟨n, hn, by simpa using hp⟩)
    have hpre : (if namespaceInScope [m, r] pre = true then pre else "") = pre := by
      rcases hscope with h | h
      · subst h; simp
      · simp [h]
    have hnm : nameMatches name (Node.element (newDataElement r m v name pre)) = true := by
      simp [nameMatches, Node.get_name, newDataElement, set_child_text_name]
    simp only [get_children, List.filter_append, List.filter_cons, hnm, if_true, List.filter_nil]
    rw [findMetadataValue_append pre _ _ (by simpa only [get_children] using hnone)]
    simp [findMetadataValue, Node.get_namespace_prefix, Node.asElement, newDataElement,
      set_child_text_nsPrefix, hpre, get_child_text_set_child_text]


theorem setInRoot_metadata (r m m' : Element) (v name pre : String)
    (htarget : targetMetadata r = some m)
    (hset : setDataElement r m v name pre = Except.ok m') :
    ∃ r' rest, setInRoot r v name pre = Except.ok r' ∧
      get_children r'.children "metadata" = Node.element m' :: rest := by
  have hname := setDataElement_name r m m' v name pre hset
  unfold targetMetadata at htarget
  unfold setInRoot
  cases hl : get_children r.children "metadata" with
  | nil =>
    rw [hl] at htarget
    simp only [Option.some.injEq] at htarget
    subst htarget
    simp only [hset]
    refine ⟨_, [], rfl, ?_⟩
    have hm : nameMatches "metadata" (Node.element m') = true := by
      rw [nameMatches_metadata]; simpa [Node.get_name, newMetadataElement] using hname
    simp only [get_children] at hl ⊢
    simp [List.filter_append, hl, hm]
  | cons front rest =>
    rw [hl] at htarget
    change front.asElement = some m at htarget
    simp only [htarget, hset]
    have hfront : front = Node.element m := by
      cases front with
      | element e => simp only [Node.asElement, Option.some.injEq] at htarget; rw [htarget]
      | text t => simp [Node.asElement] at htarget
      | other o => simp [Node.asElement] at htarget
    have hmem : front ∈ get_children r.children "metadata" := by rw [hl]; exact List.mem_cons_self _ _
    have hm0 : nameMatches "metadata" front = true := by
      simp only [get_children] at hmem
      exact (List.mem_filter.1 hmem).2
    have hm : nameMatches "metadata" (Node.element m') = true := by
      rw [nameMatches_metadata] at hm0 ⊢
      rw [hfront] at hm0
      simpa [Node.get_name, hname] using hm0
    refine ⟨_, rest, rfl, ?_⟩
    simp only [get_children] at hl ⊢
    rw [filter_modifyFirst _ _ (fun _ _ => hm), hl]


theorem setMetadata_ok (c : AudioClip) (v name pre : String) (doc : Document)
    (hdur : pre = extentElementPrefix → name = extentElementName →
      duration_from_string v ≠ none)
    (hdoc : setInDocument c.xmlAudioClip v name pre = Except.ok doc) :
    ∃ c', c.setMetadata v name pre = Except.ok c' ∧ c'.xmlAudioClip = some doc ∧
      c'.id = c.id ∧ c'.uri = c.uri ∧ c'.token = c.token ∧
      c'.title = (if pre = titleElementPrefix ∧ name = titleElementName then some v
                  else c.title) ∧
      c'.playlength = (if pre = extentElementPrefix ∧ name = extentElementName then
                        duration_from_string v else c.playlength) := by
  unfold AudioClip.setMetadata
  by_cases he : pre = extentElementPrefix ∧ name = extentElementName
  · obtain ⟨d, hd⟩ := Option.ne_none_iff_exists'.1 (hdur he.1 he.2)
    have ht : ¬ (pre = titleElementPrefix ∧ name = titleElementName) := by
      rintro ⟨h1, -⟩; rw [he.1] at h1; exact absurd h1 (by decide)
    simp only [if_pos he, if_neg ht, hd, hdoc]
    exact ⟨_, rfl, rfl, rfl, rfl, rfl, rfl, rfl⟩
  · by_cases ht : pre = titleElementPrefix ∧ name = titleElementName
    · simp only [if_neg he, if_pos ht, hdoc]
      exact ⟨_, rfl, rfl, rfl, rfl, rfl, rfl, rfl⟩
    · simp only [if_neg he, if_neg ht, hdoc]
      exact ⟨_, rfl, rfl, rfl, rfl, rfl, rfl, rfl⟩

theorem setInDocument_metadata (x : Option Document) (m m' : Element) (v name pre : String)
    (htarget : targetMetadata (documentRoot x) = some m)
    (hset : setDataElement (documentRoot x) m v name pre = Except.ok m') :
    ∃ r' rest, setInDocument x v name pre = Except.ok { root := some r' } ∧
      get_children r'.children "metadata" = Node.element m' :: rest := by
  obtain ⟨r', rest, h1, h2⟩ := setInRoot_metadata _ m m' v name pre htarget hset
  exact ⟨r', rest, by simp [setInDocument, h1], h2⟩

theorem setDataElement_total (r m : Element) (v name pre : String)
    (h : (get_children m.children name).any
        (fun node => decide (node.get_namespace_prefix = pre)) = true →
      ((get_children m.children name).head?.bind Node.asElement).isSome = true) :
    ∃ m', setDataElement r m v name pre = Except.ok m' := by
  unfold setDataElement
  simp only
  split
  · rename_i hany
    obtain ⟨e, he⟩ := Option.isSome_iff_exists.1 (h hany)
    rw [he]
    exact ⟨_, rfl⟩
  · exact ⟨_, rfl⟩

theorem nameMatches_of_ne (name : String) (h : name ≠ "") (n : Node) :
    nameMatches name n = decide (n.get_name = name) := by
  simp [nameMatches, h]

theorem setDataElement_other (r m m' : Element) (v name pre name' : String)
    (hne : name ≠ "") (hne' : name' ≠ "") (hdiff : name ≠ name')
    (h : setDataElement r m v name pre = Except.ok m') :
    get_children m'.children name' = get_children m.children name' := by
  unfold setDataElement at h
  simp only at h
  split at h
  · split at h
    · cases h
    · cases h
      simp only [get_children]
      apply filter_modifyFirst_other
      intro n hn
      rw [nameMatches_of_ne name hne] at hn
      rw [nameMatches_of_ne name' hne', nameMatches_of_ne name' hne']
      have hn' : n.get_name = name := by simpa using hn
      cases n with
      | element e =>
        simp only [Node.get_name, setNodeText, set_child_text_name] at hn' ⊢
        simp [hn', hdiff]
      | text t => simp [setNodeText, hn', hdiff]
      | other o => simp [setNodeText, hn', hdiff]
  · cases h
    simp only [get_children, List.filter_append]
    have : nameMatches name' (Node.element (newDataElement r m v name pre)) = false := by
      rw [nameMatches_of_ne name' hne']
      simp [Node.get_name, newDataElement, set_child_text_name, hdiff]
    simp [this]

theorem targetMetadata_of_children (r m : Element) (rest : List Node)
    (h : get_children r.children "metadata" = Node.element m :: rest) :
    targetMetadata r = some m := by
  simp [targetMetadata, h, Node.asElement]

theorem canWrite_iff (x : Option Document) (name pre : String) :
    canWrite x name pre = true ↔ ∃ m, targetMetadata (documentRoot x) = some m ∧
      ((get_children m.children name).any
          (fun node => decide (node.get_namespace_prefix = pre)) = true →
        ((get_children m.children name).head?.bind Node.asElement).isSome = true) := by
  unfold canWrite
  cases targetMetadata (documentRoot x) with
  | none => simp
  | some m =>
    by_cases hany : (get_children m.children name).any
        (fun node => decide (node.get_namespace_prefix = pre)) = true
    · simp only [hany, if_true, Option.some.injEq, exists_eq_left', true_implies]
    · simp only [hany, Bool.false_eq_true, if_false, Option.some.injEq, exists_eq_left',
        false_implies]

theorem setMetadata_step (c : AudioClip) (v name pre : String)
    (hw : canWrite c.xmlAudioClip name pre = true)
    (hdur : pre = extentElementPrefix → name = extentElementName →
      duration_from_string v ≠ none) :
    ∃ c', c.setMetadata v name pre = Except.ok c' ∧
      c'.id = c.id ∧ c'.uri = c.uri ∧ c'.token = c.token ∧
      c'.title = (if pre = titleElementPrefix ∧ name = titleElementName then some v
                  else c.title) ∧
      c'.playlength = (if pre = extentElementPrefix ∧ name = extentElementName then
                        duration_from_string v else c.playlength) ∧
      ∀ name' pre', name ≠ "" → name' ≠ "" → name ≠ name' →
        canWrite c.xmlAudioClip name' pre' = true →
        canWrite c'.xmlAudioClip name' pre' = true := by
  obtain ⟨m, hm, hfront⟩ := (canWrite_iff _ _ _).1 hw
  obtain ⟨m', hm'⟩ := setDataElement_total (documentRoot c.xmlAudioClip) m v name pre hfront
  obtain ⟨r', rest, hdoc, hch⟩ := setInDocument_metadata c.xmlAudioClip m m' v name pre hm hm'
  obtain ⟨c', hc', hx, hid, huri, htok, htitle, hpl⟩ := setMetadata_ok c v name pre _ hdur hdoc
  refine ⟨c', hc', hid, huri, htok, htitle, hpl, ?_⟩
  intro name' pre' hne hne' hdiff hw'
  obtain ⟨m0, hm0, hfront0⟩ := (canWrite_iff _ _ _).1 hw'
  rw [hm] at hm0
  cases hm0
  rw [canWrite_iff]
  refine ⟨m', ?_, ?_⟩
  · rw [hx]; exact targetMetadata_of_children r' m' rest hch
  · rw [setDataElement_other _ m m' v name pre name' hne hne' hdiff hm']
    exact hfront0

/-! ## Lemmas on `configure` -/

theorem scanDataNode_ok (c : AudioClip) (n : Node) (h : extentWellFormed n = true) :
    ∃ c', scanDataNode c n = Except.ok c' ∧ c'.id = c.id ∧ c'.uri = c.uri ∧
      c'.token = c.token ∧ c'.xmlAudioClip = c.xmlAudioClip ∧
      (c.title ≠ none → c'.title = c.title) ∧
      (c.playlength ≠ none → c'.playlength = c.playlength) ∧
      (c.playlength = none →
        ¬ (n.get_namespace_prefix = extentElementPrefix ∧ n.get_name = extentElementName) →
        c'.playlength = none) := by
  cases n with
  | text t => exact ⟨c, rfl, rfl, rfl, rfl, rfl, fun _ => rfl, fun _ => rfl, fun h _ => h⟩
  | other o => exact ⟨c, rfl, rfl, rfl, rfl, rfl, fun _ => rfl, fun _ => rfl, fun h _ => h⟩
  | element d =>
    obtain ⟨id, title, pl, uri, token, x⟩ := c
    simp only [extentWellFormed] at h
    by_cases hx : d.nsPrefix = extentElementPrefix ∧ d.name = extentElementName
    · have hnt : ¬ (d.nsPrefix = titleElementPrefix ∧ d.name = titleElementName) := by
        rintro ⟨h1, -⟩; rw [hx.1] at h1; exact absurd h1 (by decide)
      rw [if_pos hx] at h
      cases hc : get_child_text d with
      | none =>
        cases pl <;>
        simp [scanDataNode, Node.asElement, Node.get_namespace_prefix, Node.get_name, hx, hnt, hc,
          extentElementPrefix, titleElementPrefix, extentElementName, titleElementName]
      | some content =>
        rw [hc] at h
        obtain ⟨dd, hd⟩ := Option.isSome_iff_exists.1 h
        cases pl <;>
        simp [scanDataNode, Node.asElement, Node.get_namespace_prefix, Node.get_name, hx, hnt,
          hc, hd, extentElementPrefix, titleElementPrefix, extentElementName, titleElementName]
    · by_cases ht : d.nsPrefix = titleElementPrefix ∧ d.name = titleElementName
      · cases hc : get_child_text d <;> cases title <;>
        simp [scanDataNode, Node.asElement, Node.get_namespace_prefix, Node.get_name, hx, ht, hc,
          extentElementPrefix, titleElementPrefix, extentElementName, titleElementName]
      · simp [scanDataNode, Node.asElement, Node.get_namespace_prefix, Node.get_name, hx, ht]

theorem scanDataFields_ok (nodes : List Node) :
    ∀ (c : AudioClip), (∀ n ∈ nodes, extentWellFormed n = true) →
    ∃ c', scanDataFields c nodes = Except.ok c' ∧ c'.id = c.id ∧ c'.uri = c.uri ∧
      c'.token = c.token ∧ c'.xmlAudioClip = c.xmlAudioClip ∧
      (c.title ≠ none → c'.title = c.title) ∧
      (c.playlength ≠ none → c'.playlength = c.playlength) ∧
      (c.playlength = none →
        (∀ n ∈ nodes, ¬ (n.get_namespace_prefix = extentElementPrefix ∧
          n.get_name = extentElementName)) →
        c'.playlength = none) := by
  induction nodes with
  | nil => intro c _; exact ⟨c, rfl, rfl, rfl, rfl, rfl, fun _ => rfl, fun _ => rfl, fun h _ => h⟩
  | cons n rest ih =>
    intro c h
    obtain ⟨c1, h1, i1, u1, k1, x1, t1, p1, q1⟩ := scanDataNode_ok c n (h n (List.mem_cons_self _ _))
    obtain ⟨c2, h2, i2, u2, k2, x2, t2, p2, q2⟩ := ih c1 (fun k hk => h k (List.mem_cons_of_mem _ hk))
    refine ⟨c2, ?_, i2.trans i1, u2.trans u1, k2.trans k1, x2.trans x1, ?_, ?_, ?_⟩
    · simp only [scanDataFields, h1, h2]
    · intro ht
      have := t1 ht
      rw [t2 (by rw [this]; exact ht), this]
    · intro hp
      have := p1 hp
      rw [p2 (by rw [this]; exact hp), this]
    · intro hp hno
      exact q2 (q1 hp (hno n (List.mem_cons_self _ _)))
        (fun k hk => hno k (List.mem_cons_of_mem _ hk))

theorem get_children_empty (l : List Node) : get_children l "" = l := by
  simp [get_children, nameMatches]

theorem configurePlaylength_ok (c : AudioClip) (e : Element)
    (hw : c.playlength = none → get_attribute e playlengthAttrName ≠ none →
      canWrite c.xmlAudioClip extentElementName extentElementPrefix = true)
    (hwf : ∀ t, c.playlength = none → get_attribute e playlengthAttrName = some t →
      duration_from_string t ≠ none) :
    ∃ c2, configurePlaylength c e = Except.ok c2 ∧ c2.id = c.id ∧ c2.uri = c.uri ∧
      c2.token = c.token ∧ c2.title = c.title ∧
      c2.playlength = (match c.playlength with
        | some d => some d
        | none => (get_attribute e playlengthAttrName).bind duration_from_string) ∧
      (canWrite c.xmlAudioClip titleElementName titleElementPrefix = true →
        canWrite c2.xmlAudioClip titleElementName titleElementPrefix = true) := by
  unfold configurePlaylength
  cases hp : c.playlength with
  | some d =>
    simp only [reduceCtorEq, if_false]
    exact ⟨c, rfl, rfl, rfl, rfl, rfl, hp, fun h => h⟩
  | none =>
    simp only [if_true]
    cases ha : get_attribute e playlengthAttrName with
    | none => exact ⟨c, rfl, rfl, rfl, rfl, rfl, by simp [hp], fun h => h⟩
    | some t =>
      obtain ⟨d, hd⟩ := Option.ne_none_iff_exists'.1 (hwf t hp ha)
      simp only [hd]
      obtain ⟨c', hc', hid, huri, htok, htitle, hpl, hcw⟩ :=
        setMetadata_step { c with playlength := some d } t extentElementName
          extentElementPrefix (hw hp (by simp [ha])) (fun _ _ => by simp [hd])
      refine ⟨c', hc', hid, huri, htok, ?_, ?_, ?_⟩
      · rw [htitle]; simp [extentElementPrefix, titleElementPrefix]
      · rw [hpl]; simp [hd]
      · exact hcw titleElementName titleElementPrefix (by decide) (by decide) (by decide)

theorem configureTitle_ok (c : AudioClip) (e : Element)
    (hw : c.title = none → get_attribute e titleAttrName ≠ none →
      canWrite c.xmlAudioClip titleElementName titleElementPrefix = true) :
    ∃ c3, configureTitle c e = Except.ok c3 ∧ c3.id = c.id ∧ c3.uri = c.uri ∧
      c3.token = c.token ∧ c3.playlength = c.playlength ∧
      c3.title = (match c.title with
        | some t => some t
        | none => get_attribute e titleAttrName) := by
  unfold configureTitle
  cases hp : c.title with
  | some d =>
    simp only [reduceCtorEq, if_false]
    exact ⟨c, rfl, rfl, rfl, rfl, rfl, hp⟩
  | none =>
    simp only [if_true]
    cases ha : get_attribute e titleAttrName with
    | none => exact ⟨c, rfl, rfl, rfl, rfl, rfl, by simp [hp]⟩
    | some t =>
      obtain ⟨c', hc', hid, huri, htok, htitle, hpl, -⟩ :=
        setMetadata_step { c with title := some t } t titleElementName
          titleElementPrefix (hw hp (by simp [ha]))
          (fun h => absurd h (by decide))
      refine ⟨c', hc', hid, huri, htok, ?_, ?_⟩
      · rw [hpl]; simp [extentElementPrefix, titleElementPrefix]
      · rw [htitle]; simp

theorem configureUri_fields (c : AudioClip) (e : Element) :
    (configureUri c e).id = c.id ∧ (configureUri c e).title = c.title ∧
    (configureUri c e).playlength = c.playlength ∧ (configureUri c e).token = c.token ∧
    (configureUri c e).xmlAudioClip = c.xmlAudioClip := by
  unfold configureUri
  split
  · split <;> exact ⟨rfl, rfl, rfl, rfl, rfl⟩
  · exact ⟨rfl, rfl, rfl, rfl, rfl⟩

theorem configure_reaches_metadata (c : AudioClip) (e : Element)
    (hname : e.name = configElementNameStr)
    (hid : c.id ≠ none ∨ get_attribute e idAttrName ≠ none)
    (hw1 : c.playlength = none → get_attribute e playlengthAttrName ≠ none →
      canWrite c.xmlAudioClip extentElementName extentElementPrefix = true)
    (hw2 : c.title = none → get_attribute e titleAttrName ≠ none →
      canWrite c.xmlAudioClip titleElementName titleElementPrefix = true)
    (hwf : ∀ t, c.playlength = none → get_attribute e playlengthAttrName = some t →
      duration_from_string t ≠ none) :
    ∃ c4, c.configure e = configureMetadata c4 e ∧ c4.id ≠ none ∧ c4.token = c.token ∧
      c4.id = (match c.id with
        | some i => some i
        | none => get_attribute e idAttrName) ∧
      c4.title = (match c.title with
        | some t => some t
        | none => get_attribute e titleAttrName) ∧
      c4.playlength = (match c.playlength with
        | some d => some d
        | none => (get_attribute e playlengthAttrName).bind duration_from_string) := by
  unfold AudioClip.configure
  rw [if_neg (not_not.2 hname)]
  have hwith : ∃ c1, configureId c e = some c1 ∧ c1.id ≠ none ∧ c1.title = c.title ∧
      c1.playlength = c.playlength ∧ c1.token = c.token ∧
      c1.xmlAudioClip = c.xmlAudioClip ∧
      c1.id = (match c.id with
        | some i => some i
        | none => get_attribute e idAttrName) := by
    unfold configureId
    cases hi : c.id with
    | some i => exact ⟨c, by simp, by simp [hi], rfl, rfl, rfl, rfl, by simp [hi]⟩
    | none =>
      rcases hid with h | h
      · exact absurd hi h
      · obtain ⟨i, hi'⟩ := Option.ne_none_iff_exists'.1 h
        exact ⟨{ c with id := some i }, by simp [hi'], by simp, rfl, rfl, rfl, rfl, by simp [hi']⟩
  obtain ⟨c1, h1, hid1, ht1, hp1, hk1, hx1, hi1⟩ := hwith
  simp only [h1]
  obtain ⟨c2, h2, hid2, -, hk2, ht2, hp2, hcw2⟩ := configurePlaylength_ok c1 e
    (by rw [hp1, hx1]; exact hw1) (by rw [hp1]; exact hwf)
  simp only [h2]
  obtain ⟨c3, h3, hid3, -, hk3, hp3, ht3⟩ := configureTitle_ok c2 e
    (by
      intro ha hb
      apply hcw2
      rw [hx1]
      exact hw2 (by rw [← ht1, ← ht2]; exact ha) hb)
  simp only [h3]
  obtain ⟨u1, u2, u3, u4, -⟩ := configureUri_fields c3 e
  refine ⟨configureUri c3 e, rfl, ?_, ?_, ?_, ?_, ?_⟩
  · rw [u1, hid3, hid2]; exact hid1
  · rw [u4, hk3, hk2, hk1]
  · rw [u1, hid3, hid2, hi1]
  · rw [u2, ht3, ht2, ht1]
  · rw [u3, hp3, hp2, hp1]


theorem configureMetadata_first (c : AudioClip) (e : Element) (m : Element) (rest : List Node)
    (hmeta : get_children e.children metadataElementName = Node.element m :: rest)
    (hid : c.id ≠ none)
    (hwf : ∀ n ∈ m.children, extentWellFormed n = true) :
    ∃ c5, configureMetadata c e =
        (if rest.isEmpty then checkRequired c5
         else ConfigureResult.threw tooManyMetadataElementsMessage c5) ∧
      c5.id = c.id ∧ c5.token = c.token ∧
      (c.title ≠ none → c5.title = c.title) ∧
      (c.playlength ≠ none → c5.playlength = c.playlength) ∧
      (c.playlength = none →
        (∀ n ∈ m.children, ¬ (n.get_namespace_prefix = extentElementPrefix ∧
          n.get_name = extentElementName)) →
        c5.playlength = none) := by
  obtain ⟨i, hi⟩ := Option.ne_none_iff_exists'.1 hid
  obtain ⟨c5, h5, i5, -, k5, -, t5, p5, q5⟩ := scanDataFields_ok m.children
    { c with xmlAudioClip := some { root := some (importedRoot i m) } } hwf
  refine ⟨c5, ?_, i5, k5, t5, p5, q5⟩
  unfold configureMetadata
  rw [hi] at h5
  simp only [hmeta, Node.asElement, hi, get_children_empty, h5]

theorem checkRequired_clip (c : AudioClip) : (checkRequired c).clip? = some c := by
  unfold checkRequired
  split
  · rfl
  · split <;> rfl

theorem durationsWellFormed_attr (e : Element) (h : durationsWellFormed e = true) (t : String)
    (ht : get_attribute e playlengthAttrName = some t) : duration_from_string t ≠ none := by
  unfold durationsWellFormed at h
  rw [ht] at h
  simp only [Bool.and_eq_true] at h
  exact Option.isSome_iff_ne_none.1 h.1

theorem durationsWellFormed_children (e : Element) (h : durationsWellFormed e = true)
    (m : Element) (rest : List Node)
    (hmeta : get_children e.children metadataElementName = Node.element m :: rest) :
    ∀ n ∈ m.children, extentWellFormed n = true := by
  unfold durationsWellFormed at h
  rw [hmeta] at h
  simp only [Bool.and_eq_true, List.all_eq_true] at h
  exact h.2


/-! ## Lemmas on the keys of the store -/

theorem keysOf_modifyFirst (p : Node → Bool) (f : Node → Node)
    (hf : ∀ n, (f n).asElement.map (fun d => (d.nsPrefix, d.name)) =
      n.asElement.map (fun d => (d.nsPrefix, d.name))) (l : List Node) :
    keysOf (modifyFirst p f l) = keysOf l := by
  induction l with
  | nil => rfl
  | cons n rest ih =>
    by_cases hn : p n = true
    · simp only [modifyFirst, hn, if_true, keysOf, List.filterMap_cons, hf n]
    · have hn' : p n = false := by simpa using hn
      simp only [modifyFirst, hn', Bool.false_eq_true, if_false, keysOf, List.filterMap_cons] at ih ⊢
      rw [ih]

theorem isElement_modifyFirst (p : Node → Bool) (f : Node → Node)
    (hf : ∀ n, n.isElement = true → (f n).isElement = true) (l : List Node)
    (h : ∀ n ∈ l, n.isElement = true) : ∀ n ∈ modifyFirst p f l, n.isElement = true := by
  induction l with
  | nil => intro n hn; simp [modifyFirst] at hn
  | cons k rest ih =>
    intro n hn
    by_cases hk : p k = true
    · simp only [modifyFirst, hk, if_true, List.mem_cons] at hn
      rcases hn with rfl | hn
      · exact hf k (h k (List.mem_cons_self _ _))
      · exact h n (List.mem_cons_of_mem _ hn)
    · have hk' : p k = false := by simpa using hk
      simp only [modifyFirst, hk', Bool.false_eq_true, if_false, List.mem_cons] at hn
      rcases hn with rfl | hn
      · exact h n (List.mem_cons_self _ _)
      · exact ih (fun j hj => h j (List.mem_cons_of_mem _ hj)) n hn

theorem mem_keysOf (l : List Node) (pre name : String) :
    (pre, name) ∈ keysOf l ↔ ∃ d, Node.element d ∈ l ∧ d.nsPrefix = pre ∧ d.name = name := by
  simp only [keysOf, List.mem_filterMap]
  constructor
  · rintro ⟨n, hn, h⟩
    cases n with
    | element d =>
      simp only [Node.asElement, Option.map_some', Option.some.injEq, Prod.mk.injEq] at h
      exact ⟨d, hn, h.1, h.2⟩
    | text t => simp [Node.asElement] at h
    | other o => simp [Node.asElement] at h
  · rintro ⟨d, hd, h1, h2⟩
    exact ⟨Node.element d, hd, by simp [Node.asElement, h1, h2]⟩

theorem setDataElement_keys (r m : Element) (v name pre : String)
    (hall : ∀ n ∈ m.children, n.isElement = true)
    (hnodup : (keysOf m.children).Nodup)
    (hscope : pre = "" ∨ namespaceInScope [m, r] pre = true) :
    ∃ m', setDataElement r m v name pre = Except.ok m' ∧ m'.nsDecls = m.nsDecls ∧
      (∀ n ∈ m'.children, n.isElement = true) ∧ (keysOf m'.children).Nodup ∧
      ((pre, name) ∈ keysOf m.children → keysOf m'.children = keysOf m.children) := by
  unfold setDataElement
  simp only
  by_cases hany : (get_children m.children name).any
      (fun node => decide (node.get_namespace_prefix = pre)) = true
  · rw [if_pos hany]
    obtain ⟨n, hn, -⟩ := List.any_eq_true.1 hany
    cases hl : get_children m.children name with
    | nil => rw [hl] at hn; cases hn
    | cons front tl =>
      have hfm : front ∈ m.children := by
        have : front ∈ get_children m.children name := by rw [hl]; exact List.mem_cons_self _ _
        exact (List.mem_filter.1 this).1
      have hfe := hall front hfm
      cases front with
      | text t => simp [Node.isElement] at hfe
      | other o => simp [Node.isElement] at hfe
      | element e0 =>
        simp only [List.head?_cons, Option.bind, Node.asElement]
        have hk : keysOf (modifyFirst (nameMatches name) (setNodeText v) m.children) =
            keysOf m.children := by
          apply keysOf_modifyFirst
          intro k
          cases k with
          | element e =>
            simp [Node.asElement, setNodeText, set_child_text_name, set_child_text_nsPrefix]
          | text t => rfl
          | other o => rfl
        refine ⟨_, rfl, rfl, ?_, ?_, fun _ => hk⟩
        · apply isElement_modifyFirst _ _ _ _ hall
          intro k hk
          cases k with
          | element e => rfl
          | text t => exact hk
          | other o => exact hk
        · show (keysOf (modifyFirst _ _ _)).Nodup
          rw [hk]; exact hnodup
  · rw [if_neg hany]
    have hpre : (if namespaceInScope [m, r] pre = true then pre else "") = pre := by
      rcases hscope with h | h
      · subst h; simp
      · simp [h]
    have hnotin : (pre, name) ∉ keysOf m.children := by
      intro hmem
      obtain ⟨d, hd, h1, h2⟩ := (mem_keysOf _ _ _).1 hmem
      apply hany
      refine List.any_eq_true.2 ⟨Node.element d, ?_, by simp [Node.get_namespace_prefix, h1]⟩
      exact List.mem_filter.2 ⟨hd, by simp [nameMatches, Node.get_name, h2]⟩
    have hk : keysOf (m.children ++ [Node.element (newDataElement r m v name pre)]) =
        keysOf m.children ++ [(pre, name)] := by
      simp [keysOf, List.filterMap_append, Node.asElement, newDataElement,
        set_child_text_name, set_child_text_nsPrefix, hpre]
    refine ⟨_, rfl, rfl, ?_, ?_, fun h => absurd h hnotin⟩
    · intro n hn
      rcases List.mem_append.1 hn with h | h
      · exact hall n h
      · simp only [List.mem_singleton] at h; subst h; rfl
    · show (keysOf (m.children ++ _)).Nodup
      rw [hk]
      exact List.Nodup.append hnodup (List.nodup_singleton _)
        (fun a ha hb => hnotin (by rw [List.mem_singleton] at hb; rw [← hb]; exact ha))


theorem entryKeys_of_children (r m : Element) (rest : List Node)
    (h : get_children r.children "metadata" = Node.element m :: rest) :
    entryKeys (some { root := some r }) = keysOf m.children := by
  simp [entryKeys, h, Node.children]

theorem declared_inScope (m r : Element) (pre : String)
    (hdecl : m.nsDecls = newMetadataElement.nsDecls) (hpre : pre ∈ declaredPrefixes) :
    pre = "" ∨ namespaceInScope [m, r] pre = true := by
  simp only [declaredPrefixes, List.mem_cons, List.mem_singleton, List.not_mem_nil,
    or_false] at hpre
  rcases hpre with h | h | h | h
  · exact Or.inl h
  · subst h; exact Or.inr (by simp [namespaceInScope])
  · subst h
    exact Or.inr (by simp [namespaceInScope, declaresPrefix, hdecl, newMetadataElement])
  · subst h
    exact Or.inr (by simp [namespaceInScope, declaresPrefix, hdecl, newMetadataElement])

theorem setMetadata_keys (c : AudioClip) (v name pre : String) (m : Element)
    (hm : targetMetadata (documentRoot c.xmlAudioClip) = some m)
    (hdecl : m.nsDecls = newMetadataElement.nsDecls)
    (hall : ∀ n ∈ m.children, n.isElement = true)
    (hnodup : (keysOf m.children).Nodup)
    (hkeys : entryKeys c.xmlAudioClip = keysOf m.children)
    (hpre : pre ∈ declaredPrefixes)
    (hdur : pre = extentElementPrefix → name = extentElementName →
      duration_from_string v ≠ none) :
    ∃ c' m', c.setMetadata v name pre = Except.ok c' ∧
      targetMetadata (documentRoot c'.xmlAudioClip) = some m' ∧
      m'.nsDecls = newMetadataElement.nsDecls ∧
      (∀ n ∈ m'.children, n.isElement = true) ∧
      (keysOf m'.children).Nodup ∧
      entryKeys c'.xmlAudioClip = keysOf m'.children ∧
      ((pre, name) ∈ entryKeys c.xmlAudioClip →
        entryKeys c'.xmlAudioClip = entryKeys c.xmlAudioClip) := by
  obtain ⟨m', hm', hd', hall', hnd', hsame⟩ :=
    setDataElement_keys (documentRoot c.xmlAudioClip) m v name pre hall hnodup
      (declared_inScope m _ pre hdecl hpre)
  obtain ⟨r', rest, hdoc, hch⟩ := setInDocument_metadata c.xmlAudioClip m m' v name pre hm hm'
  obtain ⟨c', hc', hx, -⟩ := setMetadata_ok c v name pre _ hdur hdoc
  have hk' : entryKeys c'.xmlAudioClip = keysOf m'.children := by
    rw [hx]; exact entryKeys_of_children r' m' rest hch
  refine ⟨c', m', hc', ?_, hd'.trans hdecl, hall', hnd', hk', ?_⟩
  · rw [hx]; exact targetMetadata_of_children r' m' rest hch
  · intro hin
    rw [hk', hkeys, hsame (by rw [← hkeys]; exact hin)]

theorem setAll_keys (calls : List (String × String × String)) :
    ∀ (c : AudioClip) (m : Element),
    targetMetadata (documentRoot c.xmlAudioClip) = some m →
    m.nsDecls = newMetadataElement.nsDecls →
    (∀ n ∈ m.children, n.isElement = true) →
    (keysOf m.children).Nodup →
    entryKeys c.xmlAudioClip = keysOf m.children →
    (∀ call ∈ calls, call.2.2 ∈ declaredPrefixes) →
    (∀ call ∈ calls, call.2.2 = extentElementPrefix → call.2.1 = extentElementName →
      duration_from_string call.1 ≠ none) →
    ∃ c' m', setAll c calls = Except.ok c' ∧
      targetMetadata (documentRoot c'.xmlAudioClip) = some m' ∧
      m'.nsDecls = newMetadataElement.nsDecls ∧
      (∀ n ∈ m'.children, n.isElement = true) ∧
      (keysOf m'.children).Nodup ∧
      entryKeys c'.xmlAudioClip = keysOf m'.children := by
  induction calls with
  | nil => intro c m h1 h2 h3 h4 h5 _ _; exact ⟨c, m, rfl, h1, h2, h3, h4, h5⟩
  | cons call rest ih =>
    intro c m h1 h2 h3 h4 h5 hpre hdur
    obtain ⟨c1, m1, hc1, g1, g2, g3, g4, g5, -⟩ :=
      setMetadata_keys c call.1 call.2.1 call.2.2 m h1 h2 h3 h4 h5
        (hpre call (List.mem_cons_self _ _)) (hdur call (List.mem_cons_self _ _))
    obtain ⟨c', m', hc', r⟩ := ih c1 m1 g1 g2 g3 g4 g5
      (fun k hk => hpre k (List.mem_cons_of_mem _ hk))
      (fun k hk => hdur k (List.mem_cons_of_mem _ hk))
    exact ⟨c', m', by simp only [setAll, hc1, hc'], r⟩


/-! ## Lemmas on the store built from attributes -/

theorem setMetadata_extent_noStore (c : AudioClip) (t : String) (d : time_duration)
    (hx : c.xmlAudioClip = none) (hd : duration_from_string t = some d) :
    c.setMetadata t extentElementName extentElementPrefix =
      Except.ok { c with playlength := some d, xmlAudioClip := some (extentStore t) } := by
  unfold AudioClip.setMetadata
  simp only [hd, hx, and_self, if_true]
  rfl

theorem setMetadata_title_afterExtent (c : AudioClip) (t a : String)
    (hx : c.xmlAudioClip = some (extentStore t)) :
    c.setMetadata a titleElementName titleElementPrefix =
      Except.ok { c with title := some a, xmlAudioClip := some (mirroredStore t a) } := by
  unfold AudioClip.setMetadata
  have h : ¬ (titleElementPrefix = extentElementPrefix ∧ titleElementName = extentElementName) := by
    decide
  simp only [h, hx, and_self, if_true, if_false]
  rfl

/-! ## Keys -/

theorem findChar_lt (c : Char) (l : List Char) (i : Nat) (h : findChar c l = some i) :
    i + utf8Size c ≤ utf8Length l := by
  induction l generalizing i with
  | nil => simp [findChar] at h
  | cons x xs ih =>
    by_cases hx : x = c
    · simp only [findChar, hx, if_true, Option.some.injEq] at h
      subst h
      simp [utf8Length, hx]
    · simp only [findChar, hx, if_false, Option.map_eq_some'] at h
      obtain ⟨j, hj, rfl⟩ := h
      have := ih j hj
      simp only [utf8Length]
      omega

/-- The positions `separateNameAndNameSpace` hands to `substr` lie within the
key, so that no call of `substr` throws `std::out_of_range`. -/
theorem separate_positions_in_range (key : String) :
    (find key ':' % 2 ^ unsignedIntBits + 1) % 2 ^ unsignedIntBits ≤ utf8Length key.data := by
  unfold find
  cases h : findChar ':' key.data with
  | none => simp [npos, sizeTypeBits, unsignedIntBits]
  | some i =>
    have hi := findChar_lt _ _ _ h
    have hc : utf8Size ':' = 1 := by decide
    simp only [Option.getD_some]
    have h1 : i % 2 ^ unsignedIntBits ≤ i := Nat.mod_le _ _
    have h2 : (i % 2 ^ unsignedIntBits + 1) % 2 ^ unsignedIntBits ≤ i % 2 ^ unsignedIntBits + 1 :=
      Nat.mod_le _ _
    omega

/-! ## Lemmas on the outcomes of `configure` -/

theorem setMetadata_inv (c c' : AudioClip) (v name pre : String)
    (h : c.setMetadata v name pre = Except.ok c') :
    c'.id = c.id ∧ c'.uri = c.uri ∧ c'.token = c.token ∧
      c'.title = (if pre = titleElementPrefix ∧ name = titleElementName then some v
                  else c.title) ∧
      c'.playlength = (if pre = extentElementPrefix ∧ name = extentElementName then
                        duration_from_string v else c.playlength) ∧
      (pre = extentElementPrefix → name = extentElementName →
        duration_from_string v ≠ none) := by
  cases hdoc : setInDocument c.xmlAudioClip v name pre with
  | error a =>
    exfalso
    unfold AudioClip.setMetadata at h
    by_cases he : pre = extentElementPrefix ∧ name = extentElementName
    · cases hd : duration_from_string v with
      | none => simp [he, hd] at h
      | some d =>
        by_cases ht : pre = titleElementPrefix ∧ name = titleElementName
        · simp only [if_pos he, if_pos ht, hd, hdoc] at h; cases h
        · simp only [if_pos he, if_neg ht, hd, hdoc] at h; cases h
    · by_cases ht : pre = titleElementPrefix ∧ name = titleElementName
      · simp only [if_neg he, if_pos ht, hdoc] at h; cases h
      · simp only [if_neg he, if_neg ht, hdoc] at h; cases h
  | ok doc =>
    have hdur : pre = extentElementPrefix → name = extentElementName →
        duration_from_string v ≠ none := by
      intro h1 h2 hd
      unfold AudioClip.setMetadata at h
      simp [h1, h2, hd] at h
    obtain ⟨c'', hc'', -, hid, huri, htok, htitle, hpl⟩ :=
      setMetadata_ok c v name pre doc hdur hdoc
    rw [hc''] at h
    cases h
    exact ⟨hid, huri, htok, htitle, hpl, hdur⟩


theorem configurePlaylength_inv (c c2 : AudioClip) (e : Element)
    (h : configurePlaylength c e = Except.ok c2) :
    c2.id = c.id ∧ c2.uri = c.uri ∧ c2.token = c.token ∧ c2.title = c.title ∧
      (c2.playlength = none → get_attribute e playlengthAttrName = none) := by
  unfold configurePlaylength at h
  cases hp : c.playlength with
  | some d =>
    simp only [hp, reduceCtorEq, if_false, Except.ok.injEq] at h
    subst h
    exact ⟨rfl, rfl, rfl, rfl, fun h' => by rw [hp] at h'; cases h'⟩
  | none =>
    simp only [hp, if_true] at h
    cases ha : get_attribute e playlengthAttrName with
    | none =>
      simp only [ha, Except.ok.injEq] at h
      subst h
      exact ⟨rfl, rfl, rfl, rfl, fun _ => rfl⟩
    | some t =>
      simp only [ha] at h
      cases hd : duration_from_string t with
      | none => simp [hd] at h
      | some d =>
        simp only [hd] at h
        obtain ⟨hid, huri, htok, htitle, hpl, -⟩ := setMetadata_inv _ _ _ _ _ h
        refine ⟨hid, huri, htok, ?_, ?_⟩
        · rw [htitle]; simp [extentElementPrefix, titleElementPrefix]
        · intro hn; rw [hpl] at hn; simp [hd] at hn

theorem configureTitle_inv (c c3 : AudioClip) (e : Element)
    (h : configureTitle c e = Except.ok c3) :
    c3.id = c.id ∧ c3.uri = c.uri ∧ c3.token = c.token ∧ c3.playlength = c.playlength ∧
      (c3.title = none → get_attribute e titleAttrName = none) := by
  unfold configureTitle at h
  cases hp : c.title with
  | some d =>
    simp only [hp, reduceCtorEq, if_false, Except.ok.injEq] at h
    subst h
    exact ⟨rfl, rfl, rfl, rfl, fun h' => by rw [hp] at h'; cases h'⟩
  | none =>
    simp only [hp, if_true] at h
    cases ha : get_attribute e titleAttrName with
    | none =>
      simp only [ha, Except.ok.injEq] at h
      subst h
      exact ⟨rfl, rfl, rfl, rfl, fun _ => rfl⟩
    | some t =>
      simp only [ha] at h
      obtain ⟨hid, huri, htok, htitle, hpl, -⟩ := setMetadata_inv _ _ _ _ _ h
      refine ⟨hid, huri, htok, ?_, ?_⟩
      · rw [hpl]; simp [extentElementPrefix, titleElementPrefix]
      · intro hn; rw [htitle] at hn; simp at hn

theorem configureUri_none (c : AudioClip) (e : Element)
    (h : (configureUri c e).uri = none) : get_attribute e uriAttrName = none := by
  unfold configureUri at h
  cases hu : c.uri with
  | some u => simp [hu] at h
  | none =>
    cases ha : get_attribute e uriAttrName with
    | none => rfl
    | some v => simp [hu, ha] at h

theorem configureId_inv (c c1 : AudioClip) (e : Element) (h : configureId c e = some c1) :
    c1.id ≠ none ∧ c1.title = c.title ∧ c1.playlength = c.playlength ∧ c1.uri = c.uri ∧
      c1.token = c.token ∧ c1.xmlAudioClip = c.xmlAudioClip := by
  unfold configureId at h
  cases hi : c.id with
  | some i =>
    simp only [hi, reduceCtorEq, if_false, Option.some.injEq] at h
    subst h
    exact ⟨by simp [hi], rfl, rfl, rfl, rfl, rfl⟩
  | none =>
    cases ha : get_attribute e idAttrName with
    | none => simp [hi, ha] at h
    | some v =>
      simp only [hi, ha, if_true, Option.some.injEq] at h
      subst h
      exact ⟨by simp, rfl, rfl, rfl, rfl, rfl⟩

theorem configureId_fix (c : AudioClip) (e : Element) (h : c.id ≠ none) :
    configureId c e = some c := by
  unfold configureId
  rw [if_neg h]

theorem configurePlaylength_fix (c : AudioClip) (e : Element)
    (h : c.playlength = none → get_attribute e playlengthAttrName = none) :
    configurePlaylength c e = Except.ok c := by
  unfold configurePlaylength
  by_cases hp : c.playlength = none
  · rw [if_pos hp, h hp]
  · rw [if_neg hp]

theorem configureTitle_fix (c : AudioClip) (e : Element)
    (h : c.title = none → get_attribute e titleAttrName = none) :
    configureTitle c e = Except.ok c := by
  unfold configureTitle
  by_cases hp : c.title = none
  · rw [if_pos hp, h hp]
  · rw [if_neg hp]

theorem configureUri_fix (c : AudioClip) (e : Element)
    (h : c.uri = none → get_attribute e uriAttrName = none) :
    configureUri c e = c := by
  unfold configureUri
  by_cases hp : c.uri = none
  · rw [if_pos hp, h hp]
  · rw [if_neg hp]

/-- The ways in which `configure` throws: for a wrong element name and for a
missing identifier the clip is the one before the call, and any other
exception comes from the part of `configure` on the metadata children. -/
theorem configure_threw_inv (c c' : AudioClip) (e : Element) (what : String)
    (h : c.configure e = ConfigureResult.threw what c') :
    (e.name ≠ configElementNameStr ∧ what = invalidConfigElementMessage e.name ∧ c' = c) ∨
    (e.name = configElementNameStr ∧ configureId c e = none ∧
      what = missingAttributeMessage idAttrName ∧ c' = c) ∨
    (e.name = configElementNameStr ∧ ∃ c1 c2 c3, configureId c e = some c1 ∧
      configurePlaylength c1 e = Except.ok c2 ∧ configureTitle c2 e = Except.ok c3 ∧
      configureMetadata (configureUri c3 e) e = ConfigureResult.threw what c') := by
  unfold AudioClip.configure at h
  by_cases hn : e.name = configElementNameStr
  · rw [if_neg (not_not.2 hn)] at h
    cases h1 : configureId c e with
    | none =>
      simp only [h1, ConfigureResult.threw.injEq] at h
      exact Or.inr (Or.inl ⟨hn, rfl, h.1.symm, h.2.symm⟩)
    | some c1 =>
      simp only [h1] at h
      cases h2 : configurePlaylength c1 e with
      | error a => simp [h2] at h
      | ok c2 =>
        simp only [h2] at h
        cases h3 : configureTitle c2 e with
        | error a => simp [h3] at h
        | ok c3 =>
          simp only [h3] at h
          exact Or.inr (Or.inr ⟨hn, c1, c2, c3, rfl, h2, h3, h⟩)
  · rw [if_pos hn] at h
    simp only [ConfigureResult.threw.injEq] at h
    exact Or.inl ⟨hn, h.1.symm, h.2.symm⟩

theorem scanDataNode_inv (c c' : AudioClip) (n : Node) (h : scanDataNode c n = Except.ok c') :
    c'.id = c.id ∧ c'.uri = c.uri ∧ c'.token = c.token ∧
      c'.xmlAudioClip = c.xmlAudioClip ∧
      (c.playlength ≠ none → c'.playlength = c.playlength) ∧
      (c.title ≠ none → c'.title = c.title) ∧
      (c'.playlength = none → c.playlength = none ∧
        ¬ (n.get_namespace_prefix = extentElementPrefix ∧ n.get_name = extentElementName)) ∧
      (c'.title = none → c.title = none ∧
        ¬ (n.get_namespace_prefix = titleElementPrefix ∧ n.get_name = titleElementName)) := by
  cases n with
  | text t =>
    simp only [scanDataNode, Node.asElement, Except.ok.injEq] at h
    subst h
    simp [Node.get_namespace_prefix, extentElementPrefix, titleElementPrefix]
  | other o =>
    simp only [scanDataNode, Node.asElement, Except.ok.injEq] at h
    subst h
    simp [Node.get_namespace_prefix, extentElementPrefix, titleElementPrefix]
  | element d =>
    obtain ⟨id, title, pl, uri, token, x⟩ := c
    by_cases hx : d.nsPrefix = extentElementPrefix ∧ d.name = extentElementName
    · have hnt : ¬ (d.nsPrefix = titleElementPrefix ∧ d.name = titleElementName) := by
        rintro ⟨h1, -⟩; rw [hx.1] at h1; exact absurd h1 (by decide)
      cases hc : get_child_text d with
      | none =>
        cases pl <;>
        simp [scanDataNode, Node.asElement, Node.get_namespace_prefix, Node.get_name, hx, hnt,
          hc, extentElementPrefix, titleElementPrefix, extentElementName,
          titleElementName] at h <;> subst h <;>
        simp [Node.get_namespace_prefix, Node.get_name, hx, hnt, extentElementPrefix,
          titleElementPrefix, extentElementName, titleElementName]
      | some content =>
        cases hd : duration_from_string content with
        | none =>
          cases pl with
          | none =>
            simp [scanDataNode, Node.asElement, Node.get_namespace_prefix, Node.get_name, hx,
              hnt, hc, hd] at h
          | some p =>
            simp [scanDataNode, Node.asElement, Node.get_namespace_prefix, Node.get_name, hx,
              hnt, hc, hd, extentElementPrefix, titleElementPrefix, extentElementName,
              titleElementName] at h
            subst h
            simp [Node.get_namespace_prefix, Node.get_name, hx, hnt, extentElementPrefix,
              titleElementPrefix, extentElementName, titleElementName]
        | some dd =>
          cases pl <;>
          simp [scanDataNode, Node.asElement, Node.get_namespace_prefix, Node.get_name, hx, hnt,
            hc, hd, extentElementPrefix, titleElementPrefix, extentElementName,
            titleElementName] at h <;> subst h <;>
          simp [Node.get_namespace_prefix, Node.get_name, hx, hnt, extentElementPrefix,
            titleElementPrefix, extentElementName, titleElementName]
    · by_cases ht : d.nsPrefix = titleElementPrefix ∧ d.name = titleElementName
      · cases hc : get_child_text d <;> cases title <;>
        simp [scanDataNode, Node.asElement, Node.get_namespace_prefix, Node.get_name, hx, ht,
          hc, extentElementPrefix, titleElementPrefix, extentElementName,
          titleElementName] at h <;> subst h <;>
        simp [Node.get_namespace_prefix, Node.get_name, hx, ht, extentElementPrefix,
          titleElementPrefix, extentElementName, titleElementName]
      · simp [scanDataNode, Node.asElement, Node.get_namespace_prefix, Node.get_name, hx,
          ht] at h
        subst h
        simp [Node.get_namespace_prefix, Node.get_name, hx, ht]

theorem scanDataNode_fix (c : AudioClip) (n : Node)
    (hp : c.playlength = none →
      ¬ (n.get_namespace_prefix = extentElementPrefix ∧ n.get_name = extentElementName))
    (ht : c.title = none →
      ¬ (n.get_namespace_prefix = titleElementPrefix ∧ n.get_name = titleElementName)) :
    scanDataNode c n = Except.ok c := by
  cases n with
  | text t => rfl
  | other o => rfl
  | element d =>
    simp only [scanDataNode, Node.asElement]
    have h1 : ¬ (c.playlength = none ∧ Node.get_namespace_prefix (Node.element d) = extentElementPrefix
        ∧ (Node.element d).get_name = extentElementName) := fun h => hp h.1 h.2
    have h2 : ¬ (c.title = none ∧ Node.get_namespace_prefix (Node.element d) = titleElementPrefix
        ∧ (Node.element d).get_name = titleElementName) := fun h => ht h.1 h.2
    rw [if_neg h1]
    simp only [if_neg h2]

theorem scanDataFields_inv (nodes : List Node) :
    ∀ (c c' : AudioClip), scanDataFields c nodes = Except.ok c' →
    c'.id = c.id ∧ c'.uri = c.uri ∧ c'.token = c.token ∧
      c'.xmlAudioClip = c.xmlAudioClip ∧
      (c.playlength ≠ none → c'.playlength = c.playlength) ∧
      (c.title ≠ none → c'.title = c.title) ∧
      (c'.playlength = none → c.playlength = none ∧ ∀ n ∈ nodes,
        ¬ (n.get_namespace_prefix = extentElementPrefix ∧ n.get_name = extentElementName)) ∧
      (c'.title = none → c.title = none ∧ ∀ n ∈ nodes,
        ¬ (n.get_namespace_prefix = titleElementPrefix ∧ n.get_name = titleElementName)) := by
  induction nodes with
  | nil =>
    intro c c' h
    simp only [scanDataFields, Except.ok.injEq] at h
    subst h
    simp
  | cons n rest ih =>
    intro c c' h
    simp only [scanDataFields] at h
    cases h1 : scanDataNode c n with
    | error a => simp [h1] at h
    | ok c1 =>
      simp only [h1] at h
      obtain ⟨a1, a2, a3, a4, a5, a6, a7, a8⟩ := scanDataNode_inv c c1 n h1
      obtain ⟨b1, b2, b3, b4, b5, b6, b7, b8⟩ := ih c1 c' h
      refine ⟨b1.trans a1, b2.trans a2, b3.trans a3, b4.trans a4, ?_, ?_, ?_, ?_⟩
      · intro hp
        have := a5 hp
        rw [b5 (by rw [this]; exact hp), this]
      · intro ht
        have := a6 ht
        rw [b6 (by rw [this]; exact ht), this]
      · intro hn
        obtain ⟨h1', h2'⟩ := b7 hn
        obtain ⟨h3', h4'⟩ := a7 h1'
        refine ⟨h3', ?_⟩
        intro k hk
        rcases List.mem_cons.1 hk with rfl | hk
        · exact h4'
        · exact h2' k hk
      · intro hn
        obtain ⟨h1', h2'⟩ := b8 hn
        obtain ⟨h3', h4'⟩ := a8 h1'
        refine ⟨h3', ?_⟩
        intro k hk
        rcases List.mem_cons.1 hk with rfl | hk
        · exact h4'
        · exact h2' k hk

theorem scanDataFields_fix (nodes : List Node) (c : AudioClip)
    (hp : c.playlength = none → ∀ n ∈ nodes,
      ¬ (n.get_namespace_prefix = extentElementPrefix ∧ n.get_name = extentElementName))
    (ht : c.title = none → ∀ n ∈ nodes,
      ¬ (n.get_namespace_prefix = titleElementPrefix ∧ n.get_name = titleElementName)) :
    scanDataFields c nodes = Except.ok c := by
  induction nodes with
  | nil => rfl
  | cons n rest ih =>
    simp only [scanDataFields]
    rw [scanDataNode_fix c n (fun h => hp h n (List.mem_cons_self _ _))
      (fun h => ht h n (List.mem_cons_self _ _))]
    exact ih (fun h k hk => hp h k (List.mem_cons_of_mem _ hk))
      (fun h k hk => ht h k (List.mem_cons_of_mem _ hk))

theorem checkRequired_threw_inv (c c' : AudioClip) (what : String)
    (h : checkRequired c = ConfigureResult.threw what c') :
    c' = c ∧
      (what = missingRequiredFieldMessage playlengthAttrName extentElementPrefix
          extentElementName ∨
       what = missingRequiredFieldMessage titleAttrName titleElementPrefix titleElementName) := by
  unfold checkRequired at h
  split at h
  · simp only [ConfigureResult.threw.injEq] at h
    exact ⟨h.2.symm, Or.inl h.1.symm⟩
  · split at h
    · simp only [ConfigureResult.threw.injEq] at h
      exact ⟨h.2.symm, Or.inr h.1.symm⟩
    · cases h

theorem clip_eta (c : AudioClip) (i : String) (x : Option Document) (h1 : c.id = some i)
    (h2 : c.xmlAudioClip = x) :
    (⟨some i, c.title, c.playlength, c.uri, c.token, x⟩ : AudioClip) = c := by
  cases c; cases h1; cases h2; rfl

/-- The ways in which the part of `configure` on the metadata children throws:
the exception is one of the three late ones, the clip left behind has an
identifier when the clip before had one, and running that part again on the
clip left behind throws the same exception and leaves the same clip. -/
theorem configureMetadata_threw_inv (c c' : AudioClip) (e : Element) (what : String)
    (h : configureMetadata c e = ConfigureResult.threw what c') :
    (what = tooManyMetadataElementsMessage ∨
      what = missingRequiredFieldMessage playlengthAttrName extentElementPrefix
          extentElementName ∨
      what = missingRequiredFieldMessage titleAttrName titleElementPrefix titleElementName) ∧
    c'.id = c.id ∧ c'.uri = c.uri ∧
    (c'.playlength = none → c.playlength = none) ∧ (c'.title = none → c.title = none) ∧
    configureMetadata c' e = ConfigureResult.threw what c' := by
  obtain ⟨id, title, pl, uri, token, x⟩ := c
  unfold configureMetadata at h
  cases hl : get_children e.children metadataElementName with
  | nil =>
    simp only [hl] at h
    obtain ⟨hc, hw⟩ := checkRequired_threw_inv _ c' what h
    subst hc
    refine ⟨Or.inr hw, rfl, rfl, fun h => h, fun h => h, ?_⟩
    unfold configureMetadata
    simp only [hl]
    exact h
  | cons first rest =>
    simp only [hl] at h
    cases hf : first.asElement with
    | none => simp [hf] at h
    | some m =>
      cases id with
      | none => simp [hf] at h
      | some i =>
        simp only [hf, get_children_empty] at h
        cases hs : scanDataFields
            ⟨some i, title, pl, uri, token, some { root := some (importedRoot i m) }⟩
            m.children with
        | error a => simp [hs] at h
        | ok c5 =>
          simp only [hs] at h
          obtain ⟨s1, s2, -, s4, -, -, s7, s8⟩ := scanDataFields_inv _ _ _ hs
          have hfix : scanDataFields
              ⟨some i, c5.title, c5.playlength, c5.uri, c5.token,
                some { root := some (importedRoot i m) }⟩ m.children = Except.ok c5 := by
            rw [clip_eta c5 i _ s1 s4]
            exact scanDataFields_fix _ _ (fun hp => (s7 hp).2) (fun ht => (s8 ht).2)
          have hagain : ∀ r, (if rest.isEmpty = true then checkRequired c5
              else ConfigureResult.threw tooManyMetadataElementsMessage c5) = r →
              configureMetadata c5 e = r := by
            intro r hr
            unfold configureMetadata
            simp only [hl, hf, show c5.id = some i from s1, get_children_empty, hfix]
            exact hr
          by_cases hr : rest.isEmpty = true
          · rw [if_pos hr] at h
            obtain ⟨hc, hw⟩ := checkRequired_threw_inv c5 c' what h
            subst hc
            refine ⟨Or.inr hw, s1, s2, fun hp => (s7 hp).1, fun ht => (s8 ht).1, ?_⟩
            exact hagain _ (by rw [if_pos hr]; exact h)
          · rw [if_neg hr] at h
            simp only [ConfigureResult.threw.injEq] at h
            obtain ⟨hw, hc⟩ := h
            subst hc
            refine ⟨Or.inl hw.symm, s1, s2, fun hp => (s7 hp).1, fun ht => (s8 ht).1, ?_⟩
            exact hagain _ (by rw [if_neg hr, hw])

theorem configureMetadata_clip_id (c c' : AudioClip) (e : Element)
    (h : (configureMetadata c e).clip? = some c') : c'.id = c.id := by
  obtain ⟨id, title, pl, uri, token, x⟩ := c
  unfold configureMetadata at h
  cases hl : get_children e.children metadataElementName with
  | nil =>
    simp only [hl, checkRequired_clip, Option.some.injEq] at h
    subst h; rfl
  | cons first rest =>
    simp only [hl] at h
    cases hf : first.asElement with
    | none => simp [hf, ConfigureResult.clip?] at h
    | some m =>
      cases id with
      | none => simp [hf, ConfigureResult.clip?] at h
      | some i =>
        simp only [hf, get_children_empty] at h
        cases hs : scanDataFields
            ⟨some i, title, pl, uri, token, some { root := some (importedRoot i m) }⟩
            m.children with
        | error a => simp [hs, ConfigureResult.clip?] at h
        | ok c5 =>
          simp only [hs] at h
          obtain ⟨s1, -⟩ := scanDataFields_inv _ _ _ hs
          by_cases hr : rest.isEmpty = true
          · rw [if_pos hr, checkRequired_clip] at h
            cases h; exact s1
          · rw [if_neg hr] at h
            simp only [ConfigureResult.clip?, Option.some.injEq] at h
            subst h; exact s1

theorem configure_clip_id (c c' : AudioClip) (e : Element) (hid : c.id ≠ none)
    (h : (c.configure e).clip? = some c') : c'.id = c.id := by
  unfold AudioClip.configure at h
  by_cases hn : e.name = configElementNameStr
  · rw [if_neg (not_not.2 hn)] at h
    simp only [configureId_fix c e hid] at h
    cases h2 : configurePlaylength c e with
    | error a => simp [h2, ConfigureResult.clip?] at h
    | ok c2 =>
      simp only [h2] at h
      cases h3 : configureTitle c2 e with
      | error a => simp [h3, ConfigureResult.clip?] at h
      | ok c3 =>
        simp only [h3] at h
        rw [configureMetadata_clip_id _ _ _ h, (configureUri_fields c3 e).1,
          (configureTitle_inv _ _ _ h3).1, (configurePlaylength_inv _ _ _ h2).1]
  · rw [if_pos hn] at h
    simp only [ConfigureResult.clip?, Option.some.injEq] at h
    subst h; rfl

theorem configure_congr (c : AudioClip) (e e' : Element) (hid : c.id ≠ none)
    (hname : e'.name = e.name) (hchildren : e'.children = e.children)
    (hattr : ∀ a, a ≠ idAttrName → get_attribute e' a = get_attribute e a) :
    c.configure e' = c.configure e := by
  have hp : ∀ c0, configurePlaylength c0 e' = configurePlaylength c0 e := by
    intro c0; unfold configurePlaylength; rw [hattr _ (by decide)]
  have ht : ∀ c0, configureTitle c0 e' = configureTitle c0 e := by
    intro c0; unfold configureTitle; rw [hattr _ (by decide)]
  have hu : ∀ c0, configureUri c0 e' = configureUri c0 e := by
    intro c0; unfold configureUri; rw [hattr _ (by decide)]
  have hm : ∀ c0, configureMetadata c0 e' = configureMetadata c0 e := by
    intro c0; unfold configureMetadata; rw [hchildren]
  unfold AudioClip.configure
  simp only [hname, configureId_fix c _ hid, hp, ht, hu, hm]


/-! ## Lemmas on the separation of keys -/

theorem findChar_eq_none (c : Char) (l : List Char) (h : c ∉ l) : findChar c l = none := by
  induction l with
  | nil => rfl
  | cons x xs ih =>
    have hx : x ≠ c := fun hx => h (hx ▸ List.mem_cons_self _ _)
    simp only [findChar, hx, if_false, ih (fun hm => h (List.mem_cons_of_mem _ hm)),
      Option.map_none']

theorem findChar_append (c : Char) (p rest : List Char) (h : c ∉ p) :
    findChar c (p ++ c :: rest) = some (utf8Length p) := by
  induction p with
  | nil => simp [findChar, utf8Length]
  | cons x xs ih =>
    have hx : x ≠ c := fun hx => h (hx ▸ List.mem_cons_self _ _)
    have := ih (fun hm => h (List.mem_cons_of_mem _ hm))
    simp [findChar, hx, this, utf8Length, Nat.add_comm]

theorem utf8Size_pos (c : Char) : 0 < utf8Size c := by
  unfold utf8Size
  split
  · decide
  · split
    · decide
    · split <;> decide

theorem dropBytes_zero (l : List Char) : dropBytes 0 l = l := by
  cases l <;> simp [dropBytes]

theorem takeBytes_zero (l : List Char) : takeBytes 0 l = [] := by
  cases l with
  | nil => rfl
  | cons c tl =>
    have := utf8Size_pos c
    simp only [takeBytes]
    rw [if_neg (by omega)]
    rfl

theorem takeBytes_all (l : List Char) : ∀ n, utf8Length l ≤ n → takeBytes n l = l := by
  induction l with
  | nil => intro n _; rfl
  | cons c rest ih =>
    intro n h
    simp only [utf8Length] at h
    have hc : utf8Size c ≤ n := by omega
    simp only [takeBytes, hc, if_true]
    rw [ih (n - utf8Size c) (by omega)]

theorem takeBytes_append (p rest : List Char) : takeBytes (utf8Length p) (p ++ rest) = p := by
  induction p with
  | nil =>
    cases rest with
    | nil => rfl
    | cons c tl =>
      have := utf8Size_pos c
      simp only [utf8Length, List.nil_append, takeBytes]
      rw [if_neg (by omega)]
      rfl
  | cons c tl ih =>
    have step : takeBytes (utf8Length (c :: tl)) (c :: tl ++ rest) =
        c :: takeBytes (utf8Length tl) (tl ++ rest) := by
      rw [List.cons_append]
      simp only [utf8Length, takeBytes, Nat.le_add_right, if_true, Nat.add_sub_cancel_left]
    rw [step, ih]

theorem dropBytes_append (p rest : List Char) : dropBytes (utf8Length p) (p ++ rest) = rest := by
  induction p with
  | nil => exact dropBytes_zero rest
  | cons c tl ih =>
    have hpos := utf8Size_pos c
    have step : dropBytes (utf8Length (c :: tl)) (c :: tl ++ rest) =
        dropBytes (utf8Length tl) (tl ++ rest) := by
      rw [List.cons_append]
      simp only [utf8Length, dropBytes, Nat.le_add_right, if_true, Nat.add_sub_cancel_left]
      rw [if_neg (by omega)]
    rw [step, ih]

theorem utf8Length_append (p rest : List Char) :
    utf8Length (p ++ rest) = utf8Length p + utf8Length rest := by
  induction p with
  | nil => simp [utf8Length]
  | cons c tl ih =>
    have step : utf8Length (c :: tl ++ rest) = utf8Size c + utf8Length (tl ++ rest) := rfl
    rw [step, ih]
    simp only [utf8Length]
    omega

theorem utf8Length_replicate (n : Nat) (c : Char) :
    utf8Length (List.replicate n c) = n * utf8Size c := by
  induction n with
  | zero => simp [utf8Length]
  | succ k ih =>
    simp only [List.replicate_succ, utf8Length, ih]
    rw [Nat.succ_mul]
    omega

theorem pow_unsignedIntBits : 2 ^ unsignedIntBits = 4294967296 := by decide

theorem npos_eq : npos = 18446744073709551615 := by decide

/-- On a key without colon (of less than 2^32 bytes) the position `npos` is
cut to 32 bits, the test for a colon succeeds, and both the name and the
prefix are the whole key. -/
theorem separate_without_colon (key : String) (h : ':' ∉ key.data)
    (hlen : utf8Length key.data < 2 ^ 32) :
    separateNameAndNameSpace key = (key, key) := by
  unfold separateNameAndNameSpace find
  rw [findChar_eq_none _ _ h]
  simp only [Option.getD_none, pow_unsignedIntBits, npos_eq]
  norm_num
  constructor
  · simp [substrFrom, dropBytes_zero]
  · unfold substr
    rw [dropBytes_zero, takeBytes_all _ _ (by omega)]

/-- On a key whose first colon lies below byte 2^32 - 1 the prefix is the text
before the colon and the name the text after it. -/
theorem separate_with_colon (p n : String) (h : ':' ∉ p.data)
    (hlen : utf8Length p.data < 2 ^ 32 - 1) :
    separateNameAndNameSpace (p ++ ":" ++ n) = (n, p) := by
  have hdata : (p ++ ":" ++ n).data = p.data ++ ':' :: n.data := by
    simp [String.data_append]
  unfold separateNameAndNameSpace find
  rw [hdata, findChar_append _ _ _ h]
  simp only [Option.getD_some, pow_unsignedIntBits, npos_eq]
  have h1 : utf8Length p.data % 4294967296 = utf8Length p.data := Nat.mod_eq_of_lt (by omega)
  have h2 : (utf8Length p.data + 1) % 4294967296 = utf8Length p.data + 1 :=
    Nat.mod_eq_of_lt (by omega)
  rw [h1, h2, if_pos (by omega)]
  unfold substrFrom substr
  rw [hdata]
  refine Prod.ext ?_ ?_
  · apply String.ext
    show dropBytes (utf8Length p.data + 1) (p.data ++ ':' :: n.data) = n.data
    have hc : utf8Length p.data + 1 = utf8Length (p.data ++ [':']) := by
      rw [utf8Length_append]; rfl
    have hl : p.data ++ ':' :: n.data = (p.data ++ [':']) ++ n.data := by simp
    rw [hc, hl, dropBytes_append]
  · apply String.ext
    show takeBytes (utf8Length p.data) (dropBytes 0 (p.data ++ ':' :: n.data)) = p.data
    rw [dropBytes_zero, takeBytes_append]

/-- On a key whose first colon lies at byte 2^32 the position is cut to zero:
the prefix is empty and the name is the key without its first byte. -/
theorem separate_with_far_colon (p n : String) (h : ':' ∉ p.data)
    (hlen : utf8Length p.data = 2 ^ 32) :
    separateNameAndNameSpace (p ++ ":" ++ n) = (substrFrom (p ++ ":" ++ n) 1, "") := by
  have hdata : (p ++ ":" ++ n).data = p.data ++ ':' :: n.data := by
    simp [String.data_append]
  unfold separateNameAndNameSpace find
  rw [hdata, findChar_append _ _ _ h, hlen]
  simp only [Option.getD_some, pow_unsignedIntBits, npos_eq]
  norm_num
  unfold substr
  apply String.ext
  exact takeBytes_zero _

/-! ## Lemmas on decimal texts and durations -/

theorem digitChar_spec (d : Nat) (h : d < 10) :
    (digitChar d).isDigit = true ∧ (digitChar d).toNat - 48 = d := by
  interval_cases d <;> decide

theorem decimalAux_append (fuel : Nat) : ∀ (n : Nat) (acc : List Char),
    decimalAux fuel n acc = decimalAux fuel n [] ++ acc := by
  induction fuel with
  | zero => intro n acc; rfl
  | succ fuel ih =>
    intro n acc
    simp only [decimalAux]
    split
    · rfl
    · rw [ih (n / 10) (digitChar (n % 10) :: acc), ih (n / 10) [digitChar (n % 10)]]
      simp

theorem decimalAux_fuel (f1 : Nat) : ∀ (f2 n : Nat) (acc : List Char), n < f1 → n < f2 →
    decimalAux f1 n acc = decimalAux f2 n acc := by
  induction f1 with
  | zero => intro f2 n acc h; omega
  | succ f1 ih =>
    intro f2 n acc h1 h2
    cases f2 with
    | zero => omega
    | succ f2 =>
      simp only [decimalAux]
      split
      · rfl
      · exact ih f2 (n / 10) _ (by omega) (by omega)

theorem decimal_small (n : Nat) (h : n < 10) : decimal n = [digitChar n] := by
  simp [decimal, decimalAux, h]

theorem decimal_large (n : Nat) (h : ¬ n < 10) :
    decimal n = decimal (n / 10) ++ [digitChar (n % 10)] := by
  have h1 : decimalAux (n + 1) n [] = decimalAux n (n / 10) [digitChar (n % 10)] := by
    simp only [decimalAux, h, if_false]
  unfold decimal
  rw [h1, decimalAux_append, decimalAux_fuel n (n / 10 + 1) (n / 10) [] (by omega) (by omega)]

theorem digitsValue_append (xs : List Char) : ∀ (acc : Nat) (ys : List Char),
    digitsValue acc (xs ++ ys) = (digitsValue acc xs).bind (fun v => digitsValue v ys) := by
  induction xs with
  | nil => intro acc ys; rfl
  | cons x xs ih =>
    intro acc ys
    simp only [List.cons_append, digitsValue]
    split
    · exact ih _ _
    · rfl

theorem digitsValue_decimal (n : Nat) : digitsValue 0 (decimal n) = some n := by
  induction n using Nat.strong_induction_on with
  | _ n ih =>
    by_cases h : n < 10
    · rw [decimal_small n h]
      simp [digitsValue, digitChar_spec n h]
    · rw [decimal_large n h, digitsValue_append, ih (n / 10) (by omega)]
      have := digitChar_spec (n % 10) (Nat.mod_lt _ (by decide))
      simp only [Option.bind, digitsValue, this.1, this.2, if_true]
      congr 1
      omega

theorem decimal_digits (n : Nat) : ∀ c ∈ decimal n, c.isDigit = true := by
  induction n using Nat.strong_induction_on with
  | _ n ih =>
    by_cases h : n < 10
    · rw [decimal_small n h]
      intro c hc
      simp only [List.mem_singleton] at hc
      rw [hc]; exact (digitChar_spec n h).1
    · rw [decimal_large n h]
      intro c hc
      rcases List.mem_append.1 hc with hc | hc
      · exact ih (n / 10) (by omega) c hc
      · simp only [List.mem_singleton] at hc
        rw [hc]; exact (digitChar_spec _ (Nat.mod_lt _ (by decide))).1

theorem decimal_length_pos (n : Nat) : 0 < (decimal n).length := by
  by_cases h : n < 10
  · rw [decimal_small n h]; simp
  · rw [decimal_large n h]; simp

theorem decimal_length_le (k : Nat) : ∀ n, n < 10 ^ (k + 1) → (decimal n).length ≤ k + 1 := by
  induction k with
  | zero => intro n h; rw [decimal_small n (by simpa using h)]; simp
  | succ k ih =>
    intro n h
    by_cases h10 : n < 10
    · rw [decimal_small n h10]; simp
    · rw [decimal_large n h10]
      have : n / 10 < 10 ^ (k + 1) := by
        rw [Nat.div_lt_iff_lt_mul (by decide)]
        calc n < 10 ^ (k + 1 + 1) := h
          _ = 10 ^ (k + 1) * 10 := by ring
      have := ih (n / 10) this
      simp only [List.length_append, List.length_singleton]
      omega

theorem padded_digits (w n : Nat) : ∀ c ∈ padded w n, c.isDigit = true := by
  intro c hc
  unfold padded at hc
  rcases List.mem_append.1 hc with hc | hc
  · rw [(List.mem_replicate.1 hc).2]; decide
  · exact decimal_digits n c hc

theorem padded_length_pos (w n : Nat) : 0 < (padded w n).length := by
  unfold padded
  have := decimal_length_pos n
  simp only [List.length_append]
  omega

theorem digitsValue_zeros (k : Nat) (rest : List Char) :
    digitsValue 0 (List.replicate k '0' ++ rest) = digitsValue 0 rest := by
  induction k with
  | zero => rfl
  | succ k ih =>
    simp only [List.replicate_succ, List.cons_append, digitsValue]
    rw [if_pos (by decide)]
    exact ih

theorem digitsValue_padded (w n : Nat) : digitsValue 0 (padded w n) = some n := by
  unfold padded
  rw [digitsValue_zeros, digitsValue_decimal]

theorem lexical_cast_padded (bound w n : Nat) (h : n ≤ bound) :
    lexical_cast bound (padded w n) = some n := by
  unfold lexical_cast
  have hpos := padded_length_pos w n
  have hne : (padded w n).isEmpty = false := by
    cases hp : padded w n with
    | nil => rw [hp] at hpos; simp at hpos
    | cons x xs => rfl
  simp [hne, digitsValue_padded, h]

theorem padded_six_length (n : Nat) (h : n < 1000000) : (padded 6 n).length = 6 := by
  have := decimal_length_le 5 n (by simpa using h)
  unfold padded
  simp only [List.length_append, List.length_replicate]
  omega

theorem fractionalTicks_padded (n : Nat) (h : n < 1000000) :
    fractionalTicks (padded 6 n) = some n := by
  unfold fractionalTicks
  have hl := padded_six_length n h
  rw [if_pos (by omega)]
  rw [List.take_of_length_le (by omega)]
  exact lexical_cast_padded _ 6 n (by omega)

theorem digit_not_separator (c : Char) (h : c.isDigit = true) :
    isDurationSeparator c = false := by
  cases hs : isDurationSeparator c with
  | false => rfl
  | true =>
    exfalso
    simp only [isDurationSeparator, Bool.or_eq_true, decide_eq_true_eq] at hs
    rcases hs with ((hs | hs) | hs) | hs <;> subst hs <;> revert h <;> decide

theorem durationTokens_run (w : List Char) : ∀ (cur rest : List Char),
    (∀ c ∈ w, isDurationSeparator c = false) →
    durationTokens cur (w ++ rest) = durationTokens (w.reverse ++ cur) rest := by
  induction w with
  | nil => intro cur rest _; rfl
  | cons x xs ih =>
    intro cur rest h
    have hx := h x (List.mem_cons_self _ _)
    have step : durationTokens cur (x :: (xs ++ rest)) = durationTokens (x :: cur) (xs ++ rest) := by
      simp only [durationTokens, hx, Bool.false_eq_true, if_false]
    rw [List.cons_append, step, ih (x :: cur) rest (fun c hc => h c (List.mem_cons_of_mem _ hc))]
    simp

/-- The tokens of a run of digits followed by a delimiter. -/
theorem durationTokens_digits_sep (w rest : List Char) (sep : Char)
    (hw : ∀ c ∈ w, c.isDigit = true) (hpos : 0 < w.length)
    (hsep : isDurationSeparator sep = true) :
    durationTokens [] (w ++ sep :: rest) = w :: durationTokens [] rest := by
  rw [durationTokens_run w [] _ (fun c hc => digit_not_separator c (hw c hc))]
  have hne : (w.reverse ++ []).isEmpty = false := by
    cases w with
    | nil => simp at hpos
    | cons x xs => simp
  simp only [durationTokens, hsep, if_true, hne, Bool.false_eq_true, if_false]
  simp

/-- The tokens of a run of digits at the end of the text. -/
theorem durationTokens_digits_end (w : List Char)
    (hw : ∀ c ∈ w, c.isDigit = true) (hpos : 0 < w.length) :
    durationTokens [] w = [w] := by
  have := durationTokens_run w [] [] (fun c hc => digit_not_separator c (hw c hc))
  rw [List.append_nil] at this
  rw [this]
  have hne : (w.reverse ++ []).isEmpty = false := by
    cases w with
    | nil => simp at hpos
    | cons x xs => simp
  simp only [durationTokens, hne, Bool.false_eq_true, if_false]
  simp

theorem hoursField_small (n : Nat) (h : n < 2 ^ 31) : hoursField n = n := by
  unfold hoursField
  have : n % 2 ^ 32 = n := Nat.mod_eq_of_lt (by omega)
  rw [this, if_pos h]

/-- The fields that `duration_from_string` reads from the text that
`to_simple_string` writes. -/
theorem durationFields_simpleString (t : Nat) (h : t / 3600000000 < 2 ^ 31) :
    durationFields (durationTokens [] (simpleStringOfTicks t)) =
      some (t / 3600000000, t / 60000000 % 60, t / 1000000 % 60, t % 1000000) := by
  unfold simpleStringOfTicks
  rw [hoursField_small _ h]
  rw [durationTokens_digits_sep _ _ ':' (padded_digits _ _) (padded_length_pos _ _) (by decide)]
  rw [durationTokens_digits_sep _ _ ':' (padded_digits _ _) (padded_length_pos _ _) (by decide)]
  have hm : t / 60000000 % 60 ≤ 2 ^ 16 - 1 := by
    have := Nat.mod_lt (t / 60000000) (show 0 < 60 by decide)
    omega
  have hs : t / 1000000 % 60 ≤ 2 ^ 16 - 1 := by
    have := Nat.mod_lt (t / 1000000) (show 0 < 60 by decide)
    omega
  by_cases hf : t % 1000000 = 0
  · rw [if_pos hf, List.append_nil,
      durationTokens_digits_end _ (padded_digits _ _) (padded_length_pos _ _)]
    simp only [durationFields, lexical_cast_padded _ 2 _ (Nat.le_sub_one_of_lt h),
      lexical_cast_padded _ 2 _ hm, lexical_cast_padded _ 2 _ hs, Option.bind, Option.map, hf]
  · rw [if_neg hf,
      durationTokens_digits_sep _ _ '.' (padded_digits _ _) (padded_length_pos _ _) (by decide),
      durationTokens_digits_end _ (padded_digits _ _) (padded_length_pos _ _)]
    simp only [durationFields, lexical_cast_padded _ 2 _ (Nat.le_sub_one_of_lt h),
      lexical_cast_padded _ 2 _ hm, lexical_cast_padded _ 2 _ hs, Option.bind, Option.map,
      fractionalTicks_padded _ (Nat.mod_lt _ (by decide))]

theorem ofParts_fields (t : Nat) :
    time_duration.ofParts (t / 3600000000) (t / 60000000 % 60) (t / 1000000 % 60)
      (t % 1000000) = ⟨(t : Int)⟩ := by
  unfold time_duration.ofParts
  congr 1
  have : (t / 3600000000 * 3600 + t / 60000000 % 60 * 60 + t / 1000000 % 60) * 1000000 +
      t % 1000000 = t := by omega
  rw [this]

theorem simpleString_head (t : Nat) :
    ∃ c cs, simpleStringOfTicks t = c :: cs ∧ c ≠ '-' := by
  unfold simpleStringOfTicks
  have hd := padded_digits 2 (hoursField (t / 3600000000))
  have hp := padded_length_pos 2 (hoursField (t / 3600000000))
  cases hpd : padded 2 (hoursField (t / 3600000000)) with
  | nil => rw [hpd] at hp; simp at hp
  | cons c cs =>
    refine ⟨c, _, rfl, ?_⟩
    rw [hpd] at hd
    have := hd c (List.mem_cons_self _ _)
    intro hc
    subst hc
    revert this
    decide

/-- Reading back what `to_simple_string` writes gives the duration, for a
duration of less than 2^31 hours. -/
theorem duration_round_trip (d : time_duration) (h : d.ticks.natAbs / 3600000000 < 2 ^ 31) :
    duration_from_string (to_simple_string d) = some d := by
  obtain ⟨ticks⟩ := d
  simp only at h
  unfold to_simple_string duration_from_string
  simp only
  by_cases hneg : ticks < 0
  · rw [if_pos hneg]
    simp only [durationTokens, show isDurationSeparator '-' = true by decide, if_true,
      List.isEmpty_nil, durationFields_simpleString _ h, Option.map, ofParts_fields]
    congr 2
    omega
  · rw [if_neg hneg]
    obtain ⟨c, cs, hcs, hc⟩ := simpleString_head ticks.natAbs
    have hf := durationFields_simpleString _ h
    rw [hcs] at hf
    simp only [hcs, hf, Option.map, hc, if_false, ofParts_fields]
    congr 2
    omega

/-! ## Lemmas on the summary and its reading -/

theorem takeWhile_append_stop (p : Char → Bool) (l : List Char) (y : Char) (r : List Char)
    (hl : ∀ x ∈ l, p x = true) (hy : p y = false) :
    (l ++ y :: r).takeWhile p = l := by
  induction l with
  | nil => simp [List.takeWhile, hy]
  | cons x xs ih =>
    have := ih (fun k hk => hl k (List.mem_cons_of_mem _ hk))
    simp [List.takeWhile, hl x (List.mem_cons_self _ _), this]

theorem dropWhile_append_stop (p : Char → Bool) (l : List Char) (y : Char) (r : List Char)
    (hl : ∀ x ∈ l, p x = true) (hy : p y = false) :
    (l ++ y :: r).dropWhile p = y :: r := by
  induction l with
  | nil => simp [List.dropWhile, hy]
  | cons x xs ih =>
    have := ih (fun k hk => hl k (List.mem_cons_of_mem _ hk))
    simp [List.dropWhile, hl x (List.mem_cons_self _ _), this]

theorem plain_not_quote (value : List Char) (h : value.all isPlainChar = true) :
    ∀ x ∈ value, (fun c : Char => decide (c ≠ '"')) x = true := by
  intro x hx
  have := List.all_eq_true.1 h x hx
  simp only [isPlainChar, Bool.and_eq_true, decide_eq_true_eq] at this
  simpa using this.1.1.1

/-- One attribute `name="value"` behind a blank is read as the pair of the name
and the value. -/
theorem parseAttributeList_step (fuel : Nat) (name value : String) (c : Char)
    (cs rest : List Char) (hdata : name.data = c :: cs)
    (hblank : c ≠ ' ') (hslash : c ≠ '/') (hname : isName name.data = true)
    (hchars : name.data.all isNameChar = true)
    (hvalue : value.data.all isPlainChar = true) :
    parseAttributeList (fuel + 1)
        (' ' :: (name.data ++ '=' :: '"' :: (value.data ++ '"' :: rest))) =
      (parseAttributeList fuel rest).map (fun attributes => (name, value) :: attributes) := by
  have hdrop : (name.data ++ '=' :: '"' :: (value.data ++ '"' :: rest)).dropWhile
      (fun c => decide (c = ' ')) = name.data ++ '=' :: '"' :: (value.data ++ '"' :: rest) := by
    rw [hdata]
    simp [List.dropWhile, hblank]
  have hne : name.data ++ '=' :: '"' :: (value.data ++ '"' :: rest) ≠ ['/', '>'] := by
    rw [hdata]
    intro h
    simp only [List.cons_append, List.cons.injEq] at h
    exact hslash h.1
  have hn1 := takeWhile_append_stop isNameChar name.data '=' ('"' :: (value.data ++ '"' :: rest))
    (fun x hx => List.all_eq_true.1 hchars x hx) (by decide)
  have hn2 := dropWhile_append_stop isNameChar name.data '=' ('"' :: (value.data ++ '"' :: rest))
    (fun x hx => List.all_eq_true.1 hchars x hx) (by decide)
  have hv1 := takeWhile_append_stop (fun c => decide (c ≠ '"')) value.data '"' rest
    (plain_not_quote _ hvalue) (by decide)
  have hv2 := dropWhile_append_stop (fun c => decide (c ≠ '"')) value.data '"' rest
    (plain_not_quote _ hvalue) (by decide)
  rw [parseAttributeList]
  rw [if_neg (by intro h; cases h)]
  simp only [expect, if_true, hdrop, if_neg hne, hn1, hn2, hv1, hv2, hname, hvalue, and_self]

theorem parseAttributeList_end (fuel : Nat) :
    parseAttributeList (fuel + 1) ['/', '>'] = some [] := by
  rw [parseAttributeList]
  simp

theorem digit_plain (c : Char) (h : c.isDigit = true) : isPlainChar c = true := by
  have h1 : 48 ≤ c.toNat := by
    simp only [Char.isDigit, Bool.and_eq_true, decide_eq_true_eq] at h
    exact h.1
  have hq : c ≠ '"' := by intro hc; subst hc; revert h; decide
  have hl : c ≠ '<' := by intro hc; subst hc; revert h; decide
  have ha : c ≠ '&' := by intro hc; subst hc; revert h; decide
  simp only [isPlainChar, Bool.and_eq_true, decide_eq_true_eq]
  exact ⟨⟨⟨by simpa using hq, by simpa using hl⟩, by simpa using ha⟩, by omega⟩

theorem simpleString_plain (t : Nat) : (simpleStringOfTicks t).all isPlainChar = true := by
  unfold simpleStringOfTicks
  have hp : ∀ w n, (padded w n).all isPlainChar = true := fun w n =>
    List.all_eq_true.2 (fun c hc => digit_plain c (padded_digits w n c hc))
  by_cases hf : t % 1000000 = 0
  · simp [hf, List.all_append, hp, isPlainChar]
  · simp [hf, List.all_append, hp, isPlainChar]

theorem to_simple_string_plain (d : time_duration) :
    (to_simple_string d).data.all isPlainChar = true := by
  unfold to_simple_string
  split
  · simp [simpleString_plain, isPlainChar]
  · exact simpleString_plain _

theorem summary_data (i dur t : String) :
    ("<" ++ (configElementNameStr ++ " ")
      ++ (idAttrName ++ "=\"" ++ i ++ "\" ")
      ++ (playlengthAttrName ++ "=\"" ++ dur ++ "\" ")
      ++ (titleAttrName ++ "=\"" ++ t ++ "\"/>")).data =
    '<' :: ("audioClip".data ++ ' ' :: ("id".data ++ '=' :: '"' :: (i.data ++ '"' ::
      ' ' :: ("playlength".data ++ '=' :: '"' :: (dur.data ++ '"' ::
      ' ' :: ("title".data ++ '=' :: '"' :: (t.data ++ '"' :: ['/', '>']))))))) := by
  simp [String.data_append, configElementNameStr, idAttrName, playlengthAttrName,
    titleAttrName]

/-- The parser reads the summary of plain texts back as the element with the
three attributes. -/
theorem parse_summary (i dur t : String) (hi : i.data.all isPlainChar = true)
    (hdur : dur.data.all isPlainChar = true) (ht : t.data.all isPlainChar = true) :
    parseXmlElement ("<" ++ (configElementNameStr ++ " ")
      ++ (idAttrName ++ "=\"" ++ i ++ "\" ")
      ++ (playlengthAttrName ++ "=\"" ++ dur ++ "\" ")
      ++ (titleAttrName ++ "=\"" ++ t ++ "\"/>")) = some (summaryElement i dur t) := by
  unfold parseXmlElement
  obtain ⟨k, hk⟩ : ∃ k, ("<" ++ (configElementNameStr ++ " ")
      ++ (idAttrName ++ "=\"" ++ i ++ "\" ")
      ++ (playlengthAttrName ++ "=\"" ++ dur ++ "\" ")
      ++ (titleAttrName ++ "=\"" ++ t ++ "\"/>")).data.length = k + 4 := by
    rw [summary_data]
    exact ⟨i.data.length + dur.data.length + t.data.length + 37, by
      simp only [List.length_cons, List.length_append, List.length_nil]
      have h1 : "audioClip".data.length = 9 := rfl
      have h2 : "id".data.length = 2 := rfl
      have h3 : "playlength".data.length = 10 := rfl
      have h4 : "title".data.length = 5 := rfl
      omega⟩
  rw [hk, summary_data]
  have hn1 := takeWhile_append_stop isNameChar "audioClip".data ' '
    ("id".data ++ '=' :: '"' :: (i.data ++ '"' ::
      ' ' :: ("playlength".data ++ '=' :: '"' :: (dur.data ++ '"' ::
      ' ' :: ("title".data ++ '=' :: '"' :: (t.data ++ '"' :: ['/', '>']))))))
    (by decide) (by decide)
  have hn2 := dropWhile_append_stop isNameChar "audioClip".data ' '
    ("id".data ++ '=' :: '"' :: (i.data ++ '"' ::
      ' ' :: ("playlength".data ++ '=' :: '"' :: (dur.data ++ '"' ::
      ' ' :: ("title".data ++ '=' :: '"' :: (t.data ++ '"' :: ['/', '>']))))))
    (by decide) (by decide)
  simp only [expect, if_true, hn1, hn2]
  rw [parseAttributeList_step (k + 3) "id" i 'i' ['d'] _ rfl (by decide) (by decide)
      (by decide) (by decide) hi,
    parseAttributeList_step (k + 2) "playlength" dur 'p' "laylength".data _ rfl (by decide)
      (by decide) (by decide) (by decide) hdur,
    parseAttributeList_step (k + 1) "title" t 't' "itle".data _ rfl (by decide) (by decide)
      (by decide) (by decide) ht,
    parseAttributeList_end]
  simp only [Option.map]
  rw [if_pos (by decide), if_pos (by simp)]
  rfl

theorem configure_summaryElement (i dur t : String) (d : time_duration)
    (hd : duration_from_string dur = some d) :
    ∃ c', AudioClip.fresh.configure (summaryElement i dur t) = ConfigureResult.returned c' ∧
      c'.id = some i ∧ c'.title = some t ∧ c'.playlength = some d := by
  have ha1 : get_attribute (summaryElement i dur t) idAttrName = some i := by
    simp [get_attribute, summaryElement, audioClipElement, idAttrName]
  have ha2 : get_attribute (summaryElement i dur t) playlengthAttrName = some dur := by
    simp [get_attribute, summaryElement, audioClipElement, playlengthAttrName, List.find?]
  have ha3 : get_attribute (summaryElement i dur t) titleAttrName = some t := by
    simp [get_attribute, summaryElement, audioClipElement, titleAttrName, List.find?]
  obtain ⟨c4, h4, -, -, i4, t4, p4⟩ := configure_reaches_metadata AudioClip.fresh
    (summaryElement i dur t) rfl (Or.inr (by rw [ha1]; simp)) (fun _ _ => rfl)
    (fun _ _ => rfl) (fun x _ hx => by rw [ha2] at hx; cases hx; rw [hd]; simp)
  have i4' : c4.id = some i := by rw [i4]; exact ha1
  have t4' : c4.title = some t := by rw [t4]; exact ha3
  have p4' : c4.playlength = some d := by
    rw [p4]
    show (get_attribute (summaryElement i dur t) playlengthAttrName).bind
      duration_from_string = some d
    rw [ha2]; exact hd
  refine ⟨c4, ?_, i4', t4', p4'⟩
  rw [h4]
  have hch : get_children (summaryElement i dur t).children metadataElementName = [] := rfl
  unfold configureMetadata
  simp only [hch, checkRequired, p4', t4', reduceCtorEq, if_false]

theorem split_at_first (c : Char) (l : List Char) (h : c ∈ l) :
    ∃ p r, l = p ++ c :: r ∧ c ∉ p := by
  induction l with
  | nil => cases h
  | cons x xs ih =>
    by_cases hx : x = c
    · exact ⟨[], xs, by rw [hx]; rfl, by simp⟩
    · have hm : c ∈ xs := by
        rcases List.mem_cons.1 h with h' | h'
        · exact absurd h'.symm hx
        · exact h'
      obtain ⟨p, r, hl, hp⟩ := ih hm
      refine ⟨x :: p, r, by rw [hl]; rfl, ?_⟩
      intro hmem
      rcases List.mem_cons.1 hmem with h' | h'
      · exact hx h'.symm
      · exact hp h'

/-! ## Lemmas on the entries that `configure` reads -/

theorem scanDataNode_first (c : AudioClip) (n : Node)
    (hwf : c.playlength = none → ∀ x, firstEntry extentElementPrefix extentElementName [n] = some x →
      entryDuration x ≠ none) :
    ∃ c', scanDataNode c n = Except.ok c' ∧ c'.id = c.id ∧ c'.uri = c.uri ∧
      c'.token = c.token ∧ c'.xmlAudioClip = c.xmlAudioClip ∧
      c'.playlength = (if c.playlength = none then
          (firstEntry extentElementPrefix extentElementName [n]).bind entryDuration
        else c.playlength) ∧
      c'.title = (if c.title = none then
          (firstEntry titleElementPrefix titleElementName [n]).map entryTitle
        else c.title) := by
  cases n with
  | text t =>
    refine ⟨c, rfl, rfl, rfl, rfl, rfl, ?_, ?_⟩
    · by_cases h : c.playlength = none <;> simp [firstEntry, h]
    · by_cases h : c.title = none <;> simp [firstEntry, h]
  | other o =>
    refine ⟨c, rfl, rfl, rfl, rfl, rfl, ?_, ?_⟩
    · by_cases h : c.playlength = none <;> simp [firstEntry, h]
    · by_cases h : c.title = none <;> simp [firstEntry, h]
  | element d =>
    obtain ⟨id, title, pl, uri, token, x⟩ := c
    by_cases hx : d.nsPrefix = extentElementPrefix ∧ d.name = extentElementName
    · have hnt : ¬ (d.nsPrefix = titleElementPrefix ∧ d.name = titleElementName) := by
        rintro ⟨h1, -⟩; rw [hx.1] at h1; exact absurd h1 (by decide)
      cases pl with
      | some p =>
        cases title <;>
        simp [scanDataNode, Node.asElement, Node.get_namespace_prefix, Node.get_name, hx, hnt,
          firstEntry, extentElementPrefix, titleElementPrefix, extentElementName,
          titleElementName]
      | none =>
        have hd := hwf rfl d (by simp [firstEntry, hx])
        cases hc : get_child_text d with
        | none =>
          cases title <;>
          simp [scanDataNode, Node.asElement, Node.get_namespace_prefix, Node.get_name, hx, hnt,
            hc, firstEntry, entryDuration, extentElementPrefix, titleElementPrefix,
            extentElementName, titleElementName]
        | some content =>
          simp only [entryDuration, hc] at hd
          obtain ⟨dd, hdd⟩ := Option.ne_none_iff_exists'.1 hd
          cases title <;>
          simp [scanDataNode, Node.asElement, Node.get_namespace_prefix, Node.get_name, hx, hnt,
            hc, hdd, firstEntry, entryDuration, extentElementPrefix, titleElementPrefix,
            extentElementName, titleElementName]
    · by_cases ht : d.nsPrefix = titleElementPrefix ∧ d.name = titleElementName
      · cases hc : get_child_text d <;> cases title <;> cases pl <;>
        simp [scanDataNode, Node.asElement, Node.get_namespace_prefix, Node.get_name, hx, ht, hc,
          firstEntry, entryTitle, extentElementPrefix, titleElementPrefix, extentElementName,
          titleElementName]
      · cases title <;> cases pl <;>
        simp [scanDataNode, Node.asElement, Node.get_namespace_prefix, Node.get_name, hx, ht,
          firstEntry]


theorem scanDataFields_first (nodes : List Node) :
    ∀ (c : AudioClip),
    (c.playlength = none → ∀ x, firstEntry extentElementPrefix extentElementName nodes = some x →
      entryDuration x ≠ none) →
    ∃ c', scanDataFields c nodes = Except.ok c' ∧ c'.id = c.id ∧ c'.uri = c.uri ∧
      c'.token = c.token ∧ c'.xmlAudioClip = c.xmlAudioClip ∧
      c'.playlength = (if c.playlength = none then
          (firstEntry extentElementPrefix extentElementName nodes).bind entryDuration
        else c.playlength) ∧
      c'.title = (if c.title = none then
          (firstEntry titleElementPrefix titleElementName nodes).map entryTitle
        else c.title) := by
  induction nodes with
  | nil =>
    intro c _
    refine ⟨c, rfl, rfl, rfl, rfl, rfl, ?_, ?_⟩
    · by_cases h : c.playlength = none <;> simp [firstEntry, h]
    · by_cases h : c.title = none <;> simp [firstEntry, h]
  | cons n rest ih =>
    intro c hwf
    have hsplit : ∀ pre name, firstEntry pre name (n :: rest) =
        (match firstEntry pre name [n] with
          | some x => some x
          | none => firstEntry pre name rest) := by
      intro pre name
      cases n with
      | element d => by_cases h : d.nsPrefix = pre ∧ d.name = name <;> simp [firstEntry, h]
      | text t => simp [firstEntry]
      | other o => simp [firstEntry]
    obtain ⟨c1, h1, i1, u1, k1, x1, p1, t1⟩ := scanDataNode_first c n (by
      intro hp x hx
      exact hwf hp x (by rw [hsplit, hx]))
    obtain ⟨c2, h2, i2, u2, k2, x2, p2, t2⟩ := ih c1 (by
      intro hp x hx
      rw [p1] at hp
      by_cases hc : c.playlength = none
      · rw [if_pos hc] at hp
        cases hf : firstEntry extentElementPrefix extentElementName [n] with
        | some y =>
          rw [hf] at hp
          exact absurd hp (hwf hc y (by rw [hsplit, hf]))
        | none => exact hwf hc x (by rw [hsplit, hf]; exact hx)
      · rw [if_neg hc] at hp; exact absurd hp hc)
    refine ⟨c2, by simp only [scanDataFields, h1, h2], i2.trans i1, u2.trans u1, k2.trans k1,
      x2.trans x1, ?_, ?_⟩
    · rw [p2, p1, hsplit]
      by_cases hc : c.playlength = none
      · simp only [hc, if_true]
        cases hf : firstEntry extentElementPrefix extentElementName [n] with
        | some y =>
          have := hwf hc y (by rw [hsplit, hf])
          simp [this]
        | none => simp
      · simp [hc]
    · rw [t2, t1, hsplit]
      by_cases hc : c.title = none
      · simp only [hc, if_true]
        cases hf : firstEntry titleElementPrefix titleElementName [n] with
        | some y => simp
        | none => simp
      · simp [hc]

theorem configure_extent_text_without_metadata (c c' : AudioClip) (e : Element) (t : String)
    (hplay : c.playlength = none) (hstore : c.xmlAudioClip = none)
    (hp : get_attribute e playlengthAttrName = some t)
    (hmeta : get_children e.children metadataElementName = [])
    (h : c.configure e = ConfigureResult.returned c') :
    c'.getMetadataAt extentElementName extentElementPrefix = Except.ok (some t) ∧
    c'.getMetadata "dcterms:extent" = Except.ok (some t) := by
  have key : c'.getMetadataAt extentElementName extentElementPrefix = Except.ok (some t) := by
    unfold AudioClip.configure at h
    split at h
    · cases h
    · cases h1 : configureId c e with
      | none => rw [h1] at h; cases h
      | some c1 =>
        rw [h1] at h
        simp only at h
        have hc1 : c1.playlength = none ∧ c1.xmlAudioClip = none := by
          unfold configureId at h1
          split at h1
          · split at h1
            · cases h1
            · cases h1; exact ⟨hplay, hstore⟩
          · cases h1; exact ⟨hplay, hstore⟩
        cases hd : duration_from_string t with
        | none =>
          simp [configurePlaylength, hc1.1, hp, hd] at h
        | some d =>
          have h2 : configurePlaylength c1 e =
              Except.ok { c1 with playlength := some d, xmlAudioClip := some (extentStore t) } := by
            unfold configurePlaylength
            simp only [hc1.1, if_true, hp, hd]
            exact setMetadata_extent_noStore _ t d hc1.2 hd
          rw [h2] at h
          simp only at h
          have h3 : ∃ c3, configureTitle
              { c1 with playlength := some d, xmlAudioClip := some (extentStore t) } e =
                Except.ok c3 ∧
              (c3.xmlAudioClip = some (extentStore t) ∨
                ∃ a, c3.xmlAudioClip = some (mirroredStore t a)) := by
            unfold configureTitle
            split
            · cases ha : get_attribute e titleAttrName with
              | none => exact ⟨_, rfl, Or.inl rfl⟩
              | some a =>
                simp only
                rw [setMetadata_title_afterExtent _ t a rfl]
                exact ⟨_, rfl, Or.inr ⟨a, rfl⟩⟩
            · exact ⟨_, rfl, Or.inl rfl⟩
          obtain ⟨c3, h3, hx3⟩ := h3
          rw [h3] at h
          simp only [configureMetadata, hmeta] at h
          have hc : (checkRequired (configureUri c3 e)).clip? = some c' := by rw [h]; rfl
          rw [checkRequired_clip] at hc
          cases hc
          obtain ⟨-, -, -, -, u5⟩ := configureUri_fields c3 e
          rcases hx3 with hx3 | ⟨a, hx3⟩
          · simp only [AudioClip.getMetadataAt, u5, hx3]; rfl
          · simp only [AudioClip.getMetadataAt, u5, hx3]; rfl
  exact ⟨key, key⟩

/-! ## Lemmas on the tag import -/

theorem setAllKeys_append (a b : List (String × String)) :
    ∀ c : AudioClip, setAllKeys c (a ++ b) =
      (setAllKeys c a).bind (fun c1 => setAllKeys c1 b) := by
  induction a with
  | nil => intro c; rfl
  | cons call rest ih =>
    intro c
    simp only [List.cons_append, setAllKeys]
    cases h : c.setMetadataKey call.1 call.2 with
    | error e => rfl
    | ok c1 => exact ih c1

theorem setTagField_eq (tc : TagConversion) (c : AudioClip) (f v : String) :
    setTagField tc c f v = setAllKeys c
      ([(f, v)].filterMap
        (fun f => if tc.existsId3Tag f.1 then some (f.2, tc.id3ToDublinCore f.1) else none)) := by
  unfold setTagField
  by_cases h : tc.existsId3Tag f = true
  · simp only [h, if_true, List.filterMap_cons, List.filterMap_nil, setAllKeys]
    cases c.setMetadataKey v (tc.id3ToDublinCore f) <;> rfl
  · simp only [h, if_false, List.filterMap_cons, List.filterMap_nil, setAllKeys,
      Bool.false_eq_true]

theorem readGenericTag_eq (tc : TagConversion) (c : AudioClip) (tag : Tag) :
    readGenericTag tc c tag = setAllKeys c (genericCalls tc tag) := by
  have step : ∀ (c : AudioClip) (f v : String) (rest : List (String × String))
      (k : AudioClip → Except Abort AudioClip),
      (∀ c1, k c1 = setAllKeys c1 (rest.filterMap
        (fun f => if tc.existsId3Tag f.1 then some (f.2, tc.id3ToDublinCore f.1) else none))) →
      (match setTagField tc c f v with
        | Except.error a => Except.error a
        | Except.ok c1 => k c1) =
      setAllKeys c (((f, v) :: rest).filterMap
        (fun f => if tc.existsId3Tag f.1 then some (f.2, tc.id3ToDublinCore f.1) else none)) := by
    intro c f v rest k hk
    have : ((f, v) :: rest) = [(f, v)] ++ rest := rfl
    rw [this, List.filterMap_append, setAllKeys_append, ← setTagField_eq]
    cases setTagField tc c f v with
    | error a => rfl
    | ok c1 => exact hk c1
  unfold readGenericTag genericCalls genericFields
  refine step c _ _ _ _ (fun c1 => ?_)
  refine step c1 _ _ _ _ (fun c2 => ?_)
  refine step c2 _ _ _ _ (fun c3 => ?_)
  refine step c3 _ _ _ _ (fun c4 => ?_)
  refine step c4 _ _ _ _ (fun c5 => ?_)
  refine step c5 _ _ _ _ (fun c6 => ?_)
  exact setTagField_eq tc c6 _ _

theorem readFrames_eq (tc : TagConversion) (frames : List (String × List String)) :
    ∀ c : AudioClip, readFrames tc c frames = setAllKeys c (frameCalls tc frames) := by
  induction frames with
  | nil => intro c; rfl
  | cons g rest ih =>
    intro c
    obtain ⟨key, frameList⟩ := g
    unfold frameCalls at ih ⊢
    by_cases h : tc.existsId3Tag (substr key 0 4) = true
    · cases frameList with
      | nil =>
        simp only [readFrames, h, if_true, List.filterMap_cons, frameCode, List.head?_nil,
          Option.map_none']
        exact ih c
      | cons front tl =>
        simp only [readFrames, h, if_true, List.filterMap_cons, frameCode, List.head?_cons,
          Option.map_some', setAllKeys]
        cases c.setMetadataKey front (tc.id3ToDublinCore (substr key 0 4)) with
        | error a => rfl
        | ok c1 => exact ih c1
    · simp only [readFrames, h, if_false, List.filterMap_cons, frameCode, Bool.false_eq_true]
      exact ih c

theorem readTag_eq (tc : TagConversion) (files : String → SoundFile) (c : AudioClip)
    (uri : String) (tag : Tag) (frames : List (String × List String))
    (hconf : tc.isConfigured = true) (huri : c.uri = some uri)
    (hread : (files uri).isReadable = true) (htag : (files uri).tag = some tag)
    (hframes : (files uri).frameListMap = some frames) :
    c.readTag tc files = outcomeOf (setAllKeys c (genericCalls tc tag ++ frameCalls tc frames)) := by
  unfold AudioClip.readTag
  simp only [hconf, huri, hread, htag, hframes, Bool.true_eq_false, if_false]
  rw [setAllKeys_append, readGenericTag_eq]
  cases setAllKeys c (genericCalls tc tag) with
  | error a => rfl
  | ok c1 =>
    simp only [Except.bind, readFrames_eq]
    cases setAllKeys c1 (frameCalls tc frames) <;> rfl

theorem setAllKeys_eq_setAll (calls : List (String × String)) :
    ∀ c : AudioClip, setAllKeys c calls = setAll c (calls.map splitCall) := by
  induction calls with
  | nil => intro c; rfl
  | cons call rest ih =>
    intro c
    simp only [setAllKeys, List.map_cons, setAll, splitCall, AudioClip.setMetadataKey]
    cases c.setMetadata call.1 (separateNameAndNameSpace call.2).1
        (separateNameAndNameSpace call.2).2 with
    | error a => rfl
    | ok c1 => exact ih c1

theorem getMetadataAt_target (c : AudioClip) (m : Element) (name pre : String)
    (hm : targetMetadata (documentRoot c.xmlAudioClip) = some m) :
    c.getMetadataAt name pre = findMetadataValue pre (get_children m.children name) := by
  unfold AudioClip.getMetadataAt
  unfold targetMetadata documentRoot at hm
  cases hx : c.xmlAudioClip with
  | none =>
    rw [hx] at hm
    simp only [newRootElement, get_children, List.filter_nil, Option.some.injEq] at hm
    subst hm
    rfl
  | some doc =>
    rw [hx] at hm
    simp only at hm ⊢
    cases hr : doc.root with
    | none =>
      rw [hr] at hm
      simp only [newRootElement, get_children, List.filter_nil, Option.some.injEq] at hm
      subst hm
      rfl
    | some r =>
      rw [hr] at hm
      simp only at hm ⊢
      cases hl : get_children r.children "metadata" with
      | nil =>
        rw [hl] at hm
        simp only [Option.some.injEq] at hm
        subst hm
        rfl
      | cons front rest =>
        rw [hl] at hm
        simp only at hm ⊢
        cases front with
        | element e =>
          simp only [Node.asElement, Option.some.injEq] at hm
          subst hm
          rfl
        | text t => simp [Node.asElement] at hm
        | other o => simp [Node.asElement] at hm

theorem setDataElement_nsDecls (r m m' : Element) (v name pre : String)
    (h : setDataElement r m v name pre = Except.ok m') : m'.nsDecls = m.nsDecls := by
  unfold setDataElement at h
  simp only at h
  split at h
  · split at h
    · cases h
    · cases h; rfl
  · cases h; rfl

theorem mem_modifyFirst (p : Node → Bool) (f : Node → Node) (l : List Node) (n : Node)
    (h : n ∈ modifyFirst p f l) : n ∈ l ∨ ∃ k ∈ l, n = f k := by
  induction l with
  | nil => simp [modifyFirst] at h
  | cons x rest ih =>
    by_cases hx : p x = true
    · simp only [modifyFirst, hx, if_true, List.mem_cons] at h
      rcases h with h | h
      · exact Or.inr ⟨x, List.mem_cons_self _ _, h⟩
      · exact Or.inl (List.mem_cons_of_mem _ h)
    · have hx' : p x = false := by simpa using hx
      simp only [modifyFirst, hx', Bool.false_eq_true, if_false, List.mem_cons] at h
      rcases h with h | h
      · exact Or.inl (h ▸ List.mem_cons_self _ _)
      · rcases ih h with h' | ⟨k, hk, hn⟩
        · exact Or.inl (List.mem_cons_of_mem _ h')
        · exact Or.inr ⟨k, List.mem_cons_of_mem _ hk, hn⟩

theorem setDataElement_selected (r m m' : Element) (v name pre : String)
    (hscope : pre = "" ∨ namespaceInScope [m, r] pre = true)
    (h : setDataElement r m v name pre = Except.ok m')
    (hsel : ∀ n ∈ get_children m.children name, ∃ e, n = Node.element e ∧ e.nsPrefix = pre) :
    ∀ n ∈ get_children m'.children name, ∃ e, n = Node.element e ∧ e.nsPrefix = pre := by
  unfold setDataElement at h
  simp only at h
  split at h
  · split at h
    · cases h
    · cases h
      intro n hn
      obtain ⟨hmem, hmatch⟩ := List.mem_filter.1 hn
      rcases mem_modifyFirst _ _ _ _ hmem with h1 | ⟨k, hk, hnk⟩
      · exact hsel n (List.mem_filter.2 ⟨h1, hmatch⟩)
      · subst hnk
        cases k with
        | element e0 =>
          have hk0 : nameMatches name (Node.element e0) = true := by
            simpa [nameMatches, Node.get_name, setNodeText, set_child_text_name] using hmatch
          obtain ⟨e, he, hp⟩ := hsel _ (List.mem_filter.2 ⟨hk, hk0⟩)
          cases he
          exact ⟨set_child_text e0 v, rfl, by rw [set_child_text_nsPrefix]; exact hp⟩
        | text t => exact hsel _ (List.mem_filter.2 ⟨hk, hmatch⟩)
        | other o => exact hsel _ (List.mem_filter.2 ⟨hk, hmatch⟩)
  · cases h
    intro n hn
    have hpre : (if namespaceInScope [m, r] pre = true then pre else "") = pre := by
      rcases hscope with h | h
      · subst h; simp
      · simp [h]
    obtain ⟨hmem, hmatch⟩ := List.mem_filter.1 hn
    rcases List.mem_append.1 hmem with h1 | h1
    · exact hsel n (List.mem_filter.2 ⟨h1, hmatch⟩)
    · simp only [List.mem_singleton] at h1
      subst h1
      exact ⟨_, rfl, by simp [newDataElement, set_child_text_nsPrefix, hpre]⟩

theorem setInRoot_nsDecls (r r' : Element) (v name pre : String)
    (h : setInRoot r v name pre = Except.ok r') : r'.nsDecls = r.nsDecls := by
  unfold setInRoot at h
  split at h
  · split at h
    · cases h
    · cases h; rfl
  · split at h
    · cases h
    · split at h
      · cases h
      · cases h; rfl

theorem namespaceInScope_congr (m m' r r' : Element) (pre : String)
    (hm : m'.nsDecls = m.nsDecls) (hr : r'.nsDecls = r.nsDecls) :
    namespaceInScope [m', r'] pre = namespaceInScope [m, r] pre := by
  simp [namespaceInScope, declaresPrefix, hm, hr]

theorem lastValue_mem (name pre v : String) (calls : List (String × String × String))
    (h : lastValue name pre calls = some v) :
    ∃ call ∈ calls, call.2.1 = name ∧ call.2.2 = pre := by
  induction calls generalizing v with
  | nil => simp [lastValue] at h
  | cons call rest ih =>
    simp only [lastValue] at h
    cases hl : lastValue name pre rest with
    | some w =>
      obtain ⟨k, hk, hp⟩ := ih w hl
      exact ⟨k, List.mem_cons_of_mem _ hk, hp⟩
    | none =>
      rw [hl] at h
      simp only at h
      by_cases hc : call.2.1 = name ∧ call.2.2 = pre
      · exact ⟨call, List.mem_cons_self _ _, hc⟩
      · rw [if_neg hc] at h; cases h

theorem lastValue_append (name pre v : String) (a b : List (String × String × String))
    (h : lastValue name pre b = some v) : lastValue name pre (a ++ b) = some v := by
  induction a with
  | nil => exact h
  | cons call rest ih =>
    have step : lastValue name pre (call :: rest ++ b) =
        (match lastValue name pre (rest ++ b) with
          | some v => some v
          | none => if call.2.1 = name ∧ call.2.2 = pre then some call.1 else none) := rfl
    rw [step, ih]

theorem setInDocument_nsDecls (x : Option Document) (r' : Element) (v name pre : String)
    (h : setInDocument x v name pre = Except.ok { root := some r' }) :
    r'.nsDecls = (documentRoot x).nsDecls := by
  unfold setInDocument at h
  cases hr : setInRoot (documentRoot x) v name pre with
  | error a => rw [hr] at h; cases h
  | ok r =>
    rw [hr] at h
    simp only [Except.ok.injEq, Document.mk.injEq, Option.some.injEq] at h
    subst h
    exact setInRoot_nsDecls _ _ v name pre hr

theorem setMetadata_replace_step (K : List (String × String))
    (hK2 : ∀ a ∈ K, ∀ b ∈ K, a.2 = b.2 → a.1 = b.1)
    (c : AudioClip) (m : Element) (v name pre : String)
    (hm : targetMetadata (documentRoot c.xmlAudioClip) = some m)
    (hK1 : ∀ k ∈ K, k.2 ≠ "" ∧
      (k.1 = "" ∨ namespaceInScope [m, documentRoot c.xmlAudioClip] k.1 = true))
    (hsel : ∀ k ∈ K, ∀ n ∈ get_children m.children k.2,
      ∃ e, n = Node.element e ∧ e.nsPrefix = k.1)
    (hkey : (pre, name) ∈ K)
    (hdur : pre = extentElementPrefix → name = extentElementName →
      duration_from_string v ≠ none) :
    ∃ c1 m1, c.setMetadata v name pre = Except.ok c1 ∧
      targetMetadata (documentRoot c1.xmlAudioClip) = some m1 ∧
      (∀ k ∈ K, k.2 ≠ "" ∧
        (k.1 = "" ∨ namespaceInScope [m1, documentRoot c1.xmlAudioClip] k.1 = true)) ∧
      (∀ k ∈ K, ∀ n ∈ get_children m1.children k.2,
        ∃ e, n = Node.element e ∧ e.nsPrefix = k.1) ∧
      c1.getMetadataAt name pre = Except.ok (some v) ∧
      ∀ name' pre', (pre', name') ∈ K → ¬ (name' = name ∧ pre' = pre) →
        c1.getMetadataAt name' pre' = c.getMetadataAt name' pre' := by
  have hscope := (hK1 _ hkey).2
  have hne : name ≠ "" := (hK1 _ hkey).1
  have hselk := hsel _ hkey
  have hfirst : ∀ n ∈ get_children m.children name, n.get_namespace_prefix = pre →
      ∃ e, (get_children m.children name).head? = some (Node.element e) ∧ e.nsPrefix = pre := by
    intro n hn _
    cases hl : get_children m.children name with
    | nil => rw [hl] at hn; cases hn
    | cons front tl =>
      obtain ⟨e, he, hp⟩ := hselk front (by rw [hl]; exact List.mem_cons_self _ _)
      exact ⟨e, by rw [he]; rfl, hp⟩
  obtain ⟨m1, hm1, hget⟩ := setDataElement_get (documentRoot c.xmlAudioClip) m v name pre
    hscope hfirst
  obtain ⟨r', rest, hdoc, hch⟩ := setInDocument_metadata c.xmlAudioClip m m1 v name pre hm hm1
  obtain ⟨c1, hc1, hx, -⟩ := setMetadata_ok c v name pre _ hdur hdoc
  have ht1 : targetMetadata (documentRoot c1.xmlAudioClip) = some m1 := by
    rw [hx]; exact targetMetadata_of_children r' m1 rest hch
  have hroot : documentRoot c1.xmlAudioClip = r' := by rw [hx]; rfl
  have hns : ∀ p, namespaceInScope [m1, documentRoot c1.xmlAudioClip] p =
      namespaceInScope [m, documentRoot c.xmlAudioClip] p := by
    intro p
    rw [hroot]
    exact namespaceInScope_congr _ _ _ _ p (setDataElement_nsDecls _ _ _ v name pre hm1)
      (setInDocument_nsDecls _ _ v name pre hdoc)
  refine ⟨c1, m1, hc1, ht1, ?_, ?_, ?_, ?_⟩
  · intro k hk
    rw [hns]
    exact hK1 k hk
  · intro k hk
    by_cases hkn : k.2 = name
    · have hkp : k.1 = pre := hK2 k hk _ hkey hkn
      rw [hkn, hkp]
      exact setDataElement_selected _ m m1 v name pre hscope hm1 hselk
    · rw [setDataElement_other _ m m1 v name pre k.2 hne (hK1 k hk).1 (fun h => hkn h.symm) hm1]
      exact hsel k hk
  · rw [getMetadataAt_target c1 m1 name pre ht1]; exact hget
  · intro name' pre' hk' hdiff
    have hne' : name' ≠ "" := (hK1 _ hk').1
    have hnn : name ≠ name' := by
      intro hEq
      apply hdiff
      exact ⟨hEq.symm, hK2 _ hk' _ hkey hEq.symm⟩
    rw [getMetadataAt_target c1 m1 name' pre' ht1, getMetadataAt_target c m name' pre' hm,
      setDataElement_other _ m m1 v name pre name' hne hne' hnn hm1]

theorem setAll_replace (K : List (String × String))
    (hK2 : ∀ a ∈ K, ∀ b ∈ K, a.2 = b.2 → a.1 = b.1)
    (calls : List (String × String × String)) :
    ∀ (c : AudioClip) (m : Element),
    targetMetadata (documentRoot c.xmlAudioClip) = some m →
    (∀ k ∈ K, k.2 ≠ "" ∧
      (k.1 = "" ∨ namespaceInScope [m, documentRoot c.xmlAudioClip] k.1 = true)) →
    (∀ k ∈ K, ∀ n ∈ get_children m.children k.2,
      ∃ e, n = Node.element e ∧ e.nsPrefix = k.1) →
    (∀ call ∈ calls, (call.2.2, call.2.1) ∈ K) →
    (∀ call ∈ calls, call.2.2 = extentElementPrefix → call.2.1 = extentElementName →
      duration_from_string call.1 ≠ none) →
    ∃ c', setAll c calls = Except.ok c' ∧
      ∀ name pre, (pre, name) ∈ K →
        c'.getMetadataAt name pre = valueAfter name pre calls (c.getMetadataAt name pre) := by
  induction calls with
  | nil =>
    intro c m _ _ _ _ _
    exact ⟨c, rfl, fun _ _ _ => rfl⟩
  | cons call rest ih =>
    intro c m h1 h2 h3 hkeys hdur
    obtain ⟨c1, m1, hc1, g1, g2, g3, hget, hother⟩ :=
      setMetadata_replace_step K hK2 c m call.1 call.2.1 call.2.2 h1 h2 h3
        (hkeys call (List.mem_cons_self _ _)) (hdur call (List.mem_cons_self _ _))
    obtain ⟨c', hc', hval⟩ := ih c1 m1 g1 g2 g3
      (fun k hk => hkeys k (List.mem_cons_of_mem _ hk))
      (fun k hk => hdur k (List.mem_cons_of_mem _ hk))
    refine ⟨c', by simp only [setAll, hc1, hc'], ?_⟩
    intro name pre hk
    rw [hval name pre hk]
    unfold valueAfter
    simp only [lastValue]
    cases hl : lastValue name pre rest with
    | some v => rfl
    | none =>
      simp only
      by_cases hc : call.2.1 = name ∧ call.2.2 = pre
      · rw [if_pos hc]
        simp only
        rw [← hc.1, ← hc.2]; exact hget
      · rw [if_neg hc]
        simp only
        exact hother name pre hk (fun h => hc ⟨h.1.symm, h.2.symm⟩)

theorem setAll_replaceable (calls : List (String × String × String)) (c : AudioClip)
    (h : keysReplaceable c.xmlAudioClip calls = true) :
    ∃ c', setAll c calls = Except.ok c' ∧
      ∀ name pre v, lastValue name pre calls = some v →
        c'.getMetadataAt name pre = Except.ok (some v) := by
  unfold keysReplaceable at h
  cases hm : targetMetadata (documentRoot c.xmlAudioClip) with
  | none => rw [hm] at h; cases h
  | some m =>
    rw [hm] at h
    simp only [List.all_eq_true, Bool.and_eq_true, decide_eq_true_eq,
      Bool.or_eq_true, Bool.not_eq_true', decide_eq_false_iff_not] at h
    have hK2 : ∀ a ∈ calls.map (fun a => (a.2.2, a.2.1)),
        ∀ b ∈ calls.map (fun a => (a.2.2, a.2.1)), a.2 = b.2 → a.1 = b.1 := by
      intro a ha b hb hab
      obtain ⟨x, hx, rfl⟩ := List.mem_map.1 ha
      obtain ⟨y, hy, rfl⟩ := List.mem_map.1 hb
      exact (h x hx).1.2 y hy hab
    obtain ⟨c', hc', hval⟩ := setAll_replace _ hK2 calls c m hm
      (by
        intro k hk
        obtain ⟨a, ha, rfl⟩ := List.mem_map.1 hk
        exact ⟨(h a ha).1.1.1.1, (h a ha).1.1.1.2⟩)
      (by
        intro k hk n hn
        obtain ⟨a, ha, rfl⟩ := List.mem_map.1 hk
        have := (h a ha).2 n hn
        cases n with
        | element e => exact ⟨e, rfl, by simpa [Node.asElement] using this⟩
        | text t => simp [Node.asElement] at this
        | other o => simp [Node.asElement] at this)
      (fun call hcall => List.mem_map.2 ⟨call, hcall, rfl⟩)
      (fun call hcall h1 h2 => by
        rcases (h call hcall).1.1.2 with h' | h'
        · exact absurd ⟨h1, h2⟩ h'
        · exact Option.isSome_iff_ne_none.1 h')
    refine ⟨c', hc', ?_⟩
    intro name pre v hv
    obtain ⟨call, hcall, hn, hp⟩ := lastValue_mem name pre v calls hv
    rw [hval name pre (List.mem_map.2 ⟨call, hcall, by rw [hn, hp]⟩)]
    simp only [valueAfter, hv]

/-! ## The claims -/

/-- C1 (amended): Key symmetry.  For every clip, value and key, given as the
pair of name and prefix or as a key text that `separateNameAndNameSpace`
splits into that pair, `setMetadata` followed by `getMetadata` returns the
value, provided that the metadata element the call works on is an element
`m`, that the value parses as a duration when the key is `dcterms:extent`,
that the prefix is empty or in scope below `m`, and that, when some child of
`m` selected by the name has the prefix, the first child so selected is an
element with the prefix. -/
theorem set_then_get_returns_value (c : AudioClip) (v name pre : String) (m : Element)
    (hm : targetMetadata (documentRoot c.xmlAudioClip) = some m)
    (hdur : pre = extentElementPrefix → name = extentElementName →
      duration_from_string v ≠ none)
    (hscope : pre = "" ∨ namespaceInScope [m, documentRoot c.xmlAudioClip] pre = true)
    (hfirst : ∀ n ∈ get_children m.children name, n.get_namespace_prefix = pre →
      ∃ e, (get_children m.children name).head? = some (Node.element e) ∧ e.nsPrefix = pre) :
    setThenGet c v name pre = Except.ok (some v) ∧
    ∀ key, separateNameAndNameSpace key = (name, pre) →
      setThenGetKey c v key = Except.ok (some v) := by
  have main : setThenGet c v name pre = Except.ok (some v) := by
    obtain ⟨m', hm', hget⟩ := setDataElement_get (documentRoot c.xmlAudioClip) m v name pre
      hscope hfirst
    obtain ⟨r', rest, hdoc, hch⟩ := setInDocument_metadata c.xmlAudioClip m m' v name pre hm hm'
    obtain ⟨c', hc', hx, -⟩ := setMetadata_ok c v name pre _ hdur hdoc
    simp only [setThenGet, hc', AudioClip.getMetadataAt, hx, hch]
    exact hget
  refine ⟨main, ?_⟩
  intro key hkey
  have : setThenGetKey c v key = setThenGet c v name pre := by
    simp only [setThenGetKey, setThenGet, AudioClip.setMetadataKey, AudioClip.getMetadata, hkey]
  rw [this]; exact main

/-- C1, witness: on a clip whose store holds `dc:title`, setting `dc:title` to
`new` and reading it back gives `new`, for the pair and for the key text. -/
theorem set_then_get_returns_value_witness :
    setThenGet clipWithTitleEntry "new" "title" "dc" = Except.ok (some "new") ∧
    ∀ key, separateNameAndNameSpace key = ("title", "dc") →
      setThenGetKey clipWithTitleEntry "new" key = Except.ok (some "new") :=
  set_then_get_returns_value clipWithTitleEntry "new" "title" "dc"
    { newMetadataElement with
      children := [textElement titleElementPrefix titleElementName "old"] }
    rfl (fun h => absurd h (by decide)) (Or.inr (by decide))
    (fun _ _ _ => ⟨_, rfl, rfl⟩)

/-- C1, counterexample: on a fresh clip the key `foo:bar`, whose prefix is not
declared, is written without namespace, and reading the key back gives
nothing instead of the value. -/
theorem key_symmetry_fails_for_undeclared_prefix :
    setThenGet AudioClip.fresh "v" "bar" "foo" = Except.ok none ∧
    setThenGetKey AudioClip.fresh "v" "foo:bar" = Except.ok none :=
  ⟨rfl, rfl⟩

/-- C2 (the code falls short of it): after `setTitle("Y")` on the clip
configured from `twoTitlesElement`, whose metadata holds `ns:title` before
`dc:title`, the title field is `Y` but `getMetadata("dc:title")` still returns
`b`: the loop of `setMetadata` finds `dc:title` and then writes to
`nodeList.front()`, the element `ns:title`. -/
theorem setTitle_writes_first_title_element :
    ∃ c c', AudioClip.fresh.configure twoTitlesElement = ConfigureResult.returned c ∧
      c.setTitle "Y" = Except.ok c' ∧ c'.title = some "Y" ∧
      c'.getMetadata "dc:title" = Except.ok (some "b") ∧
      c'.getMetadata "ns:title" = Except.ok (some "Y") :=
  ⟨_, _, rfl, rfl, rfl, rfl, rfl⟩

/-- C3 (the code falls short of it): `configure` succeeds on
`attributeAndEntryElement` with the title `A` of the attribute, while the
store, replaced by the copy of the metadata child after the attribute was
mirrored, returns `B` for `dc:title`. -/
theorem configure_store_differs_from_title :
    ∃ c, AudioClip.fresh.configure attributeAndEntryElement = ConfigureResult.returned c ∧
      c.title = some "A" ∧ c.getMetadata "dc:title" = Except.ok (some "B") :=
  ⟨_, rfl, rfl, rfl⟩

/-- C4: Precedence.  For every clip without title and duration whose store can
be written at `dcterms:extent` and `dc:title` (a fresh clip is one), and every
`audioClip` element with an identifier at hand, well-formed duration texts and
exactly one metadata child, whatever that child holds: `configure` leaves a
clip whose title is the `title` attribute, when the element has one, and whose
duration is the one parsed from the `playlength` attribute, when the element
has one, each whether or not the other attribute is there; and it returns
whenever that clip has a title and a duration. -/
theorem attribute_precedence (c : AudioClip) (e m : Element)
    (htitle : c.title = none) (hplay : c.playlength = none)
    (hw1 : canWrite c.xmlAudioClip extentElementName extentElementPrefix = true)
    (hw2 : canWrite c.xmlAudioClip titleElementName titleElementPrefix = true)
    (hname : e.name = configElementNameStr)
    (hid : c.id ≠ none ∨ get_attribute e idAttrName ≠ none)
    (hmeta : get_children e.children metadataElementName = [Node.element m])
    (hwf : durationsWellFormed e = true) :
    ∃ c', (c.configure e).clip? = some c' ∧
      (∀ A, get_attribute e titleAttrName = some A → c'.title = some A) ∧
      (∀ t, get_attribute e playlengthAttrName = some t →
        c'.playlength = duration_from_string t ∧ c'.playlength ≠ none) ∧
      (c'.title ≠ none → c'.playlength ≠ none →
        c.configure e = ConfigureResult.returned c') := by
  obtain ⟨c4, h4, hid4, -, -, ht4, hp4⟩ := configure_reaches_metadata c e hname hid
    (fun _ _ => hw1) (fun _ _ => hw2) (fun t _ ht => durationsWellFormed_attr e hwf t ht)
  obtain ⟨c5, h5, -, -, t5, p5, -⟩ := configureMetadata_first c4 e m [] hmeta hid4
    (durationsWellFormed_children e hwf m [] hmeta)
  rw [htitle] at ht4
  rw [hplay] at hp4
  have ht4 : c4.title = get_attribute e titleAttrName := ht4
  have hp4 : c4.playlength = (get_attribute e playlengthAttrName).bind duration_from_string :=
    hp4
  simp only [List.isEmpty_nil, if_true] at h5
  refine ⟨c5, by rw [h4, h5, checkRequired_clip], ?_, ?_, ?_⟩
  · intro A hA
    rw [hA] at ht4
    rw [t5 (by simp [ht4]), ht4]
  · intro t ht
    obtain ⟨d, hd⟩ := Option.ne_none_iff_exists'.1 (durationsWellFormed_attr e hwf t ht)
    have hp5 : c5.playlength = some d := by
      rw [p5 (by simp [hp4, ht, hd]), hp4, ht]; simp [hd]
    exact ⟨by rw [hp5, hd], by simp [hp5]⟩
  · intro hT hP
    rw [h4, h5]
    simp [checkRequired, hT, hP]

/-- C4, witness: the element with the attributes `title="A"` and
`playlength="00:00:01"` and a metadata child with `dc:title` `B` and
`dcterms:extent` `00:00:09`: `configure` returns with the title `A` and the
duration of one second. -/
theorem attribute_precedence_witness :
    ∃ c', AudioClip.fresh.configure precedenceElement = ConfigureResult.returned c' ∧
      c'.title = some "A" ∧ c'.playlength = some ⟨1000000⟩ :=
  (attribute_precedence AudioClip.fresh precedenceElement _ rfl rfl rfl rfl rfl
    (Or.inr (by decide)) rfl rfl).elim
    (fun c' h => ⟨c',
      h.2.2.2 (by rw [h.2.1 "A" rfl]; simp) (h.2.2.1 "00:00:01" rfl).2,
      h.2.1 "A" rfl, (h.2.2.1 "00:00:01" rfl).1.trans (by decide)⟩)

/-- The `playlength` attribute wins where the title comes from the metadata
child: on `playlengthAttributeElement` the duration is the one second of the
attribute, not the nine seconds of the `dcterms:extent` entry, and the title
is the `B` of the `dc:title` entry. -/
theorem playlength_attribute_wins_without_title_attribute :
    ∃ c', AudioClip.fresh.configure playlengthAttributeElement = ConfigureResult.returned c' ∧
      c'.title = some "B" ∧ c'.playlength = some ⟨1000000⟩ :=
  ⟨_, rfl, rfl, rfl⟩

/-- C5 (amended): No duplicate entries.  Starting from a clip with no store,
every finite sequence of calls of `setMetadata` whose prefixes are in scope of
the new metadata element (none, `xml`, `dc`, `dcterms`) and whose values for
`dcterms:extent` parse as durations completes, and leaves at most one entry
element for each pair of prefix and name; a further call on a key that has
an entry completes and adds no entry element; and when no name is empty and
no two calls are on keys with the same name under different prefixes, a
repeated call replaces: `getMetadata` on each key returns the value of the
last call on that key. -/
theorem no_duplicate_entries (c : AudioClip) (calls : List (String × String × String))
    (hstore : c.xmlAudioClip = none)
    (hpre : ∀ call ∈ calls, call.2.2 ∈ declaredPrefixes)
    (hdur : ∀ call ∈ calls, call.2.2 = extentElementPrefix → call.2.1 = extentElementName →
      duration_from_string call.1 ≠ none) :
    ∃ c', setAll c calls = Except.ok c' ∧ (entryKeys c'.xmlAudioClip).Nodup ∧
      (∀ value name pre, pre ∈ declaredPrefixes →
        (pre = extentElementPrefix → name = extentElementName →
          duration_from_string value ≠ none) →
        (pre, name) ∈ entryKeys c'.xmlAudioClip →
        ∃ c'', c'.setMetadata value name pre = Except.ok c'' ∧
          entryKeys c''.xmlAudioClip = entryKeys c'.xmlAudioClip) ∧
      ((∀ call ∈ calls, call.2.1 ≠ "") →
        (∀ a ∈ calls, ∀ b ∈ calls, a.2.1 = b.2.1 → a.2.2 = b.2.2) →
        ∀ name pre v, lastValue name pre calls = some v →
          c'.getMetadataAt name pre = Except.ok (some v)) := by
  obtain ⟨c', m', hc', g1, g2, g3, g4, g5⟩ := setAll_keys calls c newMetadataElement
    (by rw [hstore]; rfl) rfl (fun n hn => by cases hn) (by simp [keysOf, newMetadataElement])
    (by rw [hstore]; rfl) hpre hdur
  refine ⟨c', hc', by rw [g5]; exact g4, ?_, ?_⟩
  · intro value name pre hp hd hin
    obtain ⟨c'', m'', hc'', -, -, -, -, -, hsame⟩ :=
      setMetadata_keys c' value name pre m' g1 g2 g3 g4 g5 hp hd
    exact ⟨c'', hc'', hsame hin⟩
  · intro hne hfun name pre v hv
    have hK2 : ∀ a ∈ calls.map (fun a => (a.2.2, a.2.1)),
        ∀ b ∈ calls.map (fun a => (a.2.2, a.2.1)), a.2 = b.2 → a.1 = b.1 := by
      intro a ha b hb hab
      obtain ⟨x, hx, rfl⟩ := List.mem_map.1 ha
      obtain ⟨y, hy, rfl⟩ := List.mem_map.1 hb
      exact hfun x hx y hy hab
    obtain ⟨c2, hc2, hval⟩ := setAll_replace _ hK2 calls c newMetadataElement
      (by rw [hstore]; rfl)
      (by
        intro k hk
        obtain ⟨a, ha, rfl⟩ := List.mem_map.1 hk
        exact ⟨hne a ha, declared_inScope newMetadataElement _ a.2.2 rfl (hpre a ha)⟩)
      (fun k _ n hn => by cases hn)
      (fun call hcall => List.mem_map.2 ⟨call, hcall, rfl⟩) hdur
    rw [hc'] at hc2
    cases hc2
    obtain ⟨call, hcall, hn, hp⟩ := lastValue_mem name pre v calls hv
    rw [hval name pre (List.mem_map.2 ⟨call, hcall, by rw [hn, hp]⟩)]
    simp only [valueAfter, hv]

/-- C5, witness: three calls, two of them on `dc:title`; the store holds one
entry for each of the two keys, and `dc:title` holds the value `b` of the last
call on it. -/
theorem no_duplicate_entries_witness :
    ∃ c', setAll AudioClip.fresh [("a", "title", "dc"), ("00:00:01", "extent", "dcterms"),
        ("b", "title", "dc")] = Except.ok c' ∧ (entryKeys c'.xmlAudioClip).Nodup ∧
      c'.getMetadataAt "title" "dc" = Except.ok (some "b") ∧
      c'.getMetadataAt "extent" "dcterms" = Except.ok (some "00:00:01") :=
  (no_duplicate_entries AudioClip.fresh _ rfl (by decide) (by decide)).elim
    (fun c' h => ⟨c', h.1, h.2.1,
      h.2.2.2 (by decide) (by decide) "title" "dc" "b" rfl,
      h.2.2.2 (by decide) (by decide) "extent" "dcterms" "00:00:01" rfl⟩)

/-- C5, counterexample: two calls on the key `foo:bar`, whose prefix is not
declared, leave two entry elements `bar` without namespace. -/
theorem duplicate_entries_for_undeclared_prefix :
    ∃ c', setAll AudioClip.fresh [("v", "bar", "foo"), ("w", "bar", "foo")] = Except.ok c' ∧
      entryKeys c'.xmlAudioClip = [("", "bar"), ("", "bar")] :=
  ⟨_, rfl, rfl⟩

/-- Outside the keys for which a repeated call replaces: with `dc:title` in
front of `dcterms:title`, the second call on `dcterms:title` finds its entry
and writes to the first element called `title`; `dcterms:title` keeps `b` and
`dc:title` becomes `c`. -/
theorem repeated_set_writes_other_entry :
    ∃ c', setAll AudioClip.fresh [("a", "title", "dc"), ("b", "title", "dcterms"),
        ("c", "title", "dcterms")] = Except.ok c' ∧
      entryKeys c'.xmlAudioClip = [("dc", "title"), ("dcterms", "title")] ∧
      c'.getMetadataAt "title" "dcterms" = Except.ok (some "b") ∧
      c'.getMetadataAt "title" "dc" = Except.ok (some "c") :=
  ⟨_, rfl, rfl, rfl, rfl⟩

/-- C6 (the code falls short of it): `configure` succeeds on
`emptyTitleElement`, whose metadata child holds an empty `dc:title`, and
`getMetadata("dc:title")` on the clip then calls `get_content` through the
null pointer that `get_child_text` returns. -/
theorem getMetadata_empty_entry_dereferences_null :
    ∃ c, AudioClip.fresh.configure emptyTitleElement = ConfigureResult.returned c ∧
      c.title = some "" ∧
      c.getMetadata "dc:title" = Except.error Abort.nullDereference :=
  ⟨_, rfl, rfl, rfl⟩

/-- C7 (the code falls short of it): `setMetadata` on `dcterms:extent` with the
value `abc` does not complete: `duration_from_string` throws inside a function
declared `throw ()`, before anything is stored. -/
theorem setMetadata_unparseable_extent_terminates :
    AudioClip.fresh.setMetadata "abc" extentElementName extentElementPrefix =
      Except.error Abort.terminate ∧
    AudioClip.fresh.setMetadataKey "abc" "dcterms:extent" = Except.error Abort.terminate :=
  ⟨rfl, rfl⟩

/-- C8 (amended): for a fresh clip and an `audioClip` element with the
attributes `id`, `playlength` (a well-formed duration text) and `title` and no
metadata child, `configure` returns with that identifier, duration and title,
and the store exists at once: it holds the mirrored entries `dcterms:extent`,
with the text of the attribute, and `dc:title`, so that `getMetadataString`
returns the text of that document. -/
theorem configure_attributes_create_store (e : Element) (i t a : String) (d : time_duration)
    (hname : e.name = configElementNameStr)
    (hid : get_attribute e idAttrName = some i)
    (hp : get_attribute e playlengthAttrName = some t)
    (ha : get_attribute e titleAttrName = some a)
    (hd : duration_from_string t = some d)
    (hmeta : get_children e.children metadataElementName = []) :
    ∃ c', AudioClip.fresh.configure e = ConfigureResult.returned c' ∧
      c'.id = some i ∧ c'.playlength = some d ∧ c'.title = some a ∧
      c'.xmlAudioClip = some (mirroredStore t a) ∧
      (∀ write_to_string, c'.getMetadataString write_to_string =
        some (write_to_string (mirroredStore t a))) ∧
      c'.getMetadataAt extentElementName extentElementPrefix = Except.ok (some t) ∧
      c'.getMetadataAt titleElementName titleElementPrefix = Except.ok (some a) := by
  have h1 : configureId AudioClip.fresh e = some ⟨some i, none, none, none, none, none⟩ := by
    simp [configureId, AudioClip.fresh, hid]
  have h2 : configurePlaylength ⟨some i, none, none, none, none, none⟩ e =
      Except.ok ⟨some i, none, some d, none, none, some (extentStore t)⟩ := by
    unfold configurePlaylength
    simp only [if_true, hp, hd]
    exact setMetadata_extent_noStore _ t d rfl hd
  have h3 : configureTitle ⟨some i, none, some d, none, none, some (extentStore t)⟩ e =
      Except.ok ⟨some i, some a, some d, none, none, some (mirroredStore t a)⟩ := by
    unfold configureTitle
    simp only [if_true, ha]
    exact setMetadata_title_afterExtent _ t a rfl
  obtain ⟨u1, u2, u3, -, u5⟩ := configureUri_fields
    ⟨some i, some a, some d, none, none, some (mirroredStore t a)⟩ e
  refine ⟨_, ?_, u1, u3, u2, u5, ?_, ?_, ?_⟩
  · unfold AudioClip.configure
    rw [if_neg (not_not.2 hname)]
    simp only [h1, h2, h3, configureMetadata, hmeta, checkRequired, u2, u3, reduceCtorEq,
      if_false]
  · intro w; simp only [AudioClip.getMetadataString, u5]
  · simp only [AudioClip.getMetadataAt, u5]; rfl
  · simp only [AudioClip.getMetadataAt, u5]; rfl

/-- C8, witness: the element `<audioClip id="42" playlength="01:02:03"
title="Intro"/>` gives the identifier `42`, the duration of 3723 seconds and
the title `Intro`, and a store with both entries. -/
theorem configure_attributes_create_store_witness :
    ∃ c', AudioClip.fresh.configure introElement = ConfigureResult.returned c' ∧
      c'.id = some "42" ∧ c'.playlength = some ⟨3723000000⟩ ∧ c'.title = some "Intro" ∧
      c'.xmlAudioClip = some (mirroredStore "01:02:03" "Intro") ∧
      (∀ write_to_string, c'.getMetadataString write_to_string =
        some (write_to_string (mirroredStore "01:02:03" "Intro"))) ∧
      c'.getMetadataAt extentElementName extentElementPrefix = Except.ok (some "01:02:03") ∧
      c'.getMetadataAt titleElementName titleElementPrefix = Except.ok (some "Intro") :=
  configure_attributes_create_store introElement "42" "01:02:03" "Intro" ⟨3723000000⟩
    rfl rfl rfl rfl (by decide) rfl

/-- C8, counterexample: after `configure` on `<audioClip id="42"
playlength="01:02:03" title="Intro"/>` the method `getMetadataString` returns
a text, whatever the serialisation is. -/
theorem store_present_after_configure :
    ∃ c', AudioClip.fresh.configure introElement = ConfigureResult.returned c' ∧
      ∀ write_to_string, c'.getMetadataString write_to_string ≠ none :=
  ⟨_, rfl, fun _ h => by cases h⟩

/-- C11: Missing identifier.  For every clip and every `audioClip` element:
when the clip has no identifier and the element has no `id` attribute,
`configure` throws `std::invalid_argument` with the message for the missing
`id` and leaves the clip as it was, whatever else the element holds; and when
the clip has an identifier, every clip that `configure` leaves behind has that
identifier, and the outcome is the same for every element with the same name,
children and attributes other than `id`. -/
theorem missing_identifier (c : AudioClip) (e : Element)
    (hname : e.name = configElementNameStr) :
    (c.id = none → get_attribute e idAttrName = none →
      c.configure e = ConfigureResult.threw "missing attribute id" c) ∧
    (∀ i, c.id = some i →
      (∀ c', (c.configure e).clip? = some c' → c'.id = some i) ∧
      (∀ e', e'.name = e.name → e'.children = e.children →
        (∀ a, a ≠ idAttrName → get_attribute e' a = get_attribute e a) →
        c.configure e' = c.configure e)) := by
  constructor
  · intro hi ha
    unfold AudioClip.configure
    rw [if_neg (not_not.2 hname)]
    simp only [configureId, hi, ha, if_true]
    rfl
  · intro i hi
    have hid : c.id ≠ none := by rw [hi]; simp
    exact ⟨fun c' h => by rw [configure_clip_id c c' e hid h, hi],
      fun e' h1 h2 h3 => configure_congr c e e' hid h1 h2 h3⟩


/-- C11, witness: a fresh clip and the element
`<audioClip playlength="00:00:01" title="T"/>`. -/
theorem missing_identifier_witness :
    (AudioClip.fresh.id = none → get_attribute noIdElement idAttrName = none →
      AudioClip.fresh.configure noIdElement =
        ConfigureResult.threw "missing attribute id" AudioClip.fresh) ∧
    (∀ i, AudioClip.fresh.id = some i →
      (∀ c', (AudioClip.fresh.configure noIdElement).clip? = some c' → c'.id = some i) ∧
      (∀ e', e'.name = noIdElement.name → e'.children = noIdElement.children →
        (∀ a, a ≠ idAttrName → get_attribute e' a = get_attribute noIdElement a) →
        AudioClip.fresh.configure e' = AudioClip.fresh.configure noIdElement)) :=
  missing_identifier AudioClip.fresh noIdElement rfl


/-- C12: Invalid element.  For every clip and every element whose name is not
`audioClip`, `configure` throws `std::invalid_argument` with the message for a
bad configuration element, and the clip left behind is the clip before the
call: identifier, title, duration, locator and store are untouched. -/
theorem invalid_config_element (c : AudioClip) (e : Element)
    (hname : e.name ≠ configElementNameStr) :
    c.configure e = ConfigureResult.threw ("bad configuration element " ++ e.name) c := by
  unfold AudioClip.configure
  rw [if_pos hname]
  rfl


/-- C12, witness: a fresh clip and the element
`<playlist id="1" playlength="00:00:01" title="T"/>`. -/
theorem invalid_config_element_witness :
    AudioClip.fresh.configure wrongNameElement =
      ConfigureResult.threw ("bad configuration element " ++ wrongNameElement.name)
        AudioClip.fresh :=
  invalid_config_element AudioClip.fresh wrongNameElement (by decide)


/-- C13 (amended): when `configure` throws for a bad configuration element or
for a missing `id` attribute, the clip left behind is the clip before the
call.  (The two later exceptions leave the fields assigned before them.) -/
theorem early_failure_leaves_clip (c c' : AudioClip) (e : Element) (what : String)
    (h : c.configure e = ConfigureResult.threw what c')
    (hw : what = invalidConfigElementMessage e.name ∨
      what = missingAttributeMessage idAttrName) : c' = c := by
  rcases configure_threw_inv c c' e what h with ⟨-, -, hc⟩ | ⟨-, -, -, hc⟩ |
    ⟨hn, c1, c2, c3, -, -, -, hm⟩
  · exact hc
  · exact hc
  · exfalso
    obtain ⟨hmsg, -⟩ := configureMetadata_threw_inv _ _ _ _ hm
    rw [hn] at hw
    rcases hw with hw | hw <;> rcases hmsg with hm1 | hm1 | hm1 <;> rw [hw] at hm1 <;>
      revert hm1 <;> decide


/-- C13, witness: on a fresh clip and the element
`<audioClip playlength="00:00:01" title="T"/>`, `configure` throws for the
missing `id` attribute, and the clip left behind is the fresh clip. -/
theorem early_failure_leaves_clip_witness :
    AudioClip.fresh.configure noIdElement =
        ConfigureResult.threw (missingAttributeMessage idAttrName) AudioClip.fresh ∧
      AudioClip.fresh = AudioClip.fresh :=
  ⟨rfl, early_failure_leaves_clip AudioClip.fresh AudioClip.fresh noIdElement
    (missingAttributeMessage idAttrName) rfl (Or.inr rfl)⟩

/-- C13, counterexample: on a fresh clip and the element
`<audioClip id="1" title="T"/>`, `configure` throws for the missing playlength
and leaves a clip with the identifier `1`, the title `T` and a store with the
mirrored `dc:title`. -/
theorem late_failure_keeps_assigned_fields :
    ∃ c', AudioClip.fresh.configure noPlaylengthAttributesElement = ConfigureResult.threw
        "missing attribute playlength or metadata element dcterms:extent" c' ∧
      c'.id = some "1" ∧ c'.title = some "T" ∧
      c'.xmlAudioClip = some (storeWith [textElement "dc" "title" "T"]) :=
  ⟨_, rfl, rfl, rfl, rfl⟩


/-- C14: Idempotent failures.  For every clip and element on which `configure`
throws `std::invalid_argument`, `configure` on the clip left behind and the
same element throws the exception with the same message again, and leaves
that clip as it is. -/
theorem failure_repeats (c c' : AudioClip) (e : Element) (what : String)
    (h : c.configure e = ConfigureResult.threw what c') :
    c'.configure e = ConfigureResult.threw what c' := by
  rcases configure_threw_inv c c' e what h with ⟨-, -, hc⟩ | ⟨-, -, -, hc⟩ |
    ⟨hn, c1, c2, c3, h1, h2, h3, hm⟩
  · rw [hc]; exact hc ▸ h
  · rw [hc]; exact hc ▸ h
  · obtain ⟨i1, -⟩ := configureId_inv _ _ _ h1
    obtain ⟨p1, -, -, -, p5⟩ := configurePlaylength_inv _ _ _ h2
    obtain ⟨t1, -, -, t4, t5⟩ := configureTitle_inv _ _ _ h3
    obtain ⟨u1, u2, u3, -, -⟩ := configureUri_fields c3 e
    obtain ⟨-, m1, m2, m3, m4, m5⟩ := configureMetadata_threw_inv _ _ _ _ hm
    have hid : c'.id ≠ none := by rw [m1, u1, t1, p1]; exact i1
    have hpl : c'.playlength = none → get_attribute e playlengthAttrName = none := by
      intro hp; apply p5; rw [← t4, ← u3]; exact m3 hp
    have htl : c'.title = none → get_attribute e titleAttrName = none := by
      intro ht; apply t5; rw [← u2]; exact m4 ht
    have hur : c'.uri = none → get_attribute e uriAttrName = none := by
      intro hu; apply configureUri_none c3 e; rw [← m2]; exact hu
    unfold AudioClip.configure
    rw [if_neg (not_not.2 hn)]
    simp only [configureId_fix c' e hid, configurePlaylength_fix c' e hpl,
      configureTitle_fix c' e htl, configureUri_fix c' e hur]
    exact m5


/-- C14, witness: the element `<audioClip id="1"><metadata/><metadata/></audioClip>`
on a fresh clip, and again on the clip left behind. -/
theorem failure_repeats_witness :
    ∃ c', AudioClip.fresh.configure twoMetadataElement =
        ConfigureResult.threw "more than one metadata XML element" c' ∧
      c'.configure twoMetadataElement =
        ConfigureResult.threw "more than one metadata XML element" c' :=
  ⟨_, rfl, failure_repeats AudioClip.fresh _ twoMetadataElement _ rfl⟩

/-- C16 (the code falls short of it): for the key `title`, which has no colon,
`find` returns `npos`, the `unsigned int` keeps its low 32 bits, the test
against `npos` takes the branch for a colon, and the prefix is `title`, not
empty. -/
theorem separate_title_without_colon :
    separateNameAndNameSpace "title" = ("title", "title") := by decide


/-- C17 (the code falls short of it): for the key made of 2^32 characters `a`
(of one byte each), a colon and `n`, the position of the colon, 2^32, is cut
to zero in the `unsigned int`: the prefix is empty, not the colon-free text
before the colon, and the name is the key without its first byte, not `n`. -/
theorem separate_far_colon :
    ':' ∉ longPrefix.data ∧ longPrefix ≠ "" ∧
    separateNameAndNameSpace (longPrefix ++ ":" ++ "n") =
      (substrFrom (longPrefix ++ ":" ++ "n") 1, "") := by
  have hcolon : ':' ∉ longPrefix.data := by
    intro hm
    have := (List.mem_replicate.1 hm).2
    exact absurd this (by decide)
  have hlen : utf8Length longPrefix.data = 2 ^ 32 := by
    have h1 : utf8Size 'a' = 1 := by decide
    show utf8Length (List.replicate (2 ^ 32) 'a') = 2 ^ 32
    rw [utf8Length_replicate, h1, Nat.mul_one]
  refine ⟨hcolon, ?_, separate_with_far_colon longPrefix "n" hcolon hlen⟩
  intro he
  have h1 : longPrefix.data.length = 2 ^ 32 := List.length_replicate _ _
  rw [he] at h1
  exact absurd h1 (by decide)

/-- C19 (the code falls short of it): `configure` returns on
`instructionElement`, whose metadata child holds a processing instruction
called `title` in front of `dc:title`; on the clip it leaves, `setMetadata` on
`dc:title`, by name and prefix or by the key text, finds `dc:title` in its
loop, casts `nodeList.front()`, the processing instruction, to an element, and
calls `set_child_text` through the null pointer of that cast: the title is not
set to the value by a call that completes. -/
theorem setMetadata_title_dereferences_null :
    ∃ c, AudioClip.fresh.configure instructionElement = ConfigureResult.returned c ∧
      c.title = some "b" ∧
      c.setMetadata "X" "title" "dc" = Except.error Abort.nullDereference ∧
      c.setMetadataKey "X" "dc:title" = Except.error Abort.nullDereference :=
  ⟨_, rfl, rfl, rfl, rfl⟩

/-- Reserved mirroring where the store takes the write.  For every clip whose
store takes a write of `dc:title` and of `dcterms:extent` without a null
pointer: `setMetadata` on `dc:title`, by name and prefix or by the key text,
completes and makes the title the value, leaving identifier, duration and
locator as they were; and `setMetadata` on `dcterms:extent` with a well-formed
duration text completes and makes the duration the parsed value, leaving
identifier, title and locator as they were. -/
theorem reserved_key_sets_field (c : AudioClip)
    (hw1 : canWrite c.xmlAudioClip titleElementName titleElementPrefix = true)
    (hw2 : canWrite c.xmlAudioClip extentElementName extentElementPrefix = true) :
    (∀ X, ∃ c', c.setMetadata X "title" "dc" = Except.ok c' ∧
      c.setMetadataKey X "dc:title" = Except.ok c' ∧
      c'.title = some X ∧ c'.id = c.id ∧ c'.playlength = c.playlength ∧ c'.uri = c.uri) ∧
    (∀ t d, duration_from_string t = some d →
      ∃ c', c.setMetadata t "extent" "dcterms" = Except.ok c' ∧
        c.setMetadataKey t "dcterms:extent" = Except.ok c' ∧
        c'.playlength = some d ∧ c'.id = c.id ∧ c'.title = c.title ∧ c'.uri = c.uri) := by
  constructor
  · intro X
    obtain ⟨c', hc', hid, huri, -, htitle, hpl, -⟩ :=
      setMetadata_step c X titleElementName titleElementPrefix hw1
        (fun h => absurd h (by decide))
    refine ⟨c', hc', hc', ?_, hid, ?_, huri⟩
    · rw [htitle]; simp
    · rw [hpl]; simp [extentElementPrefix, titleElementPrefix]
  · intro t d hd
    obtain ⟨c', hc', hid, huri, -, htitle, hpl, -⟩ :=
      setMetadata_step c t extentElementName extentElementPrefix hw2
        (fun _ _ => by simp [hd])
    refine ⟨c', hc', hc', ?_, hid, ?_, huri⟩
    · rw [hpl]; simp [hd]
    · rw [htitle]; simp [extentElementPrefix, titleElementPrefix]


/-- On the clip whose store holds `dc:title` with the text `old`: the title
becomes `new`, and the duration becomes five seconds. -/
theorem reserved_key_sets_field_witness :
    (∃ c', clipWithTitleEntry.setMetadata "new" "title" "dc" = Except.ok c' ∧
      clipWithTitleEntry.setMetadataKey "new" "dc:title" = Except.ok c' ∧
      c'.title = some "new" ∧ c'.id = clipWithTitleEntry.id ∧
      c'.playlength = clipWithTitleEntry.playlength ∧ c'.uri = clipWithTitleEntry.uri) ∧
    (∃ c', clipWithTitleEntry.setMetadata "00:00:05" "extent" "dcterms" = Except.ok c' ∧
      clipWithTitleEntry.setMetadataKey "00:00:05" "dcterms:extent" = Except.ok c' ∧
      c'.playlength = some ⟨5000000⟩ ∧ c'.id = clipWithTitleEntry.id ∧
      c'.title = clipWithTitleEntry.title ∧ c'.uri = clipWithTitleEntry.uri) :=
  ⟨(reserved_key_sets_field clipWithTitleEntry rfl rfl).1 "new",
   (reserved_key_sets_field clipWithTitleEntry rfl rfl).2 "00:00:05" ⟨5000000⟩ (by decide)⟩

/-- C20 (the code falls short of it): on the clip configured from
`twoTitlesElement`, `getMetadata("ns:title")` returns `a`; after
`setMetadata("Y", "dc:title")` it returns `Y`, and `dc:title` still holds `b`:
the call wrote to `nodeList.front()`, the entry of another key. -/
theorem setMetadata_changes_other_key :
    ∃ c c', AudioClip.fresh.configure twoTitlesElement = ConfigureResult.returned c ∧
      c.getMetadata "ns:title" = Except.ok (some "a") ∧
      c.setMetadataKey "Y" "dc:title" = Except.ok c' ∧
      c'.getMetadata "ns:title" = Except.ok (some "Y") ∧
      c'.getMetadata "dc:title" = Except.ok (some "b") :=
  ⟨_, _, rfl, rfl, rfl, rfl, rfl⟩

/-- C15: Tag import gating.  For every table, file system and clip, `readTag`
tests in this order and throws `std::invalid_argument` with its own message
when the table is not configured (whatever the locator is), when the clip has
no locator, and when the file at the locator is not readable; and whenever
`readTag` throws, the clip left behind is the clip before the call: store and
fields are untouched. -/
theorem readTag_gating (tc : TagConversion) (files : String → SoundFile) (c : AudioClip) :
    (tc.isConfigured = false →
      c.readTag tc files = ConfigureResult.threw "tag conversion table not loaded" c) ∧
    (tc.isConfigured = true → c.uri = none →
      c.readTag tc files = ConfigureResult.threw "audio clip has no uri field" c) ∧
    (tc.isConfigured = true → ∀ uri, c.uri = some uri → (files uri).isReadable = false →
      c.readTag tc files = ConfigureResult.threw "binary sound file not found" c) ∧
    (∀ what c', c.readTag tc files = ConfigureResult.threw what c' → c' = c) := by
  refine ⟨?_, ?_, ?_, ?_⟩
  · intro h; simp [AudioClip.readTag, h]
  · intro h hu; simp [AudioClip.readTag, h, hu]
  · intro h uri hu hr; simp [AudioClip.readTag, h, hu, hr]
  · intro what c' h
    unfold AudioClip.readTag at h
    split at h
    · cases h; rfl
    · split at h
      · cases h; rfl
      · split at h
        · cases h; rfl
        · split at h
          · cases h
          · split at h
            · cases h
            · split at h
              · cases h
              · split at h <;> cases h

/-- C18 (amended): Summary round trip.  For every clip with an identifier and a
title of plain characters (no double quote, no `<`, no `&`, no control
character) and a duration of less than 2^31 hours, `getXmlString` returns a
text, the text is read back as an element, and `configure` on a fresh clip and
that element returns a clip with the same identifier, title and duration. -/
theorem summary_round_trip (c : AudioClip) (i t : String) (d : time_duration)
    (hid : c.id = some i) (htitle : c.title = some t) (hplay : c.playlength = some d)
    (hi : i.data.all isPlainChar = true) (ht : t.data.all isPlainChar = true)
    (hhours : d.ticks.natAbs / 3600000000 < 2 ^ 31) :
    ∃ text e c', c.getXmlString = Except.ok text ∧ parseXmlElement text = some e ∧
      AudioClip.fresh.configure e = ConfigureResult.returned c' ∧
      c'.id = some i ∧ c'.title = some t ∧ c'.playlength = some d := by
  obtain ⟨c', hc', h1, h2, h3⟩ := configure_summaryElement i (to_simple_string d) t d
    (duration_round_trip d hhours)
  refine ⟨_, summaryElement i (to_simple_string d) t, c', ?_,
    parse_summary i (to_simple_string d) t hi (to_simple_string_plain d) ht, hc', h1, h2, h3⟩
  unfold AudioClip.getXmlString
  rw [hid, htitle, hplay]


/-- C18, witness: the clip configured from
`<audioClip id="42" playlength="01:02:03" title="Intro"/>`. -/
theorem summary_round_trip_witness :
    ∃ c, AudioClip.fresh.configure introElement = ConfigureResult.returned c ∧
      ∃ text e c', c.getXmlString = Except.ok text ∧ parseXmlElement text = some e ∧
        AudioClip.fresh.configure e = ConfigureResult.returned c' ∧
        c'.id = some "42" ∧ c'.title = some "Intro" ∧ c'.playlength = some ⟨3723000000⟩ :=
  ⟨_, rfl, summary_round_trip _ "42" "Intro" ⟨3723000000⟩ rfl rfl rfl (by decide) (by decide)
    (by decide)⟩


/-- C18, counterexample: the clip configured from the element with the title
`a"b` has the summary `<audioClip id="1" playlength="00:00:01" title="a"b"/>`,
in which the title is written without escaping; the text is not well formed
and is not read back as an element. -/
theorem summary_with_quote_is_not_read_back :
    ∃ c text, AudioClip.fresh.configure quoteTitleElement = ConfigureResult.returned c ∧
      c.title = some "a\"b" ∧
      c.getXmlString =
        Except.ok "<audioClip id=\"1\" playlength=\"00:00:01\" title=\"a\"b\"/>" ∧
      c.getXmlString = Except.ok text ∧ parseXmlElement text = none :=
  ⟨_, _, rfl, rfl, rfl, rfl, rfl⟩

/-- Keys with a colon within the range of `unsigned int`: for every key of
fewer than 2^32 bytes that contains a colon, `separateNameAndNameSpace` splits
the key at its first colon: the prefix `p` holds no colon, the name `n` is all
the text behind that colon, and `p ++ ":" ++ n` is the key; and whenever the
key is written as `p ++ ":" ++ n` with a colon-free `p`, the result is the
name `n` and the prefix `p`. -/
theorem separate_at_first_colon (key : String) (hcolon : ':' ∈ key.data)
    (hlen : utf8Length key.data < 2 ^ 32) :
    (∃ p n, key = p ++ ":" ++ n ∧ ':' ∉ p.data ∧ separateNameAndNameSpace key = (n, p)) ∧
    (∀ p n : String, ':' ∉ p.data → key = p ++ ":" ++ n →
      separateNameAndNameSpace key = (n, p)) := by
  have hgen : ∀ p n : String, ':' ∉ p.data → key = p ++ ":" ++ n →
      separateNameAndNameSpace key = (n, p) := by
    intro p n hp hk
    have hl : utf8Length p.data < 2 ^ 32 - 1 := by
      have hd : key.data = p.data ++ (':' :: n.data) := by
        rw [hk]; simp [String.data_append]
      have : utf8Length key.data = utf8Length p.data + (1 + utf8Length n.data) := by
        rw [hd, utf8Length_append]; rfl
      omega
    rw [hk]
    exact separate_with_colon p n hp hl
  refine ⟨?_, hgen⟩
  obtain ⟨p, r, hl, hp⟩ := split_at_first ':' key.data hcolon
  have hk : key = (⟨p⟩ : String) ++ ":" ++ ⟨r⟩ := by
    apply String.ext
    rw [hl]
    simp [String.data_append]
  exact ⟨⟨p⟩, ⟨r⟩, hk, hp, hgen ⟨p⟩ ⟨r⟩ hp hk⟩

/-- The key `dc:title:x`, whose second colon stays in the name. -/
theorem separate_at_first_colon_witness :
    (∃ p n, "dc:title:x" = p ++ ":" ++ n ∧ ':' ∉ p.data ∧
      separateNameAndNameSpace "dc:title:x" = (n, p)) ∧
    (∀ p n : String, ':' ∉ p.data → "dc:title:x" = p ++ ":" ++ n →
      separateNameAndNameSpace "dc:title:x" = (n, p)) :=
  separate_at_first_colon "dc:title:x" (by decide) (by decide)

/-- C21 (the code falls short of it): `configure` succeeds on
`precedenceElement` and on `attributeAndEntryElement`, which both carry the
attribute `playlength="00:00:01"` and a metadata child, and gives the duration
of one second; but the store, replaced by the copy of the metadata child after
the attribute text was mirrored, returns `00:00:09`, the text of the entry of
the child, for `dcterms:extent` in the first case, and nothing in the second,
where the child has no such entry. -/
theorem configure_replaces_mirrored_extent :
    get_attribute precedenceElement playlengthAttrName = some "00:00:01" ∧
    get_attribute attributeAndEntryElement playlengthAttrName = some "00:00:01" ∧
    (∃ c, AudioClip.fresh.configure precedenceElement = ConfigureResult.returned c ∧
      c.playlength = some ⟨1000000⟩ ∧
      c.getMetadata "dcterms:extent" = Except.ok (some "00:00:09")) ∧
    (∃ c, AudioClip.fresh.configure attributeAndEntryElement = ConfigureResult.returned c ∧
      c.playlength = some ⟨1000000⟩ ∧
      c.getMetadata "dcterms:extent" = Except.ok none) :=
  ⟨rfl, rfl, ⟨_, rfl, rfl, rfl⟩, ⟨_, rfl, rfl, rfl⟩⟩

/-- C22: Defaults for empty metadata entries.  For every clip without
identifier, title and duration (a fresh clip is one) and every `audioClip`
element with an `id` attribute, no `playlength` and no `title` attribute and
exactly one metadata child, in which `x` is the first `dcterms:extent` entry
and `y` the first `dc:title` entry in document order (a text of `x`, if it has
one, being a duration text): `configure` returns, the duration is the one `x`
stands for and the title the one `y` stands for, whatever entries follow them;
when `x` has no text the duration is zero, and when `y` has no text the title
is empty. -/
theorem empty_entries_defaults (c : AudioClip) (e m x y : Element) (i : String)
    (hcid : c.id = none) (hctitle : c.title = none) (hcplay : c.playlength = none)
    (hname : e.name = configElementNameStr)
    (hid : get_attribute e idAttrName = some i)
    (hp : get_attribute e playlengthAttrName = none)
    (ht : get_attribute e titleAttrName = none)
    (hmeta : get_children e.children metadataElementName = [Node.element m])
    (hx : firstEntry extentElementPrefix extentElementName m.children = some x)
    (hy : firstEntry titleElementPrefix titleElementName m.children = some y)
    (hd : ∀ content, get_child_text x = some content → duration_from_string content ≠ none) :
    ∃ c', c.configure e = ConfigureResult.returned c' ∧ c'.id = some i ∧
      c'.playlength = entryDuration x ∧ c'.title = some (entryTitle y) ∧
      (get_child_text x = none → c'.playlength = some ⟨0⟩) ∧
      (get_child_text y = none → c'.title = some "") := by
  obtain ⟨c4, h4, hid4, -, hi4, ht4, hp4⟩ := configure_reaches_metadata c e hname
    (Or.inr (by simp [hid])) (fun _ h => absurd hp h) (fun _ h => absurd ht h)
    (fun t _ h => by rw [hp] at h; cases h)
  rw [hcid, hid] at hi4
  rw [hctitle, ht] at ht4
  rw [hcplay, hp] at hp4
  have hi4 : c4.id = some i := hi4
  have ht4 : c4.title = none := ht4
  have hp4 : c4.playlength = none := hp4
  have hdx : entryDuration x ≠ none := by
    unfold entryDuration
    cases hc : get_child_text x with
    | none => simp
    | some content => exact hd content hc
  obtain ⟨c5, h5, i5, -, -, -, p5, t5⟩ := scanDataFields_first m.children
    { c4 with xmlAudioClip := some { root := some (importedRoot i m) } }
    (fun _ z hz => by rw [hx] at hz; cases hz; exact hdx)
  have hp5 : c5.playlength = entryDuration x := by
    rw [p5]
    have : c4.playlength = none := hp4
    simp [this, hx]
  have ht5 : c5.title = some (entryTitle y) := by
    rw [t5]
    have : c4.title = none := ht4
    simp [this, hy]
  have hconf : c.configure e = ConfigureResult.returned c5 := by
    rw [h4]
    rw [hi4] at h5
    unfold configureMetadata
    simp only [hmeta, Node.asElement, hi4, get_children_empty, h5, List.isEmpty_nil, if_true]
    obtain ⟨dd, hdd⟩ := Option.ne_none_iff_exists'.1 hdx
    simp [checkRequired, hp5, ht5, hdd]
  refine ⟨c5, hconf, i5.trans hi4, hp5, ht5, ?_, ?_⟩
  · intro hn
    rw [hp5]
    simp only [entryDuration, hn]
    rfl
  · intro hn
    rw [ht5]
    simp only [entryTitle, hn]

/-- C22, witness: the metadata child holds an empty `dcterms:extent` and an
empty `dc:title` in front of entries with the texts `00:00:09` and `B`; the
duration is zero and the title empty. -/
theorem empty_entries_defaults_witness :
    ∃ c', AudioClip.fresh.configure emptyEntriesElement = ConfigureResult.returned c' ∧
      c'.id = some "1" ∧ c'.playlength = some ⟨0⟩ ∧ c'.title = some "" :=
  (empty_entries_defaults AudioClip.fresh emptyEntriesElement _ _ _ "1" rfl rfl rfl rfl rfl rfl
    rfl rfl rfl rfl (fun content h => by cases h)).elim
    (fun c' h => ⟨c', h.1, h.2.1, h.2.2.2.2.1 rfl, h.2.2.2.2.2 rfl⟩)

/-- C23 (amended): Tag import equals a fold of set.  When the table is
configured, the clip has a locator, the file is readable, and a generic tag
and a frame tag are present, `readTag` ends as the sequence of calls of
`setMetadata` does that sets, for each of the fields Artist, Title, Album,
Comment, Genre, Year and Track that the table recognises, in this order, the
value of the field (year and track as decimal texts) under the key the table
maps the field to, and then, in the order of iteration of the frame map, for
each group whose four-character code the table recognises and that is not
empty, the text of its first frame under the key the table maps the code to;
other groups add no call.  And when the store of the clip is a map for the
keys of these calls, `readTag` returns, and `getMetadata` on every key that a
frame group sets returns the value of the last frame group on that key,
whatever the generic tag holds for it. -/
theorem readTag_is_fold_of_set (tc : TagConversion) (files : String → SoundFile)
    (c : AudioClip) (uri : String) (tag : Tag) (frames : List (String × List String))
    (hconf : tc.isConfigured = true) (huri : c.uri = some uri)
    (hread : (files uri).isReadable = true) (htag : (files uri).tag = some tag)
    (hframes : (files uri).frameListMap = some frames) :
    c.readTag tc files =
      outcomeOf (setAllKeys c (genericCalls tc tag ++ frameCalls tc frames)) ∧
    (keysReplaceable c.xmlAudioClip
        ((genericCalls tc tag ++ frameCalls tc frames).map splitCall) = true →
      ∃ c', c.readTag tc files = ConfigureResult.returned c' ∧
        ∀ key value,
          lastValue (separateNameAndNameSpace key).1 (separateNameAndNameSpace key).2
            ((frameCalls tc frames).map splitCall) = some value →
          c'.getMetadata key = Except.ok (some value)) := by
  have main := readTag_eq tc files c uri tag frames hconf huri hread htag hframes
  refine ⟨main, ?_⟩
  intro hwb
  obtain ⟨c', hc', hval⟩ := setAll_replaceable _ c hwb
  refine ⟨c', ?_, ?_⟩
  · rw [main, setAllKeys_eq_setAll, hc']; rfl
  · intro key value hv
    unfold AudioClip.getMetadata
    apply hval
    rw [List.map_append]
    exact lastValue_append _ _ _ _ _ hv

/-- C23, witness: with a table that maps `Title` and `TIT2` to `dc:title` and
`Year` to `dc:date`, a tag with the title `Generic title` and the year 1999,
and the frame groups `APIC` (not in the table), `TIT2` (frames `Frame title`,
`second`) and `TALB` (empty), `readTag` makes three calls and `dc:title` ends
as `Frame title`. -/
theorem readTag_is_fold_of_set_witness :
    exampleClip.readTag exampleTable exampleFiles =
      outcomeOf (setAllKeys exampleClip
        [("Generic title", "dc:title"), ("1999", "dc:date"), ("Frame title", "dc:title")]) ∧
    ∃ c', exampleClip.readTag exampleTable exampleFiles = ConfigureResult.returned c' ∧
      c'.getMetadata "dc:title" = Except.ok (some "Frame title") :=
  ⟨(readTag_is_fold_of_set exampleTable exampleFiles exampleClip "file:///tmp/a.mp3" exampleTag
      _ rfl rfl rfl rfl rfl).1,
   ((readTag_is_fold_of_set exampleTable exampleFiles exampleClip "file:///tmp/a.mp3" exampleTag
      _ rfl rfl rfl rfl rfl).2 rfl).elim
     (fun c' h => ⟨c', h.1, h.2 "dc:title" "Frame title" rfl⟩)⟩

/-- C23, counterexample: under a table that maps `Title` and `TIT2` to
`ls:title`, a key whose prefix is not declared, the two calls of `readTag`
leave two elements `title` without namespace, the value of the generic tag in
the first and the text of the frame in the second, and
`getMetadata("ls:title")` returns nothing: the frame value has not taken the
place of the generic value. -/
theorem readTag_undeclared_prefix_keeps_generic_value :
    ∃ c', exampleClip.readTag undeclaredTable exampleFiles = ConfigureResult.returned c' ∧
      entryKeys c'.xmlAudioClip = [("", "title"), ("", "title")] ∧
      c'.getMetadataAt "title" "" = Except.ok (some "Generic title") ∧
      c'.getMetadata "ls:title" = Except.ok none :=
  ⟨_, rfl, rfl, rfl, rfl⟩

/-- Outside the keys for which the store is a map: under a table that maps
`Artist` to `dc:title` and both `Title` and `TIT2` to `dcterms:title`, the call
for the frame finds `dcterms:title` and writes to the first element called
`title`, so that `dcterms:title` keeps the value of the generic tag. -/
theorem readTag_frame_written_to_other_key :
    ∃ c', exampleClip.readTag clashingTable exampleFiles = ConfigureResult.returned c' ∧
      c'.getMetadata "dcterms:title" = Except.ok (some "Generic title") ∧
      c'.getMetadata "dc:title" = Except.ok (some "Frame title") :=
  ⟨_, rfl, rfl, rfl⟩

end LiveSupport
